import Mathlib

/-!
# IDR(s) solver `magma_zidr_acc` (sparse-iter/src/zidr_acc.cpp)

A shallow embedding of the control logic of `magma_zidr_acc` in exact arithmetic.

* Scalars: `K` stands for `magmaDoubleComplex`, `R` for `double`.  Both are fields, so every
  statement below is a statement about the algorithm in exact arithmetic.  The real
  precisions generated from the same source (`@precisions normal z -> s d c`) are the
  instances with `K = R` and trivial conjugation; the executable instance used for concrete
  runs is `K = R = ℚ`.
* Device arrays are total functions on indices; every BLAS call touches exactly the index
  range given by its length argument.  Matrices are stored by column (`G j i` is row `i` of
  column `j`), as in the column-major arrays of the source.
* The routines the solver calls but which are not part of the file (norm, square root,
  random numbers, QR, dense solve) are the fields of `Collab`.
* Memory allocation, queues, chronometry, the verbose residual/timing samples and debug
  printing are not modelled.  Of the calls wrapped in the macro CHECK only the dense solve
  can fail in the model; the allocations, transfers, matrix-vector products and dot
  products are taken to succeed.
-/

namespace Idr

/-! ## Status codes (magma_types.h) -/

/-- Value of MAGMA_SUCCESS in magma_types.h. -/
def MAGMA_SUCCESS : Int := 0

/-- Value of MAGMA_ERR in magma_types.h. -/
def MAGMA_ERR : Int := -100

/-- Value of MAGMA_SLOW_CONVERGENCE in magma_types.h. -/
def MAGMA_SLOW_CONVERGENCE : Int := -201

/-- Value of MAGMA_DIVERGENCE in magma_types.h. -/
def MAGMA_DIVERGENCE : Int := -202

/-! ## Data model -/

/-- A device array of scalars, addressed by index. -/
abbrev Vec (K : Type) := Nat → K

/-- A column-major dense matrix: `G j` is column `j`, `G j i` its row `i`. -/
abbrev ColMat (K : Type) := Nat → Nat → K

/-- The operator `A` (a `magma_z_matrix` in sparse storage): its dimensions and its entries,
`val i j` being row `i`, column `j`. -/
structure magma_z_matrix (K : Type) where
  num_rows : Int
  num_cols : Int
  val : Nat → Nat → K

/-- A `magma_z_matrix` in dense storage holding a (block) vector such as `b` or `x`. -/
structure magma_z_vector (K : Type) where
  num_rows : Int
  num_cols : Int
  dval : Vec K

/-- The fields of `magma_z_solver_par` read or written by the solver. -/
structure magma_z_solver_par (R : Type) where
  maxiter : Int
  restart : Int
  epsilon : R
  numiter : Int
  init_res : R
  final_res : R
  iter_res : R
  info : Int

/-- External routines used by the solver whose code is not part of the solver file. -/
structure Collab (K R : Type) where
  /-- MAGMA_Z_REAL. -/
  real : K → R
  /-- A `double` used as a scalar of the field `K` in mixed arithmetic. -/
  make : R → K
  /-- The host `sqrt`. -/
  sqrt : R → R
  /-- The value of `lapackf77_dlamch("E")`, used by RTOLERANCE and ATOLERANCE. -/
  dlamch_E : R
  /-- The 2-norm `magma_dznrm2(n, x, 1)`. -/
  dznrm2 : Int → Vec K → R
  /-- The `rows`-by-`cols` matrix filled by `lapackf77_zlarnv` (normal distribution,
  seed 0,0,0,1). -/
  zlarnv : Int → Int → ColMat K
  /-- The orthonormal factor computed by `magma_zqr(m, n, P1, &P)`. -/
  zqr : Int → Int → ColMat K → ColMat K
  /-- The dense solve `magma_zgesv_gpu(n, nrhs, A, ldda, piv, B, lddb, &info)`: the code it
  returns (also stored through `&info`) and the contents of `B` afterwards. -/
  zgesv : Int → Int → ColMat K → Vec K → Int × Vec K

/-- Outcome of a block of statements inside the do-while loop. -/
inductive Flow (σ : Type) where
  /-- Control falls through to the following statement. -/
  | next : σ → Flow σ
  /-- A `break` was executed. -/
  | brk : σ → Flow σ
  /-- A CHECK failed: `goto cleanup`. -/
  | cleanup : σ → Flow σ

/-- The condition on an outcome that asks `N` of the state that falls through, `B` of the
state at a `break` and `L` of the state at a `goto cleanup`. -/
def Flow.sat {σ : Type} (N B L : σ → Prop) : Flow σ → Prop
  | .next s => N s
  | .brk s => B s
  | .cleanup s => L s

/-- The state carried by an outcome. -/
def Flow.state {σ : Type} : Flow σ → σ
  | .next s => s
  | .brk s => s
  | .cleanup s => s

/-- A number for the kind of an outcome: 0 for falling through, 1 for a `break`, 2 for a
`goto cleanup`. -/
def Flow.code {σ : Type} : Flow σ → Nat
  | .next _ => 0
  | .brk _ => 1
  | .cleanup _ => 2

/-- The mutable variables of the iteration. -/
structure IdrState (K R : Type) where
  x : Vec K
  r : Vec K
  G : ColMat K
  U : ColMat K
  M : ColMat K
  f : Vec K
  c : Vec K
  v1 : Vec K
  v : Vec K
  t : Vec K
  om : K
  nrmr : R
  numiter : Int
  info : Int
  innerflag : Int

/-- The variables that stay fixed during the iteration. -/
structure IdrEnv (K R : Type) where
  A : magma_z_matrix K
  b : magma_z_vector K
  /-- The value of `x->num_rows`. -/
  xrows : Int
  /-- The shadow space `dP`, with `A.num_cols` rows and `s` columns. -/
  P : ColMat K
  s : Int
  tolb : R
  /-- The value of `solver_par->maxiter` after the cap. -/
  maxiter : Int

/-- What the call leaves behind: the returned `info`, the array of `x` and `solver_par`. -/
structure IdrResult (K R : Type) where
  info : Int
  x : Vec K
  par : magma_z_solver_par R

section Model

variable {K R : Type} [Field K] [StarRing K] [DecidableEq K] [LinearOrderedField R]

/-! ## Pointer views -/

/-- The array seen through the pointer `&v[k]`. -/
def ptr (v : Vec K) (k : Nat) : Vec K := fun i => v (k + i)

/-- The array `v` after the part seen through `&v[k]` has become `w`. -/
def store (v : Vec K) (k : Nat) (w : Vec K) : Vec K :=
  fun i => if i < k then v i else w (i - k)

/-- The matrix seen through the pointer to its column `k`. -/
def cols (G : ColMat K) (k : Nat) : ColMat K := fun j => G (k + j)

/-- The matrix `G` with column `k` replaced. -/
def setCol (G : ColMat K) (k : Nat) (w : Vec K) : ColMat K :=
  fun j => if j = k then w else G j

/-! ## BLAS in exact arithmetic -/

/-- The sum `f 0 + ... + f (n-1)`. -/
def sumTo : Nat → (Nat → K) → K
  | 0, _ => 0
  | n + 1, f => sumTo n f + f n

/-- Modelled from the spec: `copy(x, out y)`, on the first `n` entries. -/
def magma_zcopy (n : Int) (x y : Vec K) : Vec K :=
  fun i => if (i : Int) < n then x i else y i

/-- Modelled from the spec: `scale(alpha, inout x)`, on the first `n` entries. -/
def magma_zscal (n : Int) (alpha : K) (x : Vec K) : Vec K :=
  fun i => if (i : Int) < n then alpha * x i else x i

/-- Modelled from the spec: `axpy(alpha, x, inout y)`, y = alpha·x + y on the first `n`
entries. -/
def magma_zaxpy (n : Int) (alpha : K) (x y : Vec K) : Vec K :=
  fun i => if (i : Int) < n then alpha * x i + y i else y i

/-- Modelled from the spec: `dot(x, y)`, the conjugate inner product of the first `n`
entries. -/
def magma_zdotc (n : Int) (x y : Vec K) : K :=
  sumTo n.toNat (fun i => star (x i) * y i)

/-- Entry `i` of the product A·x. -/
def matVec (A : magma_z_matrix K) (x : Vec K) (i : Nat) : K :=
  sumTo A.num_cols.toNat (fun j => A.val i j * x j)

/-- Modelled from the spec: `spmv(alpha, A, x, beta, out y)`: y = alpha·A·x + beta·y. -/
def magma_z_spmv (alpha : K) (A : magma_z_matrix K) (x : Vec K) (beta : K) (y : Vec K) :
    Vec K :=
  fun i => if (i : Int) < A.num_rows then alpha * matVec A x i + beta * y i else y i

/-- Modelled from the spec: the dense product `magmablas_zgemv(MagmaNoTrans, m, n, ...)`:
y = alpha·A·x + beta·y for an `m`-by-`n` block `A`. -/
def magmablas_zgemv_N (m n : Int) (alpha : K) (A : ColMat K) (x : Vec K) (beta : K)
    (y : Vec K) : Vec K :=
  fun i => if (i : Int) < m
    then alpha * sumTo n.toNat (fun j => A j i * x j) + beta * y i
    else y i

/-- Modelled from the spec: the dense product `magmablas_zgemv(MagmaConjTrans, m, n, ...)`:
y = alpha·Aᴴ·x + beta·y for an `m`-by-`n` block `A`. -/
def magmablas_zgemv_C (m n : Int) (alpha : K) (A : ColMat K) (x : Vec K) (beta : K)
    (y : Vec K) : Vec K :=
  fun j => if (j : Int) < n
    then alpha * sumTo m.toNat (fun i => star (A j i) * x i) + beta * y j
    else y j

/-- Modelled from the spec: `fused_dual_dot`, equivalent to two separate dot calls; for the
call of the solver it returns ⟨t,t⟩ and tr = ⟨t,r⟩. -/
def magma_zmdotc (n : Int) (t r : Vec K) : K × K :=
  (magma_zdotc n t t, magma_zdotc n t r)

/-- Modelled from the spec: the residual r = b − A·x computed directly with one
matrix-vector product, and its norm. -/
def magma_zresidualvec (C : Collab K R) (A : magma_z_matrix K) (b : magma_z_vector K)
    (x : Vec K) (r : Vec K) : Vec K × R :=
  let dofs := A.num_rows * b.num_cols
  let r1 := magma_z_spmv (-1) A x 0 r
  let r2 := magma_zaxpy dofs 1 b.dval r1
  (r2, C.dznrm2 dofs r2)

/-! ## The solver -/

/-- The macro CHECK of common_magmasparse.h applied to a returned code `e`: for a nonzero
`e` it stores `e` in `info` and jumps to the label `cleanup` (the result is `some e`),
otherwise control continues (the result is `none`). -/
def CHECK (e : Int) : Option Int := if e ≠ 0 then some e else none

/-- The macro MIN of the source: `(((a) < (b)) ? (a) : (b))`. -/
def MIN (a b : Int) : Int := if a < b then a else b

/-- Lines 417-438: pass `i` of the bi-orthogonalization of columns `k` of `G` and `U`. -/
def biorthoStep (E : IdrEnv K R) (k i : Nat) (st : IdrState K R) : IdrState K R :=
  -- alpha = P(:,i)' G(:,k)
  let alpha := magma_zdotc E.A.num_cols (E.P i) (st.G k)
  -- alpha = alpha / M(i,i)
  let mkk := st.M i i
  let alpha := alpha / mkk
  -- G(:,k) = G(:,k) - alpha * G(:,i)
  let G := setCol st.G k (magma_zaxpy E.A.num_cols (-alpha) (st.G i) (st.G k))
  -- U(:,k) = U(:,k) - alpha * U(:,i)
  let U := setCol st.U k (magma_zaxpy E.A.num_cols (-alpha) (st.U i) (st.U k))
  { st with G := G, U := U }

/-- The loop `for ( i = 0; i < k; ++i )` of lines 418-438, run for `i = 0 .. m-1`. -/
def biortho (E : IdrEnv K R) (k : Nat) : Nat → IdrState K R → IdrState K R
  | 0, st => st
  | m + 1, st => biorthoStep E k m (biortho E k m st)

/-- Lines 368-380: the small system of inner step `k`; returns the code of
`magma_zgesv_gpu` and the state with the new `c`. -/
def smallSolve (C : Collab K R) (E : IdrEnv K R) (k : Nat) (st : IdrState K R) :
    Int × IdrState K R :=
  let sk : Int := E.s - k
  -- c(k:s) = f(k:s)
  let c := store st.c k (magma_zcopy sk (ptr st.f k) (ptr st.c k))
  -- M1 = M;  c(k:s) = M1(k:s,k:s) \ c(k:s)
  let sol := C.zgesv sk E.b.num_cols (fun j => ptr (st.M (k + j)) k) (ptr c k)
  (sol.1, { st with c := store c k sol.2, info := sol.1 })

/-- Lines 384-445 of inner step `k`: the new columns `k` of `U`, `G` and `M`; the result is
the state in which `M(k,k)` is tested. -/
def newDirection (E : IdrEnv K R) (k : Nat) (st : IdrState K R) : IdrState K R :=
  let sk : Int := E.s - k
  -- v1 = r
  let v1 := magma_zcopy (E.b.num_rows * E.b.num_cols) st.r st.v1
  -- v1 = v1 - G(:,k:s) c(k:s)
  let v1 := magmablas_zgemv_N E.A.num_cols sk (-1) (cols st.G k) (ptr st.c k) 1 v1
  -- v1 = om * v1 + U(:,k:s) c(k:s)
  let v1 := magmablas_zgemv_N E.A.num_cols sk 1 (cols st.U k) (ptr st.c k) st.om v1
  -- U(:,k) = v1
  let U := setCol st.U k (magma_zcopy E.A.num_cols v1 (st.U k))
  -- v = A v1
  let v := magma_z_spmv 1 E.A v1 0 st.v
  -- G(:,k) = v
  let G := setCol st.G k (magma_zcopy E.A.num_cols v (st.G k))
  -- bi-orthogonalize the new basis vectors
  let st1 := biortho E k k { st with v1 := v1, v := v, U := U, G := G }
  -- M(k:s,k) = P(:,k:s)' G(:,k)
  let Mk := magmablas_zgemv_C E.A.num_cols sk 1 (cols E.P k) (st1.G k) 0 (ptr (st1.M k) k)
  { st1 with M := setCol st1.M k (store (st1.M k) k Mk) }

/-- Lines 455-457: the scalar `beta = f(k) / M(k,k)` of inner step `k`. -/
def stepBeta (k : Nat) (st : IdrState K R) : K :=
  let mkk := st.M k k
  let fk := st.f k
  fk / mkk

/-- Lines 455-470 of inner step `k`: the update of `x` and `r` and the new `|r|`. -/
def updateXR (C : Collab K R) (E : IdrEnv K R) (k : Nat) (st : IdrState K R) :
    IdrState K R :=
  let beta := stepBeta k st
  -- x = x + beta * U(:,k)
  let x := magma_zaxpy E.xrows beta (st.U k) st.x
  -- r = r - beta * G(:,k)
  let r := magma_zaxpy E.b.num_rows (-beta) (st.G k) st.r
  -- |r|
  let nrmr := C.dznrm2 (E.b.num_rows * E.b.num_cols) r
  { st with x := x, r := r, nrmr := nrmr }

/-- Lines 490-495 of inner step `k`: the array `f` after
`f(k+1:s) = f(k+1:s) - beta * M(k+1:s,k)`. -/
def updateF (E : IdrEnv K R) (k : Nat) (st : IdrState K R) : Vec K :=
  let sk : Int := E.s - k
  let beta := stepBeta k st
  if (k : Int) + 1 < E.s
    then store st.f (k + 1)
      (magma_zaxpy (sk - 1) (-beta) (ptr (st.M k) (k + 1)) (ptr st.f (k + 1)))
    else st.f

/-- Lines 455-498 of inner step `k`, entered when `M(k,k)` is not zero: the update of `x`
and `r`, the check of convergence or iteration limit, the update of `f` and of the
counter. -/
def applyUpdate (C : Collab K R) (E : IdrEnv K R) (k : Nat) (st : IdrState K R) :
    Flow (IdrState K R) :=
  let st1 := updateXR C E k st
  -- check convergence or iteration limit
  if st1.nrmr ≤ E.tolb ∨ st1.numiter ≥ E.maxiter then
    .brk { st1 with innerflag := 1 }
  else
    -- new f;  iter = iter + 1
    .next { st1 with f := updateF E k st, numiter := st1.numiter + 1 }

/-- Lines 368-498: the body of the shadow space loop for one value of `k`. -/
def innerStep (C : Collab K R) (E : IdrEnv K R) (k : Nat) (st : IdrState K R) :
    Flow (IdrState K R) :=
  let sol := smallSolve C E k st
  -- CHECK( magma_zgesv_gpu( ... ) )
  match CHECK sol.1 with
  | some e => .cleanup { sol.2 with info := e }
  | none =>
    let st1 := newDirection E k sol.2
    -- check M(k,k) == 0
    if st1.M k k = 0 then
      .brk { st1 with info := MAGMA_DIVERGENCE, innerflag := 1 }
    else
      applyUpdate C E k st1

/-- The loop `for ( k = 0; k < s; ++k )` of lines 367-499, from index `k` on; `rem` is the
number of indices left, `s - k`. -/
def innerLoop (C : Collab K R) (E : IdrEnv K R) : Nat → Nat → IdrState K R →
    Flow (IdrState K R)
  | 0, _, st => .next st
  | rem + 1, k, st =>
    match innerStep C E k st with
    | .next st1 => innerLoop C E rem (k + 1) st1
    | out => out

/-- Lines 506-550: `v = r`, `t = A v` and the new omega; the result is the state in which
omega is tested.  The quotients are those of the field, with `a / 0 = 0`; `omegaIeee` below
gives the tested value with the quotients of IEEE arithmetic, and the two agree when no
divisor is zero. -/
def newOmega (C : Collab K R) (E : IdrEnv K R) (st : IdrState K R) : IdrState K R :=
  let angle : R := 7 / 10
  -- v = r
  let v := magma_zcopy (E.b.num_rows * E.b.num_cols) st.r st.v
  -- t = A v
  let t := magma_z_spmv 1 E.A v 0 st.t
  -- merged dot product
  let dof := E.A.num_rows * E.b.num_cols
  let skp := magma_zmdotc dof t st.r
  let nrmt := C.sqrt (C.real skp.1)
  let tr := skp.2
  -- rho = abs(tr / (|t| * |r|))
  let rho := |C.real tr / (nrmt * st.nrmr)|
  -- om = tr / (|t| * |t|)
  let om := tr / C.make (nrmt * nrmt)
  let om := if rho < angle then om * C.make angle / C.make rho else om
  { st with v := v, t := t, om := om }

/-- Lines 561-572: the update of `x` and `r` by the dimension-reduction step and the new
`|r|`. -/
def omegaUpdate (C : Collab K R) (E : IdrEnv K R) (st : IdrState K R) : IdrState K R :=
  -- x = x + om * v
  let x := magma_zaxpy E.xrows st.om st.v st.x
  -- r = r - om * t
  let r := magma_zaxpy E.b.num_rows (-st.om) st.t st.r
  -- residual norm
  let nrmr := C.dznrm2 (E.b.num_rows * E.b.num_cols) r
  { st with x := x, r := r, nrmr := nrmr }

/-- Lines 506-589: the dimension-reduction step that follows a complete shadow space
loop. -/
def dimRedStep (C : Collab K R) (E : IdrEnv K R) (st : IdrState K R) :
    Flow (IdrState K R) :=
  let st1 := newOmega C E st
  if st1.om = 0 then
    .brk { st1 with info := MAGMA_DIVERGENCE }
  else
    let st2 := omegaUpdate C E st1
    -- check convergence or iteration limit
    if st2.nrmr ≤ E.tolb ∨ st2.numiter ≥ E.maxiter then .brk st2 else .next st2

/-- Lines 359-363: the head of the body of the do-while loop. -/
def cycleStart (E : IdrEnv K R) (st : IdrState K R) : IdrState K R :=
  -- solver_par->numiter++
  let st1 := { st with numiter := st.numiter + 1 }
  -- f = P' r
  let f := magmablas_zgemv_C E.A.num_cols E.s 1 E.P st1.r 0 st1.f
  { st1 with f := f }

/-- Lines 358-597: the body of the do-while loop. -/
def iteration (C : Collab K R) (E : IdrEnv K R) (st : IdrState K R) :
    Flow (IdrState K R) :=
  match innerLoop C E E.s.toNat 0 (cycleStart E st) with
  | .cleanup st2 => .cleanup st2
  | .brk st2 => if st2.innerflag = 1 then .brk st2 else dimRedStep C E st2
  | .next st2 => if st2.innerflag = 1 then .brk st2 else dimRedStep C E st2

/-- Lines 357-598: the do-while loop, run for at most `fuel` passes; `none` when the fuel
does not suffice. -/
def idrLoop (C : Collab K R) (E : IdrEnv K R) : Nat → IdrState K R →
    Option (Flow (IdrState K R))
  | 0, _ => none
  | fuel + 1, st =>
    match iteration C E st with
    | .next st1 =>
      if st1.numiter + 1 ≤ E.maxiter then idrLoop C E fuel st1 else some (.next st1)
    | out => some out

/-- Lines 183-189: the shadow space size taken from `solver_par->restart`. -/
def shadowSize (restart : Int) (A : magma_z_matrix K) : Int :=
  if restart ≠ 30 then
    if restart > A.num_cols then A.num_cols else restart
  else 1

/-- Lines 229-253: the shadow space `P`. -/
def shadowSpace (C : Collab K R) (n s : Int) : ColMat K :=
  let P1 := C.zlarnv n s
  if s > 1 then
    C.zqr n s P1
  else
    let dof := n * s
    let nrm := C.dznrm2 dof (P1 0)
    let nrm := 1 / nrm
    setCol P1 0 (magma_zscal dof (C.make nrm) (P1 0))

/-- Lines 298-302: the threshold `tolb`. -/
def idrTol (C : Collab K R) (b : magma_z_vector K) (epsilon : R) : R :=
  let nrmb := C.dznrm2 b.num_rows b.dval
  let tolb := nrmb * epsilon
  if tolb < C.dlamch_E then C.dlamch_E else tolb

/-- The fixed variables of the iteration for a call with the given arguments.  The product
`2 * A.num_cols` of line 193 is taken exactly; `storedMaxiter` below takes it in
`magma_int_t` arithmetic, and the two agree for `0 ≤ A.num_cols < 2 ^ 30`. -/
def idrEnv (C : Collab K R) (A : magma_z_matrix K) (b : magma_z_vector K)
    (x : magma_z_vector K) (solver_par : magma_z_solver_par R) : IdrEnv K R :=
  let s := shadowSize solver_par.restart A
  { A := A, b := b, xrows := x.num_rows, P := shadowSpace C A.num_cols s, s := s,
    tolb := idrTol C b solver_par.epsilon,
    maxiter := MIN (2 * A.num_cols) solver_par.maxiter }

/-- Lines 263-354: the state in which the do-while loop is entered. -/
def idrInit (C : Collab K R) (A : magma_z_matrix K) (b : magma_z_vector K)
    (x : magma_z_vector K) (solver_par : magma_z_solver_par R) : IdrState K R :=
  let s := shadowSize solver_par.restart A
  let res := magma_zresidualvec C A b x.dval (fun _ => 0)
  { x := x.dval, r := res.1,
    G := fun _ _ => 0, U := fun _ _ => 0,
    M := fun j i => if i = j ∧ (i : Int) < s then 1 else 0,
    f := fun _ => 0, c := fun _ => 0, v1 := fun _ => 0, v := fun _ => 0, t := fun _ => 0,
    om := 1, nrmr := res.2, numiter := 0, info := 0, innerflag := 0 }

/-- The state `s` is one in which a breakdown test leaves the loop: the test of `M(k,k)`
of some inner step (lines 449-453) or the test of omega of a dimension-reduction step
(lines 556-559). -/
def Breakdown (C : Collab K R) (E : IdrEnv K R) (s : IdrState K R) : Prop :=
  (∃ k st, (smallSolve C E k st).1 = 0 ∧
    (newDirection E k (smallSolve C E k st).2).M k k = 0 ∧
    s = { newDirection E k (smallSolve C E k st).2 with
          info := MAGMA_DIVERGENCE, innerflag := 1 }) ∨
  (∃ st, (newOmega C E st).om = 0 ∧ s = { newOmega C E st with info := MAGMA_DIVERGENCE })

/-- The state `s` is one in which a checkpoint leaves the loop: the check of convergence or
iteration limit of some inner step (lines 485-488), taken after its update of `x` and `r`,
or the one of a dimension-reduction step (lines 587-589). -/
def Checkpoint (C : Collab K R) (E : IdrEnv K R) (s : IdrState K R) : Prop :=
  (∃ k st, s = { updateXR C E k st with innerflag := 1 } ∧
    ((updateXR C E k st).nrmr ≤ E.tolb ∨ st.numiter ≥ E.maxiter)) ∨
  (∃ st, s = omegaUpdate C E (newOmega C E st) ∧
    ((omegaUpdate C E (newOmega C E st)).nrmr ≤ E.tolb ∨ st.numiter ≥ E.maxiter))

/-- The arguments describe an `n`-by-`n` system with one right-hand side: `A` is `n`-by-`n`
and `b` and `x` have `n` rows, `b` one column. -/
def SquareSystem (E : IdrEnv K R) (n : Nat) : Prop :=
  E.A.num_rows = n ∧ E.A.num_cols = n ∧ E.b.num_rows = n ∧ E.b.num_cols = 1 ∧ E.xrows = n

/-- The relations the iteration maintains in exact arithmetic on an `n`-by-`n` system:
r = b − A·x, G(:,j) = A·U(:,j) for every column, and `nrmr` is the norm of `r`. -/
def ResidualInv (C : Collab K R) (E : IdrEnv K R) (n : Nat) (st : IdrState K R) : Prop :=
  (∀ i, i < n → st.r i = E.b.dval i - matVec E.A st.x i) ∧
  (∀ j i, i < n → st.G j i = matVec E.A (st.U j) i) ∧
  st.nrmr = C.dznrm2 (E.b.num_rows * E.b.num_cols) st.r

/-- The product P(:,j)ᴴ·w over the `A.num_cols` rows of `P`, as computed by the
`magma_zdotc` of line 423 and, for a block of columns, by the products of lines 363
and 444. -/
def pdot (E : IdrEnv K R) (j : Nat) (w : Vec K) : K :=
  magma_zdotc E.A.num_cols (E.P j) w

/-- Column `l` of `G` is orthogonal to the columns `j < l` of `P`, and column `l` of `M`
holds P(:,j)ᴴ·G(:,l) in its rows `l ≤ j < s`. -/
def BiCol (E : IdrEnv K R) (l : Nat) (st : IdrState K R) : Prop :=
  (∀ j, j < l → pdot E j (st.G l) = 0) ∧
  (∀ j, l ≤ j → (j : Int) < E.s → st.M l j = pdot E j (st.G l))

/-- The matrix `M` (column first) has zeros above its diagonal. -/
def LowerTri (M : ColMat K) : Prop := ∀ j i, i < j → M j i = 0

/-- The states in which the shadow space loop of one pass of the do-while body stands at
the head of inner step `k`: the pass is entered in state `st0`, and every earlier inner
step fell through to the next one. -/
inductive InnerReach (C : Collab K R) (E : IdrEnv K R) (st0 : IdrState K R) :
    Nat → IdrState K R → Prop
  | start : InnerReach C E st0 0 (cycleStart E st0)
  | step (k : Nat) (st st1 : IdrState K R) : InnerReach C E st0 k st → (k : Int) < E.s →
      innerStep C E k st = .next st1 → InnerReach C E st0 (k + 1) st1

/-- The states in which the body of the do-while loop is entered, for a loop entered in
state `st0`: every earlier pass fell through to the while-condition and the condition
held. -/
inductive LoopReach (C : Collab K R) (E : IdrEnv K R) (st0 : IdrState K R) :
    IdrState K R → Prop
  | start : LoopReach C E st0 st0
  | pass (st st1 : IdrState K R) : LoopReach C E st0 st → iteration C E st = .next st1 →
      st1.numiter + 1 ≤ E.maxiter → LoopReach C E st0 st1

/-- Lines 386-390 of inner step `k`: the vector `v1 = r - G(:,k:s) c(k:s)`, before it is
blended into the new column of `U`. -/
def residualProjection (E : IdrEnv K R) (k : Nat) (st : IdrState K R) : Vec K :=
  let sk : Int := E.s - k
  -- v1 = r
  let v1 := magma_zcopy (E.b.num_rows * E.b.num_cols) st.r st.v1
  -- v1 = v1 - G(:,k:s) c(k:s)
  magmablas_zgemv_N E.A.num_cols sk (-1) (cols st.G k) (ptr st.c k) 1 v1

/-- The contract of the dense solve on the blocks the solver forms: for a lower triangular
block with nonzero diagonal it reports success. -/
def SolveOk (C : Collab K R) : Prop :=
  ∀ (n nrhs : Int) (M : ColMat K) (b : Vec K),
    (∀ i j : Nat, i < j → (j : Int) < n → M j i = 0) →
    (∀ i : Nat, (i : Int) < n → M i i ≠ 0) → (C.zgesv n nrhs M b).1 = 0

/-- The products with `A` performed by inner step `k`: the `magma_z_spmv` of line 409 is
reached when the CHECK of the dense solve passes. -/
def innerStepSpmv (C : Collab K R) (E : IdrEnv K R) (k : Nat) (st : IdrState K R) : Nat :=
  match CHECK (smallSolve C E k st).1 with
  | some _ => 0
  | none => 1

/-- A count over the inner steps started by the shadow space loop, step `k` started in
state `st` counting `w k st`. -/
def innerLoopCount (C : Collab K R) (E : IdrEnv K R) (w : Nat → IdrState K R → Nat) :
    Nat → Nat → IdrState K R → Nat
  | 0, _, _ => 0
  | rem + 1, k, st =>
    w k st +
      match innerStep C E k st with
      | .next st1 => innerLoopCount C E w rem (k + 1) st1
      | _ => 0

/-- The count over one pass of the do-while body: its inner steps, and 1 for the
dimension-reduction step (with its `magma_z_spmv` of line 511) when the pass reaches
it. -/
def iterationCount (C : Collab K R) (E : IdrEnv K R) (w : Nat → IdrState K R → Nat)
    (st : IdrState K R) : Nat :=
  innerLoopCount C E w E.s.toNat 0 (cycleStart E st) +
    match innerLoop C E E.s.toNat 0 (cycleStart E st) with
    | .cleanup _ => 0
    | .brk st2 => if st2.innerflag = 1 then 0 else 1
    | .next st2 => if st2.innerflag = 1 then 0 else 1

/-- The count over the passes of the do-while loop. -/
def idrLoopCount (C : Collab K R) (E : IdrEnv K R) (w : Nat → IdrState K R → Nat) :
    Nat → IdrState K R → Nat
  | 0, _ => 0
  | fuel + 1, st =>
    iterationCount C E w st +
      match iteration C E st with
      | .next st1 => if st1.numiter + 1 ≤ E.maxiter then idrLoopCount C E w fuel st1 else 0
      | _ => 0

/-- The number of inner steps and dimension-reduction steps started inside the loop. -/
def idrLoopSteps (C : Collab K R) (E : IdrEnv K R) (fuel : Nat) (st : IdrState K R) : Nat :=
  idrLoopCount C E (fun _ _ => 1) fuel st

/-- The number of products with `A` performed inside the loop. -/
def idrLoopSpmv (C : Collab K R) (E : IdrEnv K R) (fuel : Nat) (st : IdrState K R) : Nat :=
  idrLoopCount C E (innerStepSpmv C E) fuel st

/-! ## The scalar IDR(1) recurrence

A second description of the iteration for shadow space size 1, written after the
specification: one shadow vector `p`, one direction pair `u`, `g`, and scalars in place of
`M`, `f` and `c`.  It is compared with the solver at `s = 1`. -/

/-- The variables of the scalar IDR(1) recurrence. -/
structure Idr1State (K R : Type) where
  x : Vec K
  r : Vec K
  u : Vec K
  g : Vec K
  m : K
  om : K
  nrmr : R
  numiter : Int

/-- The relaxation scalar of the dimension-reduction step: omega = tr / nrm_t², rescaled by
0.7 / rho when rho = |Re(tr) / (nrm_t · nrm_r)| is below 0.7. -/
def idr1Omega (C : Collab K R) (n : Int) (t r : Vec K) (nrmr : R) : K :=
  let nrmt := C.sqrt (C.real (magma_zdotc n t t))
  let tr := magma_zdotc n t r
  let rho := |C.real tr / (nrmt * nrmr)|
  let om := tr / C.make (nrmt * nrmt)
  if rho < 7 / 10 then om * C.make (7 / 10) / C.make rho else om

/-- One outer cycle of the scalar IDR(1) recurrence on an `n`-by-`n` system:
c = f/M, U = omega·(r − c·G) + c·U, G = A·U, M = Pᴴ·G, beta = f/M, x += beta·U,
r −= beta·G, followed by one dimension-reduction step; with the breakdown checks and the
checks of convergence and limit after each update, and the counter advanced once per
step. -/
def idr1Cycle (C : Collab K R) (A : magma_z_matrix K) (n : Int) (p : Vec K) (tol : R)
    (maxiter : Int) (st : Idr1State K R) : Flow (Idr1State K R) :=
  let numiter := st.numiter + 1
  let f := magma_zdotc n p st.r
  let c := f / st.m
  let u : Vec K := fun i => st.om * (st.r i - c * st.g i) + c * st.u i
  let g : Vec K := matVec A u
  let m := magma_zdotc n p g
  if m = 0 then
    .brk { st with u := u, g := g, m := m, numiter := numiter }
  else
    let beta := f / m
    let x := magma_zaxpy n beta u st.x
    let r := magma_zaxpy n (-beta) g st.r
    let nrmr := C.dznrm2 n r
    if nrmr ≤ tol ∨ numiter ≥ maxiter then
      .brk { x := x, r := r, u := u, g := g, m := m, om := st.om, nrmr := nrmr,
             numiter := numiter }
    else
      let numiter := numiter + 1
      let t : Vec K := matVec A r
      let om := idr1Omega C n t r nrmr
      if om = 0 then
        .brk { x := x, r := r, u := u, g := g, m := m, om := om, nrmr := nrmr,
               numiter := numiter }
      else
        let x := magma_zaxpy n om r x
        let r := magma_zaxpy n (-om) t r
        let nrmr := C.dznrm2 n r
        if nrmr ≤ tol ∨ numiter ≥ maxiter then
          .brk { x := x, r := r, u := u, g := g, m := m, om := om, nrmr := nrmr,
                 numiter := numiter }
        else
          .next { x := x, r := r, u := u, g := g, m := m, om := om, nrmr := nrmr,
                  numiter := numiter }

/-- The scalar IDR(1) recurrence repeated while the counter is below the limit, for at
most `fuel` cycles. -/
def idr1Loop (C : Collab K R) (A : magma_z_matrix K) (n : Int) (p : Vec K) (tol : R)
    (maxiter : Int) : Nat → Idr1State K R → Option (Flow (Idr1State K R))
  | 0, _ => none
  | fuel + 1, st =>
    match idr1Cycle C A n p tol maxiter st with
    | .next st1 =>
      if st1.numiter + 1 ≤ maxiter then idr1Loop C A n p tol maxiter fuel st1
      else some (.next st1)
    | out => some out

/-- The state in which the scalar recurrence starts: the initial guess and its residual,
U = G = 0, M = 1, omega = 1. -/
def idr1Init (C : Collab K R) (A : magma_z_matrix K) (b x : magma_z_vector K) :
    Idr1State K R :=
  let res := magma_zresidualvec C A b x.dval (fun _ => 0)
  { x := x.dval, r := res.1, u := fun _ => 0, g := fun _ => 0, m := 1, om := 1,
    nrmr := res.2, numiter := 0 }

/-- The two loops end the same way: both run out of fuel, or both end with an outcome of
the same kind carrying the same `x`, `r` and iteration counter. -/
def SameOutcome (o : Option (Flow (IdrState K R))) (o1 : Option (Flow (Idr1State K R))) :
    Prop :=
  match o, o1 with
  | none, none => True
  | some out, some out1 =>
    out.code = out1.code ∧ out.state.x = out1.state.x ∧ out.state.r = out1.state.r ∧
      out.state.numiter = out1.state.numiter
  | _, _ => False

/-- The contract of the dense solve on a 1-by-1 system with nonzero coefficient: success,
and the quotient as solution. -/
def Solve1 (C : Collab K R) : Prop :=
  ∀ (nrhs : Int) (M : ColMat K) (b : Vec K), M 0 0 ≠ 0 →
    (C.zgesv 1 nrhs M b).1 = 0 ∧ (C.zgesv 1 nrhs M b).2 0 = b 0 / M 0 0

/-- The state of the solver at `s = 1` and the state of the scalar recurrence agree: `x`
and `r` are the same arrays, column 0 of `U` and `G` agree with `u` and `g` in the first
`n` rows, `M(0,0)` is the nonzero scalar `m`, and omega, `|r|` and the counter are equal. -/
def Sim (n : Nat) (st : IdrState K R) (st1 : Idr1State K R) : Prop :=
  st.x = st1.x ∧ st.r = st1.r ∧ (∀ i, i < n → st.U 0 i = st1.u i) ∧
  (∀ i, i < n → st.G 0 i = st1.g i) ∧ st.M 0 0 = st1.m ∧ st1.m ≠ 0 ∧ st.om = st1.om ∧
  st.nrmr = st1.nrmr ∧ st.numiter = st1.numiter ∧ st.innerflag = 0

/-- Lines 627-650: the label `cleanup`. -/
def cleanup (info : Int) (x : Vec K) (solver_par : magma_z_solver_par R) : IdrResult K R :=
  { info := info, x := x, par := { solver_par with info := info } }

/-- Lines 605-618: last stats and solver conclusion, followed by `cleanup`. -/
def lastStats (C : Collab K R) (E : IdrEnv K R) (solver_par : magma_z_solver_par R)
    (st : IdrState K R) : IdrResult K R :=
  let par := { solver_par with numiter := st.numiter, iter_res := st.nrmr }
  let res := magma_zresidualvec C E.A E.b st.x st.r
  let par := { par with final_res := res.2 }
  let info := if st.info ≠ MAGMA_SUCCESS
    then (if par.init_res > par.final_res then MAGMA_SLOW_CONVERGENCE else MAGMA_DIVERGENCE)
    else st.info
  cleanup info st.x par

/-- The routine `magma_zidr_acc`; `fuel` bounds the number of passes of the do-while loop
and the result is `none` when it does not suffice.  The CHECKs of the memory routines are
taken to pass; `magma_zidr_acc_mem` below adds them. -/
def magma_zidr_acc (C : Collab K R) (fuel : Nat) (A : magma_z_matrix K)
    (b : magma_z_vector K) (x : magma_z_vector K) (solver_par : magma_z_solver_par R) :
    Option (IdrResult K R) :=
  -- prepare solver feedback
  let par := { solver_par with numiter := 0, info := MAGMA_SUCCESS }
  -- check if matrix A is square
  if A.num_rows ≠ A.num_cols then
    some (cleanup MAGMA_ERR x.dval par)
  else
  -- initial s space, max iterations
  let E := idrEnv C A b x solver_par
  let par := { par with restart := E.s, maxiter := E.maxiter }
  -- |b|
  let nrmb := C.dznrm2 b.num_rows b.dval
  if nrmb = 0 then
    let xv := magma_zscal (x.num_rows * x.num_cols) 0 x.dval
    some (cleanup 0 xv { par with init_res := 0, final_res := 0, iter_res := 0 })
  else
  let st0 := idrInit C A b x solver_par
  -- |r|
  let par := { par with init_res := st0.nrmr }
  -- check if initial is guess good enough
  if st0.nrmr ≤ E.tolb then
    some (cleanup 0 x.dval { par with final_res := par.init_res, iter_res := par.init_res })
  else
  match idrLoop C E fuel st0 with
  | none => none
  | some (.cleanup st) => some (cleanup st.info st.x { par with numiter := st.numiter })
  | some (.brk st) => some (lastStats C E par st)
  | some (.next st) => some (lastStats C E par st)

/-! ## The new omega with the quotients of IEEE arithmetic

`newOmega` takes the quotients of lines 543-550 in the field, where `a / 0 = 0`.  In the
routine a quotient by zero is an infinity or a NaN.  The definitions below give the value
of `om` that line 556 tests with those quotients; they agree with `newOmega` whenever no
quotient has a zero divisor. -/

/-- Lines 536-540 of a dimension-reduction step entered in `st`: `|t|` for `t = A v`,
`v = r`. -/
def omegaNrmt (C : Collab K R) (E : IdrEnv K R) (st : IdrState K R) : R :=
  let v := magma_zcopy (E.b.num_rows * E.b.num_cols) st.r st.v
  let t := magma_z_spmv 1 E.A v 0 st.t
  let dof := E.A.num_rows * E.b.num_cols
  C.sqrt (C.real (magma_zmdotc dof t st.r).1)

/-- Line 541 of a dimension-reduction step entered in `st`: `tr = t' r`. -/
def omegaTr (E : IdrEnv K R) (st : IdrState K R) : K :=
  let v := magma_zcopy (E.b.num_rows * E.b.num_cols) st.r st.v
  let t := magma_z_spmv 1 E.A v 0 st.t
  let dof := E.A.num_rows * E.b.num_cols
  (magma_zmdotc dof t st.r).2

/-- A scalar divided by a `double` in IEEE arithmetic: `none` stands for the result of a
division by zero, an infinity or a NaN; it does not compare equal to zero and the products
and quotients formed from it are infinities or NaNs again. -/
def ieeeDiv (C : Collab K R) (a : K) (d : R) : Option K :=
  if d = 0 then none else some (a / C.make d)

/-- Lines 543-550 with the quotients of IEEE arithmetic: the value of `om` tested in line
556, `none` when it is an infinity or a NaN.  The comparison `rho < angle` is false when
`rho` is not a number. -/
def omegaIeee (C : Collab K R) (E : IdrEnv K R) (st : IdrState K R) : Option K :=
  let angle : R := 7 / 10
  let nrmt := omegaNrmt C E st
  let tr := omegaTr E st
  -- om = tr / (|t| * |t|)
  let om := ieeeDiv C tr (nrmt * nrmt)
  -- rho = abs(tr / (|t| * |r|))
  if nrmt * st.nrmr = 0 then om
  else
    let rho := |C.real tr / (nrmt * st.nrmr)|
    -- if ( rho < angle ) om = om * angle / rho
    if rho < angle then om.bind (fun o => ieeeDiv C (o * C.make angle) rho) else om

/-! ## The routine with the checks of its memory routines

`magma_zidr_acc` above is the routine on the calls in which every CHECK of a memory routine
passes.  The definitions below add those CHECKs, for memory routines given by their return
codes. -/

/-- Value of MAGMA_ERR_HOST_ALLOC in magma_types.h. -/
def MAGMA_ERR_HOST_ALLOC : Int := -112

/-- Value of MAGMA_ERR_DEVICE_ALLOC in magma_types.h. -/
def MAGMA_ERR_DEVICE_ALLOC : Int := -113

/-- The argument `mem_loc` of `magma_zvinit`. -/
inductive magma_location_t where
  | Magma_CPU : magma_location_t
  | Magma_DEV : magma_location_t

/-- The return codes of the memory routines called by the solver. -/
structure MemRoutines where
  /-- The code of `magma_zvinit(&x, mem_loc, num_rows, num_cols, c_zero, queue)`. -/
  zvinit : magma_location_t → Int → Int → Int
  /-- The code of `magma_zmalloc(&d, n)`. -/
  zmalloc : Int → Int
  /-- The code of `magma_imalloc_pinned(&piv, n)`. -/
  imalloc_pinned : Int → Int

/-- A chain of CHECKs: the first nonzero code, with which control jumps to `cleanup`. -/
def firstCheck : List Int → Option Int
  | [] => none
  | e :: es =>
    match CHECK e with
    | some e1 => some e1
    | none => firstCheck es

/-- Lines 229-283: the CHECKs of the memory routines between the test of `|b|` and the
test of the initial guess, in the order of the source (`P1`, `dt`, `dr`, `dskp`, `skp`,
`d1`, `d2`).  The transfers, `magma_zqr` and `magma_zresidualvec` are taken to succeed. -/
def setupChecks (M : MemRoutines) (A : magma_z_matrix K) (b : magma_z_vector K) (s : Int) :
    Option Int :=
  firstCheck
    [M.zvinit .Magma_CPU A.num_cols s,
     M.zvinit .Magma_DEV A.num_rows (2 * b.num_cols),
     M.zvinit .Magma_DEV b.num_rows b.num_cols,
     M.zvinit .Magma_DEV 2 1,
     M.zvinit .Magma_CPU 2 1,
     M.zmalloc (b.num_rows * b.num_cols * 2),
     M.zmalloc (b.num_rows * b.num_cols * 2)]

/-- Lines 310-344: the CHECKs of the memory routines between the test of the initial guess
and the loop, in the order of the source (`dG`, `dU`, `dM1`, `dM`, `df`, `dc`, `dv1`, `dv`,
`piv`). -/
def loopChecks (M : MemRoutines) (A : magma_z_matrix K) (b : magma_z_vector K) (s : Int) :
    Option Int :=
  firstCheck
    [M.zvinit .Magma_DEV A.num_cols s,
     M.zvinit .Magma_DEV A.num_cols s,
     M.zvinit .Magma_DEV s s,
     M.zvinit .Magma_DEV s s,
     M.zvinit .Magma_DEV s b.num_cols,
     M.zvinit .Magma_DEV s b.num_cols,
     M.zvinit .Magma_DEV b.num_rows b.num_cols,
     M.zvinit .Magma_DEV b.num_rows b.num_cols,
     M.imalloc_pinned s]

/-- The routine `magma_zidr_acc` with the CHECKs of its memory routines: the first one that
fails stores its code in `info` and jumps to `cleanup`, where the code is returned with `x`
and the fields of `solver_par` as they are at that point. -/
def magma_zidr_acc_mem (M : MemRoutines) (C : Collab K R) (fuel : Nat)
    (A : magma_z_matrix K) (b : magma_z_vector K) (x : magma_z_vector K)
    (solver_par : magma_z_solver_par R) : Option (IdrResult K R) :=
  -- the returns for a matrix that is not square and for |b| == 0 precede every allocation
  if A.num_rows ≠ A.num_cols ∨ C.dznrm2 b.num_rows b.dval = 0 then
    magma_zidr_acc C fuel A b x solver_par
  else
  let E := idrEnv C A b x solver_par
  let par := { solver_par with numiter := 0, info := MAGMA_SUCCESS, restart := E.s,
                               maxiter := E.maxiter }
  match setupChecks M A b E.s with
  | some e => some (cleanup e x.dval par)
  | none =>
    let st0 := idrInit C A b x solver_par
    -- check if initial is guess good enough
    if st0.nrmr ≤ E.tolb then magma_zidr_acc C fuel A b x solver_par
    else
      match loopChecks M A b E.s with
      | some e => some (cleanup e x.dval { par with init_res := st0.nrmr })
      | none => magma_zidr_acc C fuel A b x solver_par

/-! ## The iteration cap in machine arithmetic -/

/-- The value of a `magma_int_t` expression (a 32-bit `int`) whose exact value is `z`:
two's-complement wrap-around. -/
def int32 (z : Int) : Int := (z + 2 ^ 31) % 2 ^ 32 - 2 ^ 31

/-- Line 193 in `magma_int_t` arithmetic: the value stored into `solver_par->maxiter`.  It
is the `maxiter` of `idrEnv`, which takes the product `2 * A.num_cols` exactly, whenever
that product does not overflow. -/
def storedMaxiter (A : magma_z_matrix K) (maxiter : Int) : Int :=
  MIN (int32 (2 * A.num_cols)) maxiter

end Model

/-! ## Exact real and complex arithmetic -/

section Exact

variable {K : Type} [RCLike K] [DecidableEq K]

/-- The scalar collaborators compute in exact arithmetic over the real or the complex
numbers: `real` is the real part, a `double` is used as the scalar it denotes, `sqrt` is the
square root and `dznrm2` is the 2-norm, the square root of the inner product of a vector
with itself. -/
def ExactArith (C : Collab K ℝ) : Prop :=
  (∀ z : K, C.real z = RCLike.re z) ∧ (∀ a : ℝ, C.make a = (a : K)) ∧
  (∀ a : ℝ, C.sqrt a = Real.sqrt a) ∧
  ∀ (n : Int) (v : Vec K), C.dznrm2 n v = Real.sqrt (RCLike.re (magma_zdotc n v v))

end Exact

section Generic

variable {K R : Type} [Field K] [StarRing K] [DecidableEq K] [LinearOrderedField R]

/-- The collaborators built from a real part, an embedding of the reals and a square root:
the 2-norm is the square root of the inner product; the random matrix is all ones and the
dense solve is not used. -/
def collabOf (real : K → R) (make : R → K) (sqrt : R → R) : Collab K R :=
  { real := real, make := make, sqrt := sqrt, dlamch_E := 0,
    dznrm2 := fun n v => sqrt (real (magma_zdotc n v v)),
    zlarnv := fun _ _ _ _ => 1, zqr := fun _ _ P => P, zgesv := fun _ _ _ b => (0, b) }

/-- The fixed variables of the 1-by-1 system with A = (a) and b = (1). -/
def scalarEnv (a : K) : IdrEnv K R :=
  { A := { num_rows := 1, num_cols := 1, val := fun _ _ => a },
    b := { num_rows := 1, num_cols := 1, dval := fun _ => 1 },
    xrows := 1, P := fun _ _ => 1, s := 1, tolb := 0, maxiter := 10 }

/-- A state of the 1-by-1 system with residual `r = (1)` and `|r| = 1`. -/
def scalarState : IdrState K R :=
  { x := fun _ => 0, r := fun _ => 1, G := fun _ _ => 0, U := fun _ _ => 0,
    M := fun _ _ => 1, f := fun _ => 0, c := fun _ => 0, v1 := fun _ => 0, v := fun _ => 0,
    t := fun _ => 0, om := 1, nrmr := 1, numiter := 2, info := 0, innerflag := 0 }

end Generic

/-! ## An executable instance over ℚ -/

/-- The largest `k ≤ m` with `k * k ≤ n`. -/
def isqrtUpTo (n : Nat) : Nat → Nat
  | 0 => 0
  | m + 1 => if (m + 1) * (m + 1) ≤ n then m + 1 else isqrtUpTo n m

/-- The square root on ℚ, exact on squares of rationals (and rounded down on numerator and
denominator otherwise). -/
def ratSqrt (q : ℚ) : ℚ :=
  (isqrtUpTo q.num.toNat q.num.toNat : ℚ) / (isqrtUpTo q.den q.den : ℚ)

/-- Forward substitution for the first `n` unknowns of a lower triangular system. -/
def forwardSubst (A : ColMat ℚ) (b : Vec ℚ) : Nat → Vec ℚ
  | 0 => b
  | n + 1 =>
    let y := forwardSubst A b n
    fun i => if i = n then (b n - sumTo n (fun j => A j n * y j)) / A n n else y i

/-- The 1-based index of the first zero among the first `n` diagonal entries, 0 if there is
none: the value of `info` of an LU factorization of a lower triangular matrix. -/
def firstZeroPivot (A : ColMat ℚ) : Nat → Int
  | 0 => 0
  | n + 1 =>
    if firstZeroPivot A n ≠ 0 then firstZeroPivot A n
    else if A n n = 0 then (n : Int) + 1 else 0

/-- An exact dense solve for lower triangular systems, the only ones the solver forms: with
a zero pivot it returns its index and leaves the right-hand side untouched. -/
def lowerSolve (n _nrhs : Int) (A : ColMat ℚ) (b : Vec ℚ) : Int × Vec ℚ :=
  if firstZeroPivot A n.toNat ≠ 0 then (firstZeroPivot A n.toNat, b)
  else (0, forwardSubst A b n.toNat)

/-- The collaborators in exact rational arithmetic, for a given draw `P1` of the random
matrix; `magma_zqr` is the identity, which is its result on a draw with orthonormal
columns. -/
def exactCollab (P1 : ColMat ℚ) : Collab ℚ ℚ :=
  { real := fun a => a,
    make := fun a => a,
    sqrt := ratSqrt,
    dlamch_E := 1 / 2 ^ 53,
    dznrm2 := fun n x => ratSqrt (sumTo n.toNat (fun i => x i * x i)),
    zlarnv := fun _ _ => P1,
    zqr := fun _ _ P => P,
    zgesv := lowerSolve }

/-- The collaborators with a dense solve that reports a singular pivot (code 1) for every
1-by-1 system and is exact otherwise: the synthetic failure of the small solve. -/
def mockCollab (P1 : ColMat ℚ) : Collab ℚ ℚ :=
  { exactCollab P1 with
    zgesv := fun n nrhs A b => if n = 1 then (1, b) else lowerSolve n nrhs A b }

/-! ## Concrete inputs -/

/-- A draw of the random matrix whose columns are the first unit vectors. -/
def unitDraw : ColMat ℚ := fun j i => if i = j then 1 else 0

/-- The 2-by-2 matrix with rows `(a, b)` and `(c, d)`. -/
def mat22 (a b c d : ℚ) : magma_z_matrix ℚ :=
  { num_rows := 2, num_cols := 2,
    val := fun i j =>
      if i = 0 then (if j = 0 then a else if j = 1 then b else 0)
      else if i = 1 then (if j = 0 then c else if j = 1 then d else 0)
      else 0 }

/-- A 3-by-4 matrix. -/
def mat34 : magma_z_matrix ℚ :=
  { num_rows := 3, num_cols := 4, val := fun i j => (i : ℚ) + (j : ℚ) }

/-- The identity matrix of order 100. -/
def eye100 : magma_z_matrix ℚ :=
  { num_rows := 100, num_cols := 100, val := fun i j => if i = j then 1 else 0 }

/-- The zero vector with 100 rows. -/
def zero100 : magma_z_vector ℚ :=
  { num_rows := 100, num_cols := 1, dval := fun _ => 0 }

/-- The vector `(a, b)`. -/
def vec2 (a b : ℚ) : magma_z_vector ℚ :=
  { num_rows := 2, num_cols := 1, dval := fun i => if i = 0 then a else if i = 1 then b else 0 }

/-- Solver parameters with the given `maxiter` and `restart`, relative tolerance 1e-10, and
stale values in the output fields. -/
def parOf (maxiter restart : Int) : magma_z_solver_par ℚ :=
  { maxiter := maxiter, restart := restart, epsilon := 1 / 10 ^ 10, numiter := 7,
    init_res := 9, final_res := 9, iter_res := 9, info := 5 }

/-- The collaborators of the concrete runs: exact rational arithmetic with the unit
vectors as shadow space. -/
def runCollab : Collab ℚ ℚ := exactCollab unitDraw

/-- The fixed variables of the run on A = [[2,1],[1,2]], b = (3,4), zero initial guess,
with shadow space size `s`. -/
def runEnv (s : Int) : IdrEnv ℚ ℚ :=
  idrEnv runCollab (mat22 2 1 1 2) (vec2 3 4) (vec2 0 0) (parOf 100 s)

/-- The state in which that run enters the do-while loop. -/
def runInit (s : Int) : IdrState ℚ ℚ :=
  idrInit runCollab (mat22 2 1 1 2) (vec2 3 4) (vec2 0 0) (parOf 100 s)

/-- The state after the first inner step of that run. -/
def runStep0 (s : Int) : IdrState ℚ ℚ :=
  (innerStep runCollab (runEnv s) 0 (cycleStart (runEnv s) (runInit s))).state

/-- The state after the first pass of the do-while body of that run. -/
def runPass1 (s : Int) : IdrState ℚ ℚ :=
  (iteration runCollab (runEnv s) (runInit s)).state

/-- Memory routines that fail exactly on a request for a negative number of elements, with
the code of the memory asked for, and succeed otherwise. -/
def sizedMem : MemRoutines :=
  { zvinit := fun loc m n =>
      if m * n < 0 then
        (match loc with
         | .Magma_CPU => MAGMA_ERR_HOST_ALLOC
         | .Magma_DEV => MAGMA_ERR_DEVICE_ALLOC)
      else 0,
    zmalloc := fun n => if n < 0 then MAGMA_ERR_DEVICE_ALLOC else 0,
    imalloc_pinned := fun n => if n < 0 then MAGMA_ERR_HOST_ALLOC else 0 }

/-- The state carried by the outcome of a loop, the zero state if there is none. -/
def exitState (o : Option (Flow (IdrState ℚ ℚ))) : IdrState ℚ ℚ :=
  match o with
  | some out => out.state
  | none =>
    { x := fun _ => 0, r := fun _ => 0, G := fun _ _ => 0, U := fun _ _ => 0,
      M := fun _ _ => 0, f := fun _ => 0, c := fun _ => 0, v1 := fun _ => 0,
      v := fun _ => 0, t := fun _ => 0, om := 0, nrmr := 0, numiter := 0, info := 0,
      innerflag := 0 }

/-- The result of a call, a zero result if there is none. -/
def resultOf (o : Option (IdrResult ℚ ℚ)) : IdrResult ℚ ℚ :=
  match o with
  | some res => res
  | none => cleanup 0 (fun _ => 0) (parOf 0 0)

end Idr

/-! # magma_zgetrf2 (src/src/zgetrf-v2.cpp)

The host control flow of the LU factorization driver.  The routine works on the host array
`a`, the pivot array `ipiv` and a device buffer; these form the memory `μ` of a call, which
the model does not look into.  Every routine that receives a pointer into that memory is
an operation on `μ`; routines that receive no such pointer (`magma_xerbla`, which prints
the position of the bad argument, `magma_get_zgetrf_nb`, `cuCtxSynchronize`) cannot change
it.  `magma_int_t` is modelled by `Int`. -/

namespace Getrf

/-- Device and transfer routines called by the hybrid blocked code.  A call is recorded
with its integer arguments in source order; a host pointer is given as its offset from
`a` (or from `ipiv`), a device pointer as its offset from `dA`. -/
inductive Kernel
  | zsetmatrix_transpose
  | ztranspose
  | cublasGetMatrix
  | ztrsm
  | zgemm
  | zpermute_long2
  | cublasSetMatrix
  | ztranspose2
  | zgetmatrix_transpose
  | magma_free
  deriving DecidableEq

/-- External routines of `magma_zgetrf2` over the memory `μ` of the call. -/
structure GetrfOps (μ : Type) where
  /-- Block size chosen for `m` rows. -/
  magma_get_zgetrf_nb : Int → Int
  /-- Whether `magma_zmalloc` of the given number of elements returns `MAGMA_SUCCESS`. -/
  magma_zmalloc : Int → Bool
  /-- Host LU: `lapackf77_zgetrf(&m, &n, a + off, &lda, ipiv + poff, &info)`; the
  arguments are `m n off lda poff`, the result is the memory and the value left in `info`. -/
  lapackf77_zgetrf : Int → Int → Int → Int → Int → μ → μ × Int
  /-- Out-of-core LU `magma_zgetrf_ooc(m, n, a, lda, ipiv, info)`. -/
  magma_zgetrf_ooc : Int → Int → Int → μ → μ × Int
  /-- Pivoting pass `magma_zgetrf_piv(m, n, a, lda, ipiv, info)`. -/
  magma_zgetrf_piv : Int → Int → Int → μ → μ × Int
  /-- Device and transfer routines. -/
  device : Kernel → List Int → μ → μ

section Model

variable {μ : Type}

/-- A counted loop `for (i = i0; i < i0 + cnt; i++) body`, for a body that assigns neither
the index nor the bound. -/
def forLoop {σ : Type} (body : Int → σ → σ) : Nat → Int → σ → σ
  | 0, _, st => st
  | cnt + 1, i, st => forLoop body cnt (i + 1) (body i st)

/-- State of the hybrid code: the memory, `*info` and `iinfo`. -/
structure PanelState (μ : Type) where
  mem : μ
  info : Int
  iinfo : Int

/-- The statement `if (*info == 0 && iinfo > 0) *info = iinfo + off;`. -/
def recordInfo (off : Int) (st : PanelState μ) : PanelState μ :=
  if st.info = 0 ∧ st.iinfo > 0 then { st with info := st.iinfo + off } else st

/-- The macro `inAT(i,j)`, as an offset from `dA` (`dAT = dA + 2*nb*maxm`). -/
def inAT (nb maxm ldda i j : Int) : Int := 2 * nb * maxm + i * nb * ldda + j * nb

/-- Body of the panel loop (lines 147-196) for panel `i`. -/
def panelStep (O : GetrfOps μ) (m n lda nb maxm ldda s : Int) (i : Int)
    (st : PanelState μ) : PanelState μ :=
  let at_ := inAT nb maxm ldda
  let cols := maxm - i * nb
  let st : PanelState μ :=
    if i > 0 then
      let mem := O.device .ztranspose [0, cols, at_ i i, ldda, nb, cols] st.mem
      let mem := O.device .cublasGetMatrix [m - i * nb, nb, 0, cols, 0, lda] mem
      let mem := O.device .ztrsm
        [n - (i + 1) * nb, nb, at_ (i - 1) (i - 1), ldda, at_ (i - 1) (i + 1), ldda] mem
      let mem := O.device .zgemm
        [n - (i + 1) * nb, m - i * nb, nb, at_ (i - 1) (i + 1), ldda, at_ i (i - 1), ldda,
          at_ i (i + 1), ldda] mem
      let rows := m - i * nb
      let r := O.lapackf77_zgetrf rows nb 0 lda (i * nb) mem
      { st with mem := r.1, iinfo := r.2 }
    else st
  let st := recordInfo (i * nb) st
  let mem := O.device .zpermute_long2 [2 * nb * maxm, ldda, 0, nb, i * nb] st.mem
  let mem := O.device .cublasSetMatrix [m - i * nb, nb, 0, lda, 0, cols] mem
  let mem := O.device .ztranspose [at_ i i, ldda, 0, cols, cols, nb] mem
  let mem :=
    if s > i + 1 then
      let mem := O.device .ztrsm [nb, nb, at_ i i, ldda, at_ i (i + 1), ldda] mem
      O.device .zgemm
        [nb, m - (i + 1) * nb, nb, at_ i (i + 1), ldda, at_ (i + 1) i, ldda,
          at_ (i + 1) (i + 1), ldda] mem
    else
      let mem := O.device .ztrsm [n - s * nb, nb, at_ i i, ldda, at_ i (i + 1), ldda] mem
      O.device .zgemm
        [n - (i + 1) * nb, m - (i + 1) * nb, nb, at_ i (i + 1), ldda, at_ (i + 1) i, ldda,
          at_ (i + 1) (i + 1), ldda] mem
  { st with mem := mem }

/-- The remaining `nb0` columns after the last full panel (lines 198-236). -/
def lastPanel (O : GetrfOps μ) (m n lda nb maxm ldda s : Int) (st : PanelState μ) :
    PanelState μ :=
  let at_ := inAT nb maxm ldda
  let nb0 := min (m - s * nb) (n - s * nb)
  let rows := m - s * nb
  let cols := maxm - s * nb
  if n ≥ m then
    let mem := O.device .ztranspose2 [0, cols, at_ s s, ldda, nb0, rows] st.mem
    let mem := O.device .cublasGetMatrix [rows, nb0, 0, cols, 0, lda] mem
    let r := O.lapackf77_zgetrf rows nb0 0 lda (s * nb) mem
    let st := recordInfo (s * nb) { st with mem := r.1, iinfo := r.2 }
    let mem := O.device .zpermute_long2 [2 * nb * maxm, ldda, 0, nb0, s * nb] st.mem
    let mem := O.device .cublasSetMatrix [rows, nb0, 0, lda, 0, cols] mem
    let mem := O.device .ztranspose2 [at_ s s, ldda, 0, cols, rows, nb0] mem
    let mem := O.device .ztrsm
      [n - s * nb - nb0, nb0, at_ s s, ldda, at_ s s + nb0, ldda] mem
    let mem := O.device .zgetmatrix_transpose
      [m, n, 2 * nb * maxm, ldda, 0, lda, 0, maxm, nb] mem
    { st with mem := mem }
  else
    let mem := O.device .ztranspose2 [0, maxm, at_ 0 s, ldda, nb0, m] st.mem
    let mem := O.device .cublasGetMatrix [m, nb0, 0, maxm, s * nb * lda, lda] mem
    let r := O.lapackf77_zgetrf rows nb0 (s * nb + s * nb * lda) lda (s * nb) mem
    let st := recordInfo (s * nb) { st with mem := r.1, iinfo := r.2 }
    let mem := O.device .zpermute_long2 [2 * nb * maxm, ldda, 0, nb0, s * nb] st.mem
    let mem := O.device .zgetmatrix_transpose
      [m, n - nb0, 2 * nb * maxm, ldda, 0, lda, 0, maxm, nb] mem
    { st with mem := mem }

/-- The hybrid blocked code (lines 123-239), entered with `*info = 0`. -/
def hybrid (O : GetrfOps μ) (m n lda nb : Int) (mem : μ) : μ × Int :=
  let s := Int.tdiv (min m n) nb
  let maxm := Int.tdiv (m + 31) 32 * 32
  let maxn := Int.tdiv (n + 31) 32 * 32
  let ldda := maxn
  if O.magma_zmalloc ((2 * nb + maxn) * maxm) = false then
    let r := O.magma_zgetrf_ooc m n lda mem
    if r.2 = 0 then O.magma_zgetrf_piv m n lda r.1 else r
  else
    let mem := O.device .zsetmatrix_transpose
      [m, n - nb, nb * lda, lda, 2 * nb * maxm + nb, ldda, 0, maxm, nb] mem
    let r := O.lapackf77_zgetrf m nb 0 lda 0 mem
    let st : PanelState μ := { mem := r.1, info := 0, iinfo := r.2 }
    let st := forLoop (panelStep O m n lda nb maxm ldda s) s.toNat 0 st
    let st := lastPanel O m n lda nb maxm ldda s st
    (O.device .magma_free [0] st.mem, st.info)

/-- The routine `magma_zgetrf2(m, n, a, lda, ipiv, info)`: the memory after the call and
the returned value, which is also the value left in `*info`. -/
def magma_zgetrf2 (O : GetrfOps μ) (m n lda : Int) (mem : μ) : μ × Int :=
  let info : Int :=
    if m < 0 then -1
    else if n < 0 then -2
    else if lda < max 1 m then -4
    else 0
  if info ≠ 0 then (mem, info)
  else if m = 0 ∨ n = 0 then (mem, info)
  else
    let nb := O.magma_get_zgetrf_nb m
    if nb ≤ 1 ∨ nb ≥ min m n then O.lapackf77_zgetrf m n 0 lda 0 mem
    else hybrid O m n lda nb mem

end Model

/-- One recorded call that received a pointer into the memory. -/
inductive Call
  | zgetrf (args : List Int)
  | zgetrf_ooc (args : List Int)
  | zgetrf_piv (args : List Int)
  | device (k : Kernel) (args : List Int)
  deriving DecidableEq

/-- Operations that only record their calls, oldest first; every factorization reports
`info = 0`, the block size is 2 and the allocation succeeds. -/
def traceOps : GetrfOps (List Call) where
  magma_get_zgetrf_nb := fun _ => 2
  magma_zmalloc := fun _ => true
  lapackf77_zgetrf := fun m n off lda poff t => (t ++ [.zgetrf [m, n, off, lda, poff]], 0)
  magma_zgetrf_ooc := fun m n lda t => (t ++ [.zgetrf_ooc [m, n, lda]], 0)
  magma_zgetrf_piv := fun m n lda t => (t ++ [.zgetrf_piv [m, n, lda]], 0)
  device := fun k args t => t ++ [.device k args]

end Getrf

/-! # magma_zlahef_gpu (src/src/zlahef_gpu.cpp)

The partial Bunch-Kaufman factorization of a Hermitian matrix, in exact arithmetic.  The
device arrays `dA` and `dW` are matrices indexed by (row, column) through the macros
`dA(i,j)` and `dW(i,j)`; a pointer `&dA(i,j)` with stride 1 walks down column `j`, with
stride `ldda` it walks along row `i`.  `magma_int_t` and `int` are modelled by `Int`.
Streams, events and tracing have no effect on the data. -/

namespace Lahef

open Idr (ColMat sumTo)

/-- Scalar operations and the one routine of the file that is only declared:
`zlascl_2x2 m k dW dA` is the array `dA` after
`magmablas_zlascl_2x2(MagmaFull, MagmaNoTrans, m, &dW(k,k), lddw, &dA(k+2,k), ldda, &iinfo)`. -/
structure LahefCollab (K R : Type) where
  real : K → R
  imag : K → R
  make : R → R → K
  sqrt : R → R
  zlascl_2x2 : Int → Int → ColMat K → ColMat K → ColMat K

/-- Local scalars of the routine that live across loop iterations, with the arrays. -/
structure LahefState (K : Type) where
  dA : ColMat K
  dW : ColMat K
  ipiv : Nat → Int
  info : Int
  imax : Int
  jmax : Int
  kp : Int
  kk : Int
  kstep : Int

/-- What the routine leaves behind: the return value `info`, `*kb`, `ipiv`, the device
arrays and the host copy of the panel. -/
structure LahefResult (K : Type) where
  info : Int
  kb : Int
  ipiv : Nat → Int
  dA : ColMat K
  dW : ColMat K
  hA : ColMat K

section Model

variable {K R : Type} [Field K] [StarRing K] [LinearOrderedField R]

/-- Entry `(i, j)` of a device array. -/
def ent (M : ColMat K) (i j : Int) : K := M j.toNat i.toNat

/-- Element `t` of the vector at `&M(i,j)`: down the column, or along the row when
`right`. -/
def getLine (M : ColMat K) (i j : Int) (right : Bool) (t : Int) : K :=
  if right then ent M i (j + t) else ent M (i + t) j

/-- Overwrite the first `cnt` elements of the vector at `&M(i,j)` with `f 0, f 1, ...`. -/
def putLine (M : ColMat K) (i j : Int) (right : Bool) (cnt : Int) (f : Int → K) : ColMat K :=
  fun c r =>
    if right then
      (if (r : Int) = i ∧ j ≤ (c : Int) ∧ (c : Int) < j + cnt then f ((c : Int) - j) else M c r)
    else
      (if (c : Int) = j ∧ i ≤ (r : Int) ∧ (r : Int) < i + cnt then f ((r : Int) - i) else M c r)

/-- BLAS copy `magma_zcopy(cnt, &X(i,j), incx, &Y(p,q), incy)`. -/
def magma_zcopy (cnt : Int) (X : ColMat K) (i j : Int) (rx : Bool)
    (Y : ColMat K) (p q : Int) (ry : Bool) : ColMat K :=
  putLine Y p q ry cnt (getLine X i j rx)

/-- Conjugating copy `magmablas_zlacpy_cnjg(cnt, &X(i,j), incx, &Y(p,q), incy)`. -/
def magmablas_zlacpy_cnjg (cnt : Int) (X : ColMat K) (i j : Int) (rx : Bool)
    (Y : ColMat K) (p q : Int) (ry : Bool) : ColMat K :=
  putLine Y p q ry cnt (fun t => star (getLine X i j rx t))

/-- Row swap `magmablas_zswap(cnt, &M(i,0), ld, &M(p,0), ld)`: rows `i` and `p` are
exchanged in the first `cnt` columns. -/
def magmablas_zswap (cnt : Int) (M : ColMat K) (i p : Int) : ColMat K :=
  putLine (putLine M i 0 true cnt (getLine M p 0 true)) p 0 true cnt (getLine M i 0 true)

/-- Matrix-vector product
`magma_zgemv(MagmaNoTrans, m, k, alpha, &A(i,0), ldda, &X(p,0), lddw, beta, &Y(q,c), 1)`:
the vector `x` is row `p` of `X`, the vector `y` is column `c` of `Y` from row `q`. -/
def magma_zgemv (m k : Int) (alpha : K) (A : ColMat K) (i : Int) (X : ColMat K) (p : Int)
    (beta : K) (Y : ColMat K) (q c : Int) : ColMat K :=
  putLine Y q c false m (fun t =>
    alpha * sumTo k.toNat (fun l => ent A (i + t) l * ent X p l) + beta * ent Y (q + t) c)

/-- Store zero in the imaginary part of `M(i,j)` (`magma_dsetvector_async` on the second
double of the entry). -/
def setImagZero (C : LahefCollab K R) (M : ColMat K) (i j : Int) : ColMat K :=
  putLine M i j false 1 (fun _ => C.make (C.real (ent M i j)) 0)

/-- Real scaling `magma_zdscal(cnt, a, &M(i,j), 1)`. -/
def magma_zdscal (C : LahefCollab K R) (cnt : Int) (a : R) (M : ColMat K) (i j : Int) :
    ColMat K :=
  putLine M i j false cnt (fun t => C.make a 0 * ent M (i + t) j)

/-- Block copy `magma_zcopymatrix(2, 2, &X(k,k), lddw, &Y(k,k), ldda)`. -/
def magma_zcopymatrix22 (X Y : ColMat K) (k : Int) : ColMat K :=
  magma_zcopy 2 X k (k + 1) false (magma_zcopy 2 X k k false Y k k false) k (k + 1) false

/-- The macro `MAGMA_Z_ABS1`. -/
def MAGMA_Z_ABS1 (C : LahefCollab K R) (z : K) : R := |C.real z| + |C.imag z|

/-- Position (from 0) of the first largest value among `f 0, ..., f m`. -/
def argmaxFrom (f : Nat → R) : Nat → Nat
  | 0 => 0
  | m + 1 => if f (argmaxFrom f m) < f (m + 1) then m + 1 else argmaxFrom f m

/-- BLAS `magma_izamax(cnt, &X(i,j), 1)`: the one-based position of the first element of
largest `|re| + |im|`, and 0 when `cnt < 1`. -/
def magma_izamax (C : LahefCollab K R) (cnt : Int) (X : ColMat K) (i j : Int) : Int :=
  if cnt < 1 then 0
  else (argmaxFrom (fun t => MAGMA_Z_ABS1 C (ent X (i + (t : Int)) j)) (cnt.toNat - 1) : Int) + 1

/-- Lines 493-566: the diagonal entry is too small against `colmax`.  Column `imax` is
brought to column `k+1` of `W` and updated, `rowmax` is measured, and one of three pivots
is chosen; the result holds the new `W`, `jmax`, `kp` and `kstep`. -/
def choosePivot (C : LahefCollab K R) (n k : Int) (alpha abs_akk colmax : R)
    (st : LahefState K) : LahefState K :=
  let imax := st.imax
  let W := magmablas_zlacpy_cnjg (imax - k) st.dA imax k true st.dW k (k + 1) false
  let W := magma_zcopy (n - imax) st.dA imax imax false W imax (k + 1) false
  let W := setImagZero C W imax (k + 1)
  let W := magma_zgemv (n - k) k (-1) st.dA k W imax 1 W k (k + 1)
  let W := setImagZero C W imax (k + 1)
  let Zimax := ent W imax (k + 1)
  let jmax := k - 1 + magma_izamax C (imax - k) W k (k + 1)
  let rowmax := MAGMA_Z_ABS1 C (ent W jmax (k + 1))
  let jmax := if imax < n - 1 then imax + magma_izamax C ((n - 1) - imax) W (imax + 1) (k + 1)
    else jmax
  let rowmax := if imax < n - 1 then max rowmax (MAGMA_Z_ABS1 C (ent W jmax (k + 1)))
    else rowmax
  if abs_akk ≥ alpha * colmax * (colmax / rowmax) then
    { st with dW := W, jmax := jmax, kp := k }
  else if |C.real Zimax| ≥ alpha * rowmax then
    { st with dW := magma_zcopy (n - k) W k (k + 1) false W k k false, jmax := jmax,
              kp := imax }
  else
    { st with dW := W, jmax := jmax, kp := imax, kstep := 2 }

/-- Lines 573-597: when `kp ≠ kk`, copy the non-updated column `kk` to column `kp` and
interchange rows `kk` and `kp` in the first `kk+1` columns of `A` and `W`. -/
def interchange (n : Int) (st : LahefState K) : LahefState K :=
  if st.kp ≠ st.kk then
    let A := magmablas_zlacpy_cnjg (st.kp - st.kk) st.dA st.kk st.kk false st.dA st.kp st.kk true
    let A := if st.kp < n then magma_zcopy (n - st.kp) A st.kp st.kk false A st.kp st.kp false
      else A
    { st with dA := magmablas_zswap (st.kk + 1) A st.kk st.kp,
              dW := magmablas_zswap (st.kk + 1) st.dW st.kk st.kp }
  else st

/-- Lines 599-648: store the pivot block and the columns of `L` in `A`. -/
def storeBlock (C : LahefCollab K R) (n k : Int) (st : LahefState K) : LahefState K :=
  if st.kstep = 1 then
    let A := magma_zcopy (n - k) st.dW k k false st.dA k k false
    if k < n - 1 then
      let R1 : R := 1 / C.real (ent A k k)
      { st with dA := magma_zdscal C ((n - 1) - k) R1 A (k + 1) k,
                dW := magmablas_zlacpy_cnjg ((n - 1) - k) st.dW (k + 1) k false
                        st.dW (k + 1) k false }
    else { st with dA := A }
  else
    let A := C.zlascl_2x2 (n - (k + 2)) k st.dW st.dA
    let A := magma_zcopymatrix22 st.dW A k
    let W := magmablas_zlacpy_cnjg ((n - 1) - k) st.dW (k + 1) k false st.dW (k + 1) k false
    let W := magmablas_zlacpy_cnjg ((n - 1) - k - 1) W (k + 2) (k + 1) false
      W (k + 2) (k + 1) false
    { st with dA := A, dW := W }

/-- Lines 653-658: record the interchange in `ipiv`. -/
def storePivot (k : Int) (st : LahefState K) : LahefState K :=
  if st.kstep = 1 then
    { st with ipiv := Function.update st.ipiv k.toNat (st.kp + 1) }
  else
    { st with ipiv := Function.update (Function.update st.ipiv k.toNat (-st.kp - 1))
                        (k + 1).toNat (-st.kp - 1) }

/-- Lines 473-485: column `k` is zero; set `info` and go on. -/
def zeroColumn (C : LahefCollab K R) (k : Int) (st : LahefState K) : LahefState K :=
  { st with info := if st.info = 0 then k else st.info, kp := k,
            dA := setImagZero C st.dA k k }

/-- Lines 487-648: choose the pivot block for a nonzero column `k`, interchange and store
it. -/
def pivotColumn (C : LahefCollab K R) (n k : Int) (alpha abs_akk colmax : R)
    (st : LahefState K) : LahefState K :=
  let st :=
    if abs_akk ≥ alpha * colmax then { st with kp := k }
    else choosePivot C n k alpha abs_akk colmax st
  let st := { st with kk := k + st.kstep - 1 }
  storeBlock C n k (interchange n st)

/-- Lines 473-658: the test `max(abs_akk, colmax) == 0.0`, its two branches, and the
record in `ipiv`. -/
def processColumn (C : LahefCollab K R) (n k : Int) (alpha abs_akk colmax : R)
    (st : LahefState K) : LahefState K :=
  storePivot k
    (if max abs_akk colmax = 0 then zeroColumn C k st
     else pivotColumn C n k alpha abs_akk colmax st)

/-- Body of the main loop of the lower-triangle branch (lines 420-658) for column `k`:
column `k` of `A` is copied to `W` and updated, `kstep = 1`, `abs_akk`, `imax` and `colmax`
are measured, and the column is processed. -/
def lahefStep (C : LahefCollab K R) (n k : Int) (st : LahefState K) : LahefState K :=
  let alpha : R := (1 + C.sqrt 7) / 8
  let W := magma_zcopy (n - k) st.dA k k false st.dW k k false
  let W := setImagZero C W k k
  let W := magma_zgemv (n - k) k (-1) st.dA k W k 1 W k k
  let W := setImagZero C W k k
  let abs_akk : R := |C.real (ent W k k)|
  let imax := if k < n - 1 then k + magma_izamax C (n - k - 1) W (k + 1) k else st.imax
  let colmax : R := if k < n - 1 then MAGMA_Z_ABS1 C (ent W imax k) else 0
  processColumn C n k alpha abs_akk colmax { st with dW := W, kstep := 1, imax := imax }

/-- The main loop `for (k = 0; k < min(nb-1,n); k += kstep)` (line 418), from column `k`;
the result is the value of `k` on exit and the state. -/
def mainLoop (C : LahefCollab K R) (n nb : Int) : Nat → Int → LahefState K →
    Option (Int × LahefState K)
  | 0, _, _ => none
  | fuel + 1, k, st =>
    if k < min (nb - 1) n then
      let st := lahefStep C n k st
      mainLoop C n nb fuel (k + st.kstep) st
    else some (k, st)

/-- Set the imaginary part of the `jb` diagonal entries from `A(j,j)` to zero
(`magmablas_dlaset` with stride `2*(1+ldda)`, lines 701 and 712). -/
def zeroImagDiag (C : LahefCollab K R) (A : ColMat K) (j jb : Int) : ColMat K :=
  fun c r =>
    if (c : Int) = (r : Int) ∧ j ≤ (c : Int) ∧ (c : Int) < j + jb then C.make (C.real (A c r)) 0
    else A c r

/-- The product `magma_zgemm(MagmaNoTrans, MagmaTrans, m, jb, k, -1, &dA(j,0), ldda,
&dW(j,0), lddw, 1, &dA(j,j), ldda)` of line 706. -/
def magma_zgemm (m jb k : Int) (A W : ColMat K) (j : Int) : ColMat K :=
  fun c r =>
    if j ≤ (r : Int) ∧ (r : Int) < j + m ∧ j ≤ (c : Int) ∧ (c : Int) < j + jb then
      -1 * sumTo k.toNat (fun l => A l r * W l c) + 1 * A c r
    else A c r

/-- The update of `A22` in blocks of `nb` columns, `for (j = k; j < n; j += nb)`
(lines 668-719, the branch without `SYMMETRIC_UPDATE`). -/
def updateLoop (C : LahefCollab K R) (n nb k : Int) (W : ColMat K) : Nat → Int → ColMat K →
    Option (ColMat K)
  | 0, _, _ => none
  | fuel + 1, j, A =>
    if j < n then
      let jb := min nb (n - j)
      let A := zeroImagDiag C A j jb
      let A := magma_zgemm (n - j) jb k A W j
      let A := zeroImagDiag C A j jb
      updateLoop C n nb k W fuel (j + nb) A
    else some A

/-- The loop `for (j = k; j > 0;)` of lines 724-739, which partially undoes the
interchanges in the columns left of the pivots. -/
def undoLoop (ipiv : Nat → Int) : Nat → Int → ColMat K → Option (ColMat K)
  | 0, _, _ => none
  | fuel + 1, j, A =>
    if j > 0 then
      let jj := j
      let jp := ipiv (j - 1).toNat
      let j := if jp < 0 then j - 1 else j
      let jp := if jp < 0 then -jp else jp
      let j := j - 1
      let A := if jp ≠ jj ∧ j ≥ 1 then magmablas_zswap j A (jp - 1) (jj - 1) else A
      undoLoop ipiv fuel j A
    else some A

/-- The routine `magma_zlahef_gpu`.  With `upper` the body is a comment (the Fortran text
of the reference routine), so only `*info = 0` is executed; otherwise the lower-triangle
branch runs.  `st` holds the arrays on entry and the undefined initial values of the local
scalars, `kb` and `hA` the values on entry of `*kb` and of the host array. -/
def magma_zlahef_gpu (C : LahefCollab K R) (fuel : Nat) (upper : Bool) (n nb : Int)
    (kb : Int) (hA : ColMat K) (st : LahefState K) : Option (LahefResult K) :=
  let st := { st with info := 0 }
  if upper then
    some { info := st.info, kb := kb, ipiv := st.ipiv, dA := st.dA, dW := st.dW, hA := hA }
  else
    match mainLoop C n nb fuel 0 st with
    | none => none
    | some (k, st) =>
      match updateLoop C n nb k st.dW fuel k st.dA with
      | none => none
      | some A =>
        match undoLoop st.ipiv fuel k A with
        | none => none
        | some A =>
          some { info := st.info, kb := k, ipiv := st.ipiv, dA := A, dW := st.dW,
                 hA := fun c r => if (r : Int) < n ∧ (c : Int) < k then A c r else hA c r }

end Model

/-- The scalars in exact rational arithmetic, the real case of the routine: conjugation
and imaginary parts are trivial.  `sqrt 7` is replaced by the rational 53/20 and the 2-by-2
scaling is written after the Fortran text that the file keeps for the upper triangle. -/
def exactLahef : LahefCollab ℚ ℚ where
  real := fun z => z
  imag := fun _ => 0
  make := fun a _ => a
  sqrt := fun _ => 53 / 20
  zlascl_2x2 := fun m k W A => fun c r =>
    let d21 := ent W (k + 1) k
    let d11 := ent W (k + 1) (k + 1) / d21
    let d22 := ent W k k / d21
    let t := 1 / (d11 * d22 - 1)
    if (c : Int) = k ∧ k + 2 ≤ (r : Int) ∧ (r : Int) < k + 2 + m then
      t / d21 * (d11 * ent W r k - ent W r (k + 1))
    else if (c : Int) = k + 1 ∧ k + 2 ≤ (r : Int) ∧ (r : Int) < k + 2 + m then
      t / d21 * (d22 * ent W r (k + 1) - ent W r k)
    else A c r

/-- An `n`-by-`n` test matrix given by its entries (row, column). -/
def matOf (f : Nat → Nat → ℚ) : ColMat ℚ := fun c r => f r c

/-- Entry state of a call on the device array `A`: zero workspace, zero `ipiv`, and the
local scalars at 0. -/
def entry (A : ColMat ℚ) : LahefState ℚ :=
  { dA := A, dW := fun _ _ => 0, ipiv := fun _ => 0, info := 0, imax := 0, jmax := 0,
    kp := 0, kk := 0, kstep := 0 }

/-- The 3-by-3 identity with row and column `z` (counted from 0) replaced by zeros. -/
def eyeWithZero (z : Nat) : ColMat ℚ :=
  matOf fun i j => if i = z ∨ j = z then 0 else if i = j ∧ i < 3 then 1 else 0

/-- The identity matrix. -/
def eye : ColMat ℚ := matOf fun i j => if i = j then 1 else 0

/-- What a call reports: `info`, `kb`, the first three entries of `ipiv` and the first
three diagonal entries of `dA`; `none` when the fuel ran out. -/
def report (r : Option (LahefResult ℚ)) : Option (Int × Int × List Int × List ℚ) :=
  r.map fun res =>
    (res.info, res.kb, [res.ipiv 0, res.ipiv 1, res.ipiv 2], [res.dA 0 0, res.dA 1 1, res.dA 2 2])

end Lahef

/-! # Properties -/

namespace Idr

set_option linter.unusedSectionVars false
set_option linter.unusedVariables false

section Properties

variable {K R : Type} [Field K] [StarRing K] [DecidableEq K] [LinearOrderedField R]

/-! ## What the parts of a step leave unchanged -/

@[simp]
theorem biortho_x (E : IdrEnv K R) (k m : Nat) (st : IdrState K R) :
    (biortho E k m st).x = st.x := by
  induction m with
  | zero => rfl
  | succ m ih => simpa [biortho, biorthoStep] using ih

@[simp]
theorem biortho_r (E : IdrEnv K R) (k m : Nat) (st : IdrState K R) :
    (biortho E k m st).r = st.r := by
  induction m with
  | zero => rfl
  | succ m ih => simpa [biortho, biorthoStep] using ih

@[simp]
theorem biortho_f (E : IdrEnv K R) (k m : Nat) (st : IdrState K R) :
    (biortho E k m st).f = st.f := by
  induction m with
  | zero => rfl
  | succ m ih => simpa [biortho, biorthoStep] using ih

@[simp]
theorem biortho_c (E : IdrEnv K R) (k m : Nat) (st : IdrState K R) :
    (biortho E k m st).c = st.c := by
  induction m with
  | zero => rfl
  | succ m ih => simpa [biortho, biorthoStep] using ih

@[simp]
theorem biortho_om (E : IdrEnv K R) (k m : Nat) (st : IdrState K R) :
    (biortho E k m st).om = st.om := by
  induction m with
  | zero => rfl
  | succ m ih => simpa [biortho, biorthoStep] using ih

@[simp]
theorem biortho_nrmr (E : IdrEnv K R) (k m : Nat) (st : IdrState K R) :
    (biortho E k m st).nrmr = st.nrmr := by
  induction m with
  | zero => rfl
  | succ m ih => simpa [biortho, biorthoStep] using ih

@[simp]
theorem biortho_numiter (E : IdrEnv K R) (k m : Nat) (st : IdrState K R) :
    (biortho E k m st).numiter = st.numiter := by
  induction m with
  | zero => rfl
  | succ m ih => simpa [biortho, biorthoStep] using ih

@[simp]
theorem biortho_info (E : IdrEnv K R) (k m : Nat) (st : IdrState K R) :
    (biortho E k m st).info = st.info := by
  induction m with
  | zero => rfl
  | succ m ih => simpa [biortho, biorthoStep] using ih

@[simp]
theorem biortho_innerflag (E : IdrEnv K R) (k m : Nat) (st : IdrState K R) :
    (biortho E k m st).innerflag = st.innerflag := by
  induction m with
  | zero => rfl
  | succ m ih => simpa [biortho, biorthoStep] using ih

@[simp]
theorem biortho_t (E : IdrEnv K R) (k m : Nat) (st : IdrState K R) :
    (biortho E k m st).t = st.t := by
  induction m with
  | zero => rfl
  | succ m ih => simpa [biortho, biorthoStep] using ih

@[simp]
theorem biortho_M (E : IdrEnv K R) (k m : Nat) (st : IdrState K R) :
    (biortho E k m st).M = st.M := by
  induction m with
  | zero => rfl
  | succ m ih => simpa [biortho, biorthoStep] using ih

@[simp]
theorem newDirection_x (E : IdrEnv K R) (k : Nat) (st : IdrState K R) :
    (newDirection E k st).x = st.x := by
  simp [newDirection]

@[simp]
theorem newDirection_r (E : IdrEnv K R) (k : Nat) (st : IdrState K R) :
    (newDirection E k st).r = st.r := by
  simp [newDirection]

@[simp]
theorem newDirection_f (E : IdrEnv K R) (k : Nat) (st : IdrState K R) :
    (newDirection E k st).f = st.f := by
  simp [newDirection]

@[simp]
theorem newDirection_c (E : IdrEnv K R) (k : Nat) (st : IdrState K R) :
    (newDirection E k st).c = st.c := by
  simp [newDirection]

@[simp]
theorem newDirection_om (E : IdrEnv K R) (k : Nat) (st : IdrState K R) :
    (newDirection E k st).om = st.om := by
  simp [newDirection]

@[simp]
theorem newDirection_nrmr (E : IdrEnv K R) (k : Nat) (st : IdrState K R) :
    (newDirection E k st).nrmr = st.nrmr := by
  simp [newDirection]

@[simp]
theorem newDirection_numiter (E : IdrEnv K R) (k : Nat) (st : IdrState K R) :
    (newDirection E k st).numiter = st.numiter := by
  simp [newDirection]

@[simp]
theorem newDirection_info (E : IdrEnv K R) (k : Nat) (st : IdrState K R) :
    (newDirection E k st).info = st.info := by
  simp [newDirection]

@[simp]
theorem newDirection_innerflag (E : IdrEnv K R) (k : Nat) (st : IdrState K R) :
    (newDirection E k st).innerflag = st.innerflag := by
  simp [newDirection]

@[simp]
theorem newDirection_t (E : IdrEnv K R) (k : Nat) (st : IdrState K R) :
    (newDirection E k st).t = st.t := by
  simp [newDirection]

@[simp]
theorem smallSolve_x (C : Collab K R) (E : IdrEnv K R) (k : Nat) (st : IdrState K R) :
    (smallSolve C E k st).2.x = st.x := rfl

@[simp]
theorem smallSolve_r (C : Collab K R) (E : IdrEnv K R) (k : Nat) (st : IdrState K R) :
    (smallSolve C E k st).2.r = st.r := rfl

@[simp]
theorem smallSolve_f (C : Collab K R) (E : IdrEnv K R) (k : Nat) (st : IdrState K R) :
    (smallSolve C E k st).2.f = st.f := rfl

@[simp]
theorem smallSolve_om (C : Collab K R) (E : IdrEnv K R) (k : Nat) (st : IdrState K R) :
    (smallSolve C E k st).2.om = st.om := rfl

@[simp]
theorem smallSolve_nrmr (C : Collab K R) (E : IdrEnv K R) (k : Nat) (st : IdrState K R) :
    (smallSolve C E k st).2.nrmr = st.nrmr := rfl

@[simp]
theorem smallSolve_numiter (C : Collab K R) (E : IdrEnv K R) (k : Nat) (st : IdrState K R) :
    (smallSolve C E k st).2.numiter = st.numiter := rfl

@[simp]
theorem smallSolve_innerflag (C : Collab K R) (E : IdrEnv K R) (k : Nat) (st : IdrState K R) :
    (smallSolve C E k st).2.innerflag = st.innerflag := rfl

@[simp]
theorem smallSolve_t (C : Collab K R) (E : IdrEnv K R) (k : Nat) (st : IdrState K R) :
    (smallSolve C E k st).2.t = st.t := rfl

@[simp]
theorem smallSolve_M (C : Collab K R) (E : IdrEnv K R) (k : Nat) (st : IdrState K R) :
    (smallSolve C E k st).2.M = st.M := rfl

@[simp]
theorem smallSolve_G (C : Collab K R) (E : IdrEnv K R) (k : Nat) (st : IdrState K R) :
    (smallSolve C E k st).2.G = st.G := rfl

@[simp]
theorem smallSolve_U (C : Collab K R) (E : IdrEnv K R) (k : Nat) (st : IdrState K R) :
    (smallSolve C E k st).2.U = st.U := rfl

@[simp]
theorem smallSolve_v (C : Collab K R) (E : IdrEnv K R) (k : Nat) (st : IdrState K R) :
    (smallSolve C E k st).2.v = st.v := rfl

@[simp]
theorem smallSolve_v1 (C : Collab K R) (E : IdrEnv K R) (k : Nat) (st : IdrState K R) :
    (smallSolve C E k st).2.v1 = st.v1 := rfl

@[simp]
theorem smallSolve_info (C : Collab K R) (E : IdrEnv K R) (k : Nat) (st : IdrState K R) :
    (smallSolve C E k st).2.info = (smallSolve C E k st).1 := rfl

@[simp]
theorem newOmega_x (C : Collab K R) (E : IdrEnv K R) (st : IdrState K R) :
    (newOmega C E st).x = st.x := rfl

@[simp]
theorem newOmega_r (C : Collab K R) (E : IdrEnv K R) (st : IdrState K R) :
    (newOmega C E st).r = st.r := rfl

@[simp]
theorem newOmega_f (C : Collab K R) (E : IdrEnv K R) (st : IdrState K R) :
    (newOmega C E st).f = st.f := rfl

@[simp]
theorem newOmega_c (C : Collab K R) (E : IdrEnv K R) (st : IdrState K R) :
    (newOmega C E st).c = st.c := rfl

@[simp]
theorem newOmega_nrmr (C : Collab K R) (E : IdrEnv K R) (st : IdrState K R) :
    (newOmega C E st).nrmr = st.nrmr := rfl

@[simp]
theorem newOmega_numiter (C : Collab K R) (E : IdrEnv K R) (st : IdrState K R) :
    (newOmega C E st).numiter = st.numiter := rfl

@[simp]
theorem newOmega_info (C : Collab K R) (E : IdrEnv K R) (st : IdrState K R) :
    (newOmega C E st).info = st.info := rfl

@[simp]
theorem newOmega_innerflag (C : Collab K R) (E : IdrEnv K R) (st : IdrState K R) :
    (newOmega C E st).innerflag = st.innerflag := rfl

@[simp]
theorem newOmega_M (C : Collab K R) (E : IdrEnv K R) (st : IdrState K R) :
    (newOmega C E st).M = st.M := rfl

@[simp]
theorem newOmega_G (C : Collab K R) (E : IdrEnv K R) (st : IdrState K R) :
    (newOmega C E st).G = st.G := rfl

@[simp]
theorem newOmega_U (C : Collab K R) (E : IdrEnv K R) (st : IdrState K R) :
    (newOmega C E st).U = st.U := rfl

@[simp]
theorem newOmega_v1 (C : Collab K R) (E : IdrEnv K R) (st : IdrState K R) :
    (newOmega C E st).v1 = st.v1 := rfl

@[simp]
theorem cycleStart_x (E : IdrEnv K R) (st : IdrState K R) :
    (cycleStart E st).x = st.x := rfl

@[simp]
theorem cycleStart_r (E : IdrEnv K R) (st : IdrState K R) :
    (cycleStart E st).r = st.r := rfl

@[simp]
theorem cycleStart_c (E : IdrEnv K R) (st : IdrState K R) :
    (cycleStart E st).c = st.c := rfl

@[simp]
theorem cycleStart_om (E : IdrEnv K R) (st : IdrState K R) :
    (cycleStart E st).om = st.om := rfl

@[simp]
theorem cycleStart_nrmr (E : IdrEnv K R) (st : IdrState K R) :
    (cycleStart E st).nrmr = st.nrmr := rfl

@[simp]
theorem cycleStart_info (E : IdrEnv K R) (st : IdrState K R) :
    (cycleStart E st).info = st.info := rfl

@[simp]
theorem cycleStart_innerflag (E : IdrEnv K R) (st : IdrState K R) :
    (cycleStart E st).innerflag = st.innerflag := rfl

@[simp]
theorem cycleStart_t (E : IdrEnv K R) (st : IdrState K R) :
    (cycleStart E st).t = st.t := rfl

@[simp]
theorem cycleStart_M (E : IdrEnv K R) (st : IdrState K R) :
    (cycleStart E st).M = st.M := rfl

@[simp]
theorem cycleStart_G (E : IdrEnv K R) (st : IdrState K R) :
    (cycleStart E st).G = st.G := rfl

@[simp]
theorem cycleStart_U (E : IdrEnv K R) (st : IdrState K R) :
    (cycleStart E st).U = st.U := rfl

@[simp]
theorem cycleStart_v (E : IdrEnv K R) (st : IdrState K R) :
    (cycleStart E st).v = st.v := rfl

@[simp]
theorem cycleStart_v1 (E : IdrEnv K R) (st : IdrState K R) :
    (cycleStart E st).v1 = st.v1 := rfl

@[simp]
theorem cycleStart_numiter (E : IdrEnv K R) (st : IdrState K R) :
    (cycleStart E st).numiter = st.numiter + 1 := rfl

@[simp]
theorem updateXR_f (C : Collab K R) (E : IdrEnv K R) (k : Nat) (st : IdrState K R) :
    (updateXR C E k st).f = st.f := rfl

@[simp]
theorem omegaUpdate_f (C : Collab K R) (E : IdrEnv K R) (st : IdrState K R) :
    (omegaUpdate C E st).f = st.f := rfl

@[simp]
theorem updateXR_c (C : Collab K R) (E : IdrEnv K R) (k : Nat) (st : IdrState K R) :
    (updateXR C E k st).c = st.c := rfl

@[simp]
theorem omegaUpdate_c (C : Collab K R) (E : IdrEnv K R) (st : IdrState K R) :
    (omegaUpdate C E st).c = st.c := rfl

@[simp]
theorem updateXR_om (C : Collab K R) (E : IdrEnv K R) (k : Nat) (st : IdrState K R) :
    (updateXR C E k st).om = st.om := rfl

@[simp]
theorem omegaUpdate_om (C : Collab K R) (E : IdrEnv K R) (st : IdrState K R) :
    (omegaUpdate C E st).om = st.om := rfl

@[simp]
theorem updateXR_numiter (C : Collab K R) (E : IdrEnv K R) (k : Nat) (st : IdrState K R) :
    (updateXR C E k st).numiter = st.numiter := rfl

@[simp]
theorem omegaUpdate_numiter (C : Collab K R) (E : IdrEnv K R) (st : IdrState K R) :
    (omegaUpdate C E st).numiter = st.numiter := rfl

@[simp]
theorem updateXR_info (C : Collab K R) (E : IdrEnv K R) (k : Nat) (st : IdrState K R) :
    (updateXR C E k st).info = st.info := rfl

@[simp]
theorem omegaUpdate_info (C : Collab K R) (E : IdrEnv K R) (st : IdrState K R) :
    (omegaUpdate C E st).info = st.info := rfl

@[simp]
theorem updateXR_innerflag (C : Collab K R) (E : IdrEnv K R) (k : Nat) (st : IdrState K R) :
    (updateXR C E k st).innerflag = st.innerflag := rfl

@[simp]
theorem omegaUpdate_innerflag (C : Collab K R) (E : IdrEnv K R) (st : IdrState K R) :
    (omegaUpdate C E st).innerflag = st.innerflag := rfl

@[simp]
theorem updateXR_t (C : Collab K R) (E : IdrEnv K R) (k : Nat) (st : IdrState K R) :
    (updateXR C E k st).t = st.t := rfl

@[simp]
theorem omegaUpdate_t (C : Collab K R) (E : IdrEnv K R) (st : IdrState K R) :
    (omegaUpdate C E st).t = st.t := rfl

@[simp]
theorem updateXR_M (C : Collab K R) (E : IdrEnv K R) (k : Nat) (st : IdrState K R) :
    (updateXR C E k st).M = st.M := rfl

@[simp]
theorem omegaUpdate_M (C : Collab K R) (E : IdrEnv K R) (st : IdrState K R) :
    (omegaUpdate C E st).M = st.M := rfl

@[simp]
theorem updateXR_G (C : Collab K R) (E : IdrEnv K R) (k : Nat) (st : IdrState K R) :
    (updateXR C E k st).G = st.G := rfl

@[simp]
theorem omegaUpdate_G (C : Collab K R) (E : IdrEnv K R) (st : IdrState K R) :
    (omegaUpdate C E st).G = st.G := rfl

@[simp]
theorem updateXR_U (C : Collab K R) (E : IdrEnv K R) (k : Nat) (st : IdrState K R) :
    (updateXR C E k st).U = st.U := rfl

@[simp]
theorem omegaUpdate_U (C : Collab K R) (E : IdrEnv K R) (st : IdrState K R) :
    (omegaUpdate C E st).U = st.U := rfl

@[simp]
theorem updateXR_v (C : Collab K R) (E : IdrEnv K R) (k : Nat) (st : IdrState K R) :
    (updateXR C E k st).v = st.v := rfl

@[simp]
theorem omegaUpdate_v (C : Collab K R) (E : IdrEnv K R) (st : IdrState K R) :
    (omegaUpdate C E st).v = st.v := rfl

@[simp]
theorem updateXR_v1 (C : Collab K R) (E : IdrEnv K R) (k : Nat) (st : IdrState K R) :
    (updateXR C E k st).v1 = st.v1 := rfl

@[simp]
theorem omegaUpdate_v1 (C : Collab K R) (E : IdrEnv K R) (st : IdrState K R) :
    (omegaUpdate C E st).v1 = st.v1 := rfl

/-! ## Proof rules for the steps and the loops -/

/-- Case analysis of the update part of an inner step. -/
theorem applyUpdate_sat (C : Collab K R) (E : IdrEnv K R) (k : Nat) (st : IdrState K R)
    {N B L : IdrState K R → Prop}
    (hb : ((updateXR C E k st).nrmr ≤ E.tolb ∨ st.numiter ≥ E.maxiter) →
      B { updateXR C E k st with innerflag := 1 })
    (hn : ¬ ((updateXR C E k st).nrmr ≤ E.tolb ∨ st.numiter ≥ E.maxiter) →
      N { updateXR C E k st with f := updateF E k st, numiter := st.numiter + 1 }) :
    Flow.sat N B L (applyUpdate C E k st) := by
  unfold applyUpdate
  simp only [updateXR_numiter]
  split_ifs with h
  · exact hb h
  · exact hn h

/-- The inner step with the macro CHECK expanded. -/
theorem innerStep_eq (C : Collab K R) (E : IdrEnv K R) (k : Nat) (st : IdrState K R) :
    innerStep C E k st =
      if (smallSolve C E k st).1 ≠ 0 then .cleanup (smallSolve C E k st).2
      else if (newDirection E k (smallSolve C E k st).2).M k k = 0 then
        .brk { newDirection E k (smallSolve C E k st).2 with
               info := MAGMA_DIVERGENCE, innerflag := 1 }
      else applyUpdate C E k (newDirection E k (smallSolve C E k st).2) := by
  unfold innerStep CHECK
  by_cases h : (smallSolve C E k st).1 = 0
  · simp [h]
  · simp only [ne_eq, h, not_false_eq_true, if_true]
    rfl

/-- Case analysis of an inner step. -/
theorem innerStep_sat (C : Collab K R) (E : IdrEnv K R) (k : Nat) (st : IdrState K R)
    {N B L : IdrState K R → Prop}
    (hc : (smallSolve C E k st).1 ≠ 0 → L (smallSolve C E k st).2)
    (hb : (smallSolve C E k st).1 = 0 → (newDirection E k (smallSolve C E k st).2).M k k = 0 →
      B { newDirection E k (smallSolve C E k st).2 with
          info := MAGMA_DIVERGENCE, innerflag := 1 })
    (hu : (smallSolve C E k st).1 = 0 → (newDirection E k (smallSolve C E k st).2).M k k ≠ 0 →
      Flow.sat N B L (applyUpdate C E k (newDirection E k (smallSolve C E k st).2))) :
    Flow.sat N B L (innerStep C E k st) := by
  rw [innerStep_eq]
  split_ifs with h1 h2
  · exact hc h1
  · exact hb (not_not.mp h1) h2
  · exact hu (not_not.mp h1) h2

/-- Case analysis of the dimension-reduction step. -/
theorem dimRedStep_sat (C : Collab K R) (E : IdrEnv K R) (st : IdrState K R)
    {N B L : IdrState K R → Prop}
    (hz : (newOmega C E st).om = 0 → B { newOmega C E st with info := MAGMA_DIVERGENCE })
    (hb : (newOmega C E st).om ≠ 0 →
      ((omegaUpdate C E (newOmega C E st)).nrmr ≤ E.tolb ∨ st.numiter ≥ E.maxiter) →
      B (omegaUpdate C E (newOmega C E st)))
    (hn : (newOmega C E st).om ≠ 0 →
      ¬ ((omegaUpdate C E (newOmega C E st)).nrmr ≤ E.tolb ∨ st.numiter ≥ E.maxiter) →
      N (omegaUpdate C E (newOmega C E st))) :
    Flow.sat N B L (dimRedStep C E st) := by
  unfold dimRedStep
  simp only [omegaUpdate_numiter, newOmega_numiter]
  split_ifs with h1 h2
  · exact hz h1
  · exact hb h1 h2
  · exact hn h1 h2

/-- Every `break` of an inner step is taken with `innerflag = 1`. -/
theorem innerStep_brk_innerflag (C : Collab K R) (E : IdrEnv K R) (k : Nat)
    (st : IdrState K R) :
    Flow.sat (fun _ => True) (fun s => s.innerflag = 1) (fun _ => True)
      (innerStep C E k st) := by
  apply innerStep_sat
  · intro _; trivial
  · intro _ _; rfl
  · intro _ _
    apply applyUpdate_sat
    · intro _; rfl
    · intro _; trivial

/-- Invariant rule for the shadow space loop. -/
theorem innerLoop_rule (C : Collab K R) (E : IdrEnv K R) {J B L : IdrState K R → Prop}
    (h1 : ∀ k st, J st → Flow.sat J B L (innerStep C E k st)) :
    ∀ rem k st, J st → Flow.sat J B L (innerLoop C E rem k st) := by
  intro rem
  induction rem with
  | zero => intro k st hJ; exact hJ
  | succ rem ih =>
    intro k st hJ
    have hs := h1 k st hJ
    unfold innerLoop
    cases hstep : innerStep C E k st with
    | next s => rw [hstep] at hs; exact ih (k + 1) s hs
    | brk s => rw [hstep] at hs; exact hs
    | cleanup s => rw [hstep] at hs; exact hs

/-- Invariant rule for the body of the do-while loop. -/
theorem iteration_rule (C : Collab K R) (E : IdrEnv K R)
    {I J N B L : IdrState K R → Prop}
    (hflag : ∀ st, J st → st.innerflag = 0)
    (h0 : ∀ st, I st → J (cycleStart E st))
    (h1 : ∀ k st, J st → Flow.sat J B L (innerStep C E k st))
    (h2 : ∀ st, J st → Flow.sat N B L (dimRedStep C E st))
    (st : IdrState K R) (hI : I st) : Flow.sat N B L (iteration C E st) := by
  have hin := innerLoop_rule C E
    (J := J) (B := fun s => B s ∧ s.innerflag = 1) (L := L) (by
      intro k s hJ
      have h := h1 k s hJ
      have hf := innerStep_brk_innerflag C E k s
      cases hstep : innerStep C E k s with
      | next s1 => rw [hstep] at h; exact h
      | brk s1 => rw [hstep] at h hf; exact ⟨h, hf⟩
      | cleanup s1 => rw [hstep] at h; exact h)
    E.s.toNat 0 (cycleStart E st) (h0 st hI)
  unfold iteration
  cases hl : innerLoop C E E.s.toNat 0 (cycleStart E st) with
  | next s =>
    rw [hl] at hin
    have hf := hflag s hin
    simp only [hf]
    simpa using h2 s hin
  | brk s =>
    rw [hl] at hin
    simp only [hin.2]
    exact hin.1
  | cleanup s => rw [hl] at hin; exact hin

/-- Invariant rule for the do-while loop. -/
theorem idrLoop_rule (C : Collab K R) (E : IdrEnv K R)
    {I N W B L : IdrState K R → Prop}
    (hit : ∀ st, I st → Flow.sat N B L (iteration C E st))
    (h3 : ∀ st, N st → st.numiter + 1 ≤ E.maxiter → I st)
    (h4 : ∀ st, N st → ¬ st.numiter + 1 ≤ E.maxiter → W st) :
    ∀ fuel st out, I st → idrLoop C E fuel st = some out → Flow.sat W B L out := by
  intro fuel
  induction fuel with
  | zero => intro st out _ h; simp [idrLoop] at h
  | succ fuel ih =>
    intro st out hI h
    have hs := hit st hI
    unfold idrLoop at h
    cases hstep : iteration C E st with
    | next s =>
      rw [hstep] at hs h
      simp only [] at h
      split_ifs at h with hc
      · exact ih s out (h3 s hs hc) h
      · cases h; exact h4 s hs hc
    | brk s => rw [hstep] at hs h; cases h; exact hs
    | cleanup s => rw [hstep] at hs h; cases h; exact hs

/-! ## Counter and flags -/

/-- The body of the do-while loop advances the counter when it falls through and keeps
`innerflag` at 0. -/
theorem iteration_next_numiter (C : Collab K R) (E : IdrEnv K R) (st : IdrState K R)
    (hf : st.innerflag = 0) :
    Flow.sat (fun s => st.numiter + 1 ≤ s.numiter ∧ s.innerflag = 0) (fun _ => True)
      (fun _ => True) (iteration C E st) := by
  apply iteration_rule C E (I := fun s => s = st)
    (J := fun s => st.numiter + 1 ≤ s.numiter ∧ s.innerflag = 0)
  · intro s hs; exact hs.2
  · intro s hs; subst hs; exact ⟨by simp, by simpa using hf⟩
  · intro k s hs
    apply innerStep_sat
    · intro _; trivial
    · intro _ _; trivial
    · intro _ _
      apply applyUpdate_sat
      · intro _; trivial
      · intro _
        refine ⟨?_, ?_⟩
        · have := hs.1; simp; omega
        · simpa using hs.2
  · intro s hs
    apply dimRedStep_sat
    · intro _; trivial
    · intro _ _; trivial
    · intro _ _; exact ⟨by simpa using hs.1, by simpa using hs.2⟩
  · rfl

/-- The do-while loop returns as soon as the fuel exceeds the iteration limit. -/
theorem idrLoop_terminates (C : Collab K R) (E : IdrEnv K R) :
    ∀ fuel (st : IdrState K R), st.innerflag = 0 → (E.maxiter - st.numiter).toNat ≤ fuel →
      1 ≤ fuel → ∃ out, idrLoop C E fuel st = some out := by
  intro fuel
  induction fuel with
  | zero => intro st _ _ h; omega
  | succ fuel ih =>
    intro st hf hm _
    have hs := iteration_next_numiter C E st hf
    unfold idrLoop
    cases hstep : iteration C E st with
    | next s =>
      rw [hstep] at hs
      simp only []
      split_ifs with hc
      · have h1 : st.numiter + 1 ≤ s.numiter := hs.1
        exact ih s hs.2 (by omega) (by omega)
      · exact ⟨_, rfl⟩
    | brk s => exact ⟨_, rfl⟩
    | cleanup s => exact ⟨_, rfl⟩

/-- A breakdown test records MAGMA_DIVERGENCE. -/
theorem Breakdown.info_eq (C : Collab K R) (E : IdrEnv K R) (s : IdrState K R)
    (h : Breakdown C E s) : s.info = MAGMA_DIVERGENCE := by
  rcases h with ⟨k, st, -, -, hs⟩ | ⟨st, -, hs⟩
  · rw [hs]
  · rw [hs]

/-- The control invariant of the do-while loop: a loop entered with counter 0, both flags
clear and `|r| > tolb` is only left through a `break`, either at a checkpoint with `info`
still clear or by a breakdown test that found `|r| > tolb`, or through the failed CHECK of
a dense solve; the counter ends between 1 and `max 1 maxiter`. -/
theorem idrLoop_control (C : Collab K R) (E : IdrEnv K R) (fuel : Nat)
    (st : IdrState K R) (out : Flow (IdrState K R))
    (h0 : st.numiter = 0) (hinfo : st.info = 0) (hflag : st.innerflag = 0)
    (hres : E.tolb < st.nrmr) (h : idrLoop C E fuel st = some out) :
    Flow.sat (fun _ => False)
      (fun s => (s.info = 0 ∨ (Breakdown C E s ∧ E.tolb < s.nrmr)) ∧
        1 ≤ s.numiter ∧ s.numiter ≤ max 1 E.maxiter)
      (fun s => (∃ k st1, (smallSolve C E k st1).1 ≠ 0 ∧ s = (smallSolve C E k st1).2) ∧
        1 ≤ s.numiter ∧ s.numiter ≤ max 1 E.maxiter) out := by
  refine idrLoop_rule C E
    (I := fun s => s.innerflag = 0 ∧ s.info = 0 ∧ E.tolb < s.nrmr ∧ 0 ≤ s.numiter ∧
      s.numiter + 1 ≤ max 1 E.maxiter)
    (N := fun s => s.innerflag = 0 ∧ s.info = 0 ∧ E.tolb < s.nrmr ∧ 1 ≤ s.numiter ∧
      s.numiter < E.maxiter)
    ?_ ?_ ?_ fuel st out ⟨hflag, hinfo, hres, by omega, by rw [h0]; simp⟩ h
  · intro s hI
    apply iteration_rule C E
      (I := fun s => s.innerflag = 0 ∧ s.info = 0 ∧ E.tolb < s.nrmr ∧ 0 ≤ s.numiter ∧
        s.numiter + 1 ≤ max 1 E.maxiter)
      (J := fun s => s.innerflag = 0 ∧ s.info = 0 ∧ E.tolb < s.nrmr ∧ 1 ≤ s.numiter ∧
        s.numiter ≤ max 1 E.maxiter)
    · intro s hs; exact hs.1
    · intro s ⟨a, b, c, d, e⟩
      refine ⟨by simpa using a, by simpa using b, by simpa using c, by simp; omega,
        by simpa using e⟩
    · intro k s ⟨a, b, c, d, e⟩
      apply innerStep_sat
      · intro hc
        exact ⟨⟨k, s, hc, rfl⟩, by simpa using d, by simpa using e⟩
      · intro hz hm
        exact ⟨Or.inr ⟨Or.inl ⟨k, s, hz, hm, rfl⟩, by simpa using c⟩, by simpa using d,
          by simpa using e⟩
      · intro hz _
        apply applyUpdate_sat
        · intro _
          exact ⟨Or.inl (by simpa using hz), by simpa using d, by simpa using e⟩
        · intro hn
          rw [not_or, not_le, not_le] at hn
          obtain ⟨hn1, hn2⟩ := hn
          simp only [newDirection_numiter, smallSolve_numiter] at hn2
          refine ⟨by simpa using a, by simpa using hz, hn1, by simp; omega, ?_⟩
          simp only [newDirection_numiter, smallSolve_numiter]
          have := le_max_right 1 E.maxiter
          omega
    · intro s ⟨a, b, c, d, e⟩
      apply dimRedStep_sat
      · intro hz
        exact ⟨Or.inr ⟨Or.inr ⟨s, hz, rfl⟩, by simpa using c⟩, by simpa using d,
          by simpa using e⟩
      · intro _ _
        exact ⟨Or.inl (by simpa using b), by simpa using d, by simpa using e⟩
      · intro _ hn
        rw [not_or, not_le, not_le] at hn
        exact ⟨by simpa using a, by simpa using b, hn.1, by simpa using d, hn.2⟩
    · exact hI
  · intro s ⟨a, b, c, d, e⟩ hc
    have := le_max_right 1 E.maxiter
    exact ⟨a, b, c, by omega, by omega⟩
  · intro s ⟨a, b, c, d, e⟩ hc
    omega

/-- A loop entered from the initial state and left with a nonzero `info` was left by a
breakdown test. -/
theorem breakdown_of_exit_info (C : Collab K R) (A : magma_z_matrix K)
    (b x : magma_z_vector K) (par : magma_z_solver_par R) (fuel : Nat) (s : IdrState K R)
    (hinit : ¬ (idrInit C A b x par).nrmr ≤ idrTol C b par.epsilon)
    (hloop : idrLoop C (idrEnv C A b x par) fuel (idrInit C A b x par) = some (.brk s))
    (hne : s.info ≠ 0) : Breakdown C (idrEnv C A b x par) s := by
  have hctl := idrLoop_control C (idrEnv C A b x par) fuel (idrInit C A b x par) _ rfl rfl rfl
    (not_le.mp hinit) hloop
  rcases hctl.1 with h | ⟨h, -⟩
  · exact absurd h hne
  · exact h

/-! ## The residual relation r = b − A·x -/

theorem sumTo_congr (n : Nat) (f g : Nat → K) (h : ∀ j, j < n → f j = g j) :
    sumTo n f = sumTo n g := by
  induction n with
  | zero => rfl
  | succ n ih =>
    simp only [sumTo]
    rw [ih (fun j hj => h j (by omega)), h n (by omega)]

theorem sumTo_add (n : Nat) (f g : Nat → K) :
    sumTo n (fun j => f j + g j) = sumTo n f + sumTo n g := by
  induction n with
  | zero => simp [sumTo]
  | succ n ih => simp only [sumTo, ih]; ring

theorem sumTo_mul_left (n : Nat) (a : K) (f : Nat → K) :
    sumTo n (fun j => a * f j) = a * sumTo n f := by
  induction n with
  | zero => simp [sumTo]
  | succ n ih => simp only [sumTo, ih]; ring

theorem sumTo_zero (n : Nat) : sumTo n (fun _ => (0 : K)) = 0 := by
  induction n with
  | zero => rfl
  | succ n ih => simp [sumTo, ih]

/-- The product A·x only reads the first `num_cols` entries of `x`. -/
theorem matVec_congr (A : magma_z_matrix K) (n : Nat) (hA : A.num_cols = n) (x y : Vec K)
    (h : ∀ j, j < n → x j = y j) (i : Nat) : matVec A x i = matVec A y i := by
  unfold matVec
  apply sumTo_congr
  intro j hj
  rw [hA] at hj
  rw [h j (by simpa using hj)]

/-- The product with A is linear: A·(alpha·u + w) = alpha·A·u + A·w. -/
theorem matVec_axpy (A : magma_z_matrix K) (n : Nat) (hA : A.num_cols = n) (a : K)
    (u w : Vec K) (i : Nat) :
    matVec A (magma_zaxpy n a u w) i = a * matVec A u i + matVec A w i := by
  unfold matVec
  rw [← sumTo_mul_left, ← sumTo_add]
  apply sumTo_congr
  intro j hj
  rw [hA] at hj
  have hj' : (j : Int) < n := by simpa using hj
  simp only [magma_zaxpy, hj', if_true]
  ring

theorem matVec_zero (A : magma_z_matrix K) (i : Nat) : matVec A (fun _ => 0) i = 0 := by
  unfold matVec
  simp [sumTo_zero]

/-- The bi-orthogonalization keeps G(:,j) = A·U(:,j). -/
theorem biortho_GAU (E : IdrEnv K R) (n : Nat) (hE : SquareSystem E n) (k m : Nat)
    (st : IdrState K R) (h : ∀ j i, i < n → st.G j i = matVec E.A (st.U j) i) :
    ∀ j i, i < n → (biortho E k m st).G j i = matVec E.A ((biortho E k m st).U j) i := by
  induction m with
  | zero => exact h
  | succ m ih =>
    obtain ⟨h1, h2, h3, h4, h5⟩ := hE
    intro j i hi
    simp only [biortho, biorthoStep, setCol]
    by_cases hj : j = k
    · simp only [hj, if_true]
      rw [h2, matVec_axpy E.A n h2, ← ih m i hi, ← ih k i hi]
      have hi' : (i : Int) < n := by exact_mod_cast hi
      simp [magma_zaxpy, hi']
    · simp only [hj, if_false]
      exact ih j i hi

/-- The new columns of an inner step keep G(:,j) = A·U(:,j). -/
theorem newDirection_GAU (E : IdrEnv K R) (n : Nat) (hE : SquareSystem E n) (k : Nat)
    (st : IdrState K R) (h : ∀ j i, i < n → st.G j i = matVec E.A (st.U j) i) :
    ∀ j i, i < n → (newDirection E k st).G j i = matVec E.A ((newDirection E k st).U j) i := by
  unfold newDirection
  simp only []
  apply biortho_GAU E n hE
  obtain ⟨h1, h2, h3, h4, h5⟩ := hE
  intro j i hi
  have hi' : (i : Int) < n := by exact_mod_cast hi
  simp only [setCol]
  by_cases hj : j = k
  · simp only [hj, if_true]
    rw [h2]
    simp only [magma_zcopy, hi', if_true, magma_z_spmv, h1]
    rw [one_mul, zero_mul, add_zero]
    apply matVec_congr E.A n h2
    intro l hl
    have hl' : (l : Int) < n := by exact_mod_cast hl
    simp only [magma_zcopy, hl', if_true]
  · simp only [hj, if_false]
    exact h j i hi

/-- The relations only involve `x`, `r`, `G`, `U` and `nrmr`. -/
theorem ResidualInv.of_eq (C : Collab K R) (E : IdrEnv K R) (n : Nat) (st st1 : IdrState K R)
    (h : ResidualInv C E n st) (hx : st1.x = st.x) (hr : st1.r = st.r) (hG : st1.G = st.G)
    (hU : st1.U = st.U) (hn : st1.nrmr = st.nrmr) : ResidualInv C E n st1 := by
  unfold ResidualInv at *
  rw [hx, hr, hG, hU, hn]
  exact h

/-- The state in which the loop is entered satisfies the relations. -/
theorem idrInit_residual (C : Collab K R) (A : magma_z_matrix K) (b x : magma_z_vector K)
    (par : magma_z_solver_par R) (n : Nat) (hE : SquareSystem (idrEnv C A b x par) n) :
    ResidualInv C (idrEnv C A b x par) n (idrInit C A b x par) := by
  obtain ⟨h1, h2, h3, h4, h5⟩ := hE
  simp only [idrEnv] at h1 h2 h3 h4 h5
  refine ⟨?_, ?_, ?_⟩
  · intro i hi
    have hi' : (i : Int) < n := by exact_mod_cast hi
    simp only [idrInit, idrEnv, magma_zresidualvec, magma_zaxpy, magma_z_spmv, h1, h4, mul_one,
      hi', if_true]
    ring
  · intro j i hi
    simp only [idrInit, idrEnv]
    rw [matVec_zero]
  · simp only [idrInit, idrEnv, magma_zresidualvec, h1, h3]

/-- The update of `x` and `r` in an inner step keeps the relations. -/
theorem updateXR_residual (C : Collab K R) (E : IdrEnv K R) (n : Nat) (hE : SquareSystem E n)
    (k : Nat) (st : IdrState K R) (h : ResidualInv C E n st) :
    ResidualInv C E n (updateXR C E k st) := by
  obtain ⟨h1, h2, h3, h4, h5⟩ := hE
  obtain ⟨hr, hG, hn⟩ := h
  refine ⟨?_, ?_, rfl⟩
  · intro i hi
    have hi' : (i : Int) < n := by exact_mod_cast hi
    simp only [updateXR, h5, h3]
    rw [matVec_axpy E.A n h2, ← hG k i hi]
    simp only [magma_zaxpy, hi', if_true, hr i hi]
    ring
  · intro j i hi
    exact hG j i hi

/-- The vectors `v` and `t` of the dimension-reduction step: v = r and t = A·r. -/
theorem newOmega_v_t (C : Collab K R) (E : IdrEnv K R) (n : Nat) (hE : SquareSystem E n)
    (st : IdrState K R) (i : Nat) (hi : i < n) :
    (newOmega C E st).v i = st.r i ∧ (newOmega C E st).t i = matVec E.A st.r i := by
  obtain ⟨h1, h2, h3, h4, h5⟩ := hE
  have hi' : (i : Int) < n := by exact_mod_cast hi
  constructor
  · simp [newOmega, magma_zcopy, h3, h4, hi']
  · simp only [newOmega, magma_z_spmv, h1, hi', if_true, one_mul, zero_mul, add_zero]
    apply matVec_congr E.A n h2
    intro l hl
    have hl' : (l : Int) < n := by exact_mod_cast hl
    simp [magma_zcopy, h3, h4, hl']

/-- The update of `x` and `r` in the dimension-reduction step keeps the relations. -/
theorem omegaUpdate_residual (C : Collab K R) (E : IdrEnv K R) (n : Nat)
    (hE : SquareSystem E n) (st : IdrState K R) (h : ResidualInv C E n st) :
    ResidualInv C E n (omegaUpdate C E (newOmega C E st)) := by
  have hvt := newOmega_v_t C E n hE st
  obtain ⟨h1, h2, h3, h4, h5⟩ := hE
  obtain ⟨hr, hG, hn⟩ := h
  refine ⟨?_, ?_, rfl⟩
  · intro i hi
    have hi' : (i : Int) < n := by exact_mod_cast hi
    simp only [omegaUpdate, h5, h3, newOmega_x, newOmega_r]
    rw [matVec_axpy E.A n h2, matVec_congr E.A n h2 _ st.r (fun l hl => (hvt l hl).1)]
    simp only [magma_zaxpy, hi', if_true, hr i hi, (hvt i hi).2]
    rw [matVec_congr E.A n h2 st.r (fun l => E.b.dval l - matVec E.A st.x l) hr]
    ring
  · intro j i hi
    simpa using hG j i hi

/-- The residual relations hold in every state in which the do-while loop is left. -/
theorem idrLoop_residual (C : Collab K R) (E : IdrEnv K R) (n : Nat) (hE : SquareSystem E n)
    (fuel : Nat) (st : IdrState K R) (out : Flow (IdrState K R))
    (hflag : st.innerflag = 0) (hinv : ResidualInv C E n st)
    (h : idrLoop C E fuel st = some out) :
    Flow.sat (ResidualInv C E n) (ResidualInv C E n) (ResidualInv C E n) out := by
  refine idrLoop_rule C E
    (I := fun s => s.innerflag = 0 ∧ ResidualInv C E n s)
    (N := fun s => s.innerflag = 0 ∧ ResidualInv C E n s)
    ?_ ?_ ?_ fuel st out ⟨hflag, hinv⟩ h
  · intro s hI
    apply iteration_rule C E
      (I := fun s => s.innerflag = 0 ∧ ResidualInv C E n s)
      (J := fun s => s.innerflag = 0 ∧ ResidualInv C E n s)
    · intro s hs; exact hs.1
    · intro s ⟨a, b⟩
      exact ⟨by simpa using a, b.of_eq C E n s _ rfl rfl rfl rfl rfl⟩
    · intro k s ⟨a, b⟩
      have hnd : ResidualInv C E n (newDirection E k (smallSolve C E k s).2) := by
        refine ⟨?_, ?_, ?_⟩
        · simpa using b.1
        · exact newDirection_GAU E n hE k _ (by simpa using b.2.1)
        · simpa using b.2.2
      apply innerStep_sat
      · intro _
        exact b.of_eq C E n s _ rfl rfl rfl rfl rfl
      · intro _ _
        exact hnd.of_eq C E n _ _ rfl rfl rfl rfl rfl
      · intro _ _
        have hup := updateXR_residual C E n hE k _ hnd
        apply applyUpdate_sat
        · intro _
          exact hup.of_eq C E n _ _ rfl rfl rfl rfl rfl
        · intro _
          exact ⟨by simpa using a, hup.of_eq C E n _ _ rfl rfl rfl rfl rfl⟩
    · intro s ⟨a, b⟩
      have hup := omegaUpdate_residual C E n hE s b
      apply dimRedStep_sat
      · intro _
        exact b.of_eq C E n s _ rfl rfl rfl rfl rfl
      · intro _ _; exact hup
      · intro _ _; exact ⟨by simpa using a, hup⟩
    · exact hI
  · intro s hs _; exact hs
  · intro s hs _; exact hs.2

/-- In a state that satisfies the relations, the residual recomputed for the last stats is
the maintained residual and its norm is the maintained norm. -/
theorem residualvec_of_inv (C : Collab K R) (E : IdrEnv K R) (n : Nat) (hE : SquareSystem E n)
    (st : IdrState K R) (h : ResidualInv C E n st) :
    magma_zresidualvec C E.A E.b st.x st.r = (st.r, st.nrmr) := by
  obtain ⟨h1, h2, h3, h4, h5⟩ := hE
  obtain ⟨hr, hG, hn⟩ := h
  have hvec : magma_zaxpy (E.A.num_rows * E.b.num_cols) 1 E.b.dval
      (magma_z_spmv (-1) E.A st.x 0 st.r) = st.r := by
    funext i
    simp only [magma_zaxpy, magma_z_spmv, h1, h4, mul_one]
    by_cases hi : (i : Int) < n
    · have hi' : i < n := by exact_mod_cast hi
      simp only [hi, if_true, hr i hi']
      ring
    · simp only [hi, if_false]
  rw [h1] at hvec
  simp only [magma_zresidualvec, hn, h1, h3, hvec]

/-! ## The test of omega with the quotients of IEEE arithmetic -/

/-- The omega of `newOmega` in terms of `|t|` and `tr`. -/
theorem newOmega_om_eq (C : Collab K R) (E : IdrEnv K R) (st : IdrState K R) :
    (newOmega C E st).om =
      if |C.real (omegaTr E st) / (omegaNrmt C E st * st.nrmr)| < 7 / 10 then
        omegaTr E st / C.make (omegaNrmt C E st * omegaNrmt C E st) * C.make (7 / 10) /
          C.make |C.real (omegaTr E st) / (omegaNrmt C E st * st.nrmr)|
      else omegaTr E st / C.make (omegaNrmt C E st * omegaNrmt C E st) := rfl

/-- When no quotient of lines 543-550 has a zero divisor, the value of IEEE arithmetic is
the omega of `newOmega`. -/
theorem omegaIeee_defined (C : Collab K R) (E : IdrEnv K R) (st : IdrState K R)
    (h1 : omegaNrmt C E st * st.nrmr ≠ 0)
    (h2 : |C.real (omegaTr E st) / (omegaNrmt C E st * st.nrmr)| < 7 / 10 →
      |C.real (omegaTr E st) / (omegaNrmt C E st * st.nrmr)| ≠ 0) :
    omegaIeee C E st = some (newOmega C E st).om := by
  have hn : omegaNrmt C E st * omegaNrmt C E st ≠ 0 :=
    mul_ne_zero (left_ne_zero_of_mul h1) (left_ne_zero_of_mul h1)
  rw [newOmega_om_eq]
  simp only [omegaIeee, ieeeDiv, if_neg h1, if_neg hn]
  by_cases hr : |C.real (omegaTr E st) / (omegaNrmt C E st * st.nrmr)| < 7 / 10
  · simp only [if_pos hr, Option.bind, if_neg (h2 hr)]
  · simp only [if_neg hr]

/-- When the value of IEEE arithmetic is zero, so is the omega of `newOmega`: where the
routine takes the `break` of line 558, the model does. -/
theorem omegaIeee_zero_om (C : Collab K R) (E : IdrEnv K R) (st : IdrState K R)
    (h : omegaIeee C E st = some 0) : (newOmega C E st).om = 0 := by
  rw [newOmega_om_eq]
  simp only [omegaIeee, ieeeDiv] at h
  by_cases hn : omegaNrmt C E st * omegaNrmt C E st = 0
  · rw [if_pos hn] at h
    split_ifs at h <;> simp [Option.bind] at h
  rw [if_neg hn] at h
  by_cases h1 : omegaNrmt C E st * st.nrmr = 0
  · rw [if_pos h1] at h
    have h0 : omegaTr E st / C.make (omegaNrmt C E st * omegaNrmt C E st) = 0 :=
      Option.some.inj h
    rw [h1, h0]
    split_ifs <;> simp
  rw [if_neg h1] at h
  by_cases hr : |C.real (omegaTr E st) / (omegaNrmt C E st * st.nrmr)| < 7 / 10
  · rw [if_pos hr] at h ⊢
    simp only [Option.bind] at h
    by_cases h0 : |C.real (omegaTr E st) / (omegaNrmt C E st * st.nrmr)| = 0
    · rw [if_pos h0] at h; cases h
    · rw [if_neg h0] at h
      exact Option.some.inj h
  · rw [if_neg hr] at h ⊢
    exact Option.some.inj h

/-- With `t` orthogonal to `r` and nonzero `|t|`, `|r|`, `rho` is zero and the rescaling
of line 550 divides by it. -/
theorem omegaIeee_orth (C : Collab K R) (E : IdrEnv K R) (st : IdrState K R)
    (hre : C.real 0 = 0) (h1 : omegaNrmt C E st * st.nrmr ≠ 0) (htr : omegaTr E st = 0) :
    omegaIeee C E st = none := by
  have hn : omegaNrmt C E st * omegaNrmt C E st ≠ 0 :=
    mul_ne_zero (left_ne_zero_of_mul h1) (left_ne_zero_of_mul h1)
  have hrho : |C.real (omegaTr E st) / (omegaNrmt C E st * st.nrmr)| = 0 := by
    rw [htr, hre, zero_div, abs_zero]
  simp only [omegaIeee, ieeeDiv, if_neg h1, if_neg hn, hrho]
  rw [if_pos (by norm_num)]
  simp [Option.bind]

/-- With a real part and a conversion that map only zero to zero and nonzero `|t|`, `|r|`,
the value tested in line 556 is never zero. -/
theorem omegaIeee_ne_zero (C : Collab K R) (E : IdrEnv K R) (st : IdrState K R)
    (hre : C.real 0 = 0) (hmk : ∀ a : R, C.make a = 0 → a = 0)
    (h1 : omegaNrmt C E st * st.nrmr ≠ 0) : omegaIeee C E st ≠ some 0 := by
  intro h
  have hom := omegaIeee_zero_om C E st h
  have hn : omegaNrmt C E st * omegaNrmt C E st ≠ 0 :=
    mul_ne_zero (left_ne_zero_of_mul h1) (left_ne_zero_of_mul h1)
  have hmn : C.make (omegaNrmt C E st * omegaNrmt C E st) ≠ 0 := fun h0 => hn (hmk _ h0)
  by_cases htr : omegaTr E st = 0
  · rw [omegaIeee_orth C E st hre h1 htr] at h
    cases h
  · have hbase : omegaTr E st / C.make (omegaNrmt C E st * omegaNrmt C E st) ≠ 0 :=
      div_ne_zero htr hmn
    have h7 : C.make (7 / 10) ≠ 0 := fun h0 => by
      have := hmk _ h0
      norm_num at this
    simp only [omegaIeee, ieeeDiv, if_neg h1, if_neg hn] at h
    by_cases hr : |C.real (omegaTr E st) / (omegaNrmt C E st * st.nrmr)| < 7 / 10
    · rw [if_pos hr] at h
      simp only [Option.bind] at h
      by_cases h0 : |C.real (omegaTr E st) / (omegaNrmt C E st * st.nrmr)| = 0
      · rw [if_pos h0] at h; cases h
      · rw [if_neg h0] at h
        have hq := Option.some.inj h
        exact div_ne_zero (mul_ne_zero hbase h7) (fun h0' => h0 (hmk _ h0')) hq
    · rw [if_neg hr] at h
      exact hbase (Option.some.inj h)

/-! ## The routine around the loop -/

/-- The value of `solver_par` when the do-while loop is entered. -/
theorem magma_zidr_acc_of_brk (C : Collab K R) (fuel : Nat) (A : magma_z_matrix K)
    (b x : magma_z_vector K) (par : magma_z_solver_par R) (s : IdrState K R)
    (hsq : A.num_rows = A.num_cols) (hb : C.dznrm2 b.num_rows b.dval ≠ 0)
    (hinit : ¬ (idrInit C A b x par).nrmr ≤ (idrEnv C A b x par).tolb)
    (hloop : idrLoop C (idrEnv C A b x par) fuel (idrInit C A b x par) = some (.brk s)) :
    magma_zidr_acc C fuel A b x par = some (lastStats C (idrEnv C A b x par)
      { par with numiter := 0, info := MAGMA_SUCCESS, restart := (idrEnv C A b x par).s,
                 maxiter := (idrEnv C A b x par).maxiter,
                 init_res := (idrInit C A b x par).nrmr } s) := by
  simp only [magma_zidr_acc, hsq, hb, hinit, hloop, ne_eq, not_true_eq_false, if_false]

theorem magma_zidr_acc_of_cleanup (C : Collab K R) (fuel : Nat) (A : magma_z_matrix K)
    (b x : magma_z_vector K) (par : magma_z_solver_par R) (s : IdrState K R)
    (hsq : A.num_rows = A.num_cols) (hb : C.dznrm2 b.num_rows b.dval ≠ 0)
    (hinit : ¬ (idrInit C A b x par).nrmr ≤ (idrEnv C A b x par).tolb)
    (hloop : idrLoop C (idrEnv C A b x par) fuel (idrInit C A b x par) = some (.cleanup s)) :
    magma_zidr_acc C fuel A b x par = some (cleanup s.info s.x
      { par with numiter := s.numiter, info := MAGMA_SUCCESS,
                 restart := (idrEnv C A b x par).s,
                 maxiter := (idrEnv C A b x par).maxiter,
                 init_res := (idrInit C A b x par).nrmr }) := by
  simp only [magma_zidr_acc, hsq, hb, hinit, hloop, ne_eq, not_true_eq_false, if_false]

/-! ## The claims -/

/-- C3: when `A` is not square the routine returns MAGMA_ERR, which it also stores in
`solver_par->info`, leaves the array of `x` as it was, reports `numiter = 0` and performs no
pass of the iteration: the result is the same for every amount of fuel, zero included. -/
theorem C3_nonsquare_shape_error (C : Collab K R) (fuel : Nat) (A : magma_z_matrix K)
    (b x : magma_z_vector K) (par : magma_z_solver_par R) (h : A.num_rows ≠ A.num_cols) :
    ∃ res, magma_zidr_acc C fuel A b x par = some res ∧
      magma_zidr_acc C 0 A b x par = some res ∧
      res.info = MAGMA_ERR ∧ res.par.info = MAGMA_ERR ∧ res.x = x.dval ∧
      res.par.numiter = 0 := by
  refine ⟨cleanup MAGMA_ERR x.dval { par with numiter := 0, info := MAGMA_SUCCESS },
    ?_, ?_, rfl, rfl, rfl, rfl⟩
  · simp [magma_zidr_acc, h]
  · simp [magma_zidr_acc, h]

/-- C4: for a square `A` and a right-hand side whose norm is zero the routine returns
MAGMA_SUCCESS with every entry of `x` set to zero, `numiter = 0` and
`init_res = final_res = iter_res = 0`, whatever the initial guess. -/
theorem C4_zero_rhs (C : Collab K R) (fuel : Nat) (A : magma_z_matrix K)
    (b x : magma_z_vector K) (par : magma_z_solver_par R) (hsq : A.num_rows = A.num_cols)
    (hb : C.dznrm2 b.num_rows b.dval = 0) :
    ∃ res, magma_zidr_acc C fuel A b x par = some res ∧
      res.info = MAGMA_SUCCESS ∧ res.par.info = MAGMA_SUCCESS ∧
      (∀ i : Nat, (i : Int) < x.num_rows * x.num_cols → res.x i = 0) ∧
      res.par.numiter = 0 ∧
      res.par.init_res = 0 ∧ res.par.final_res = 0 ∧ res.par.iter_res = 0 := by
  refine ⟨_, by simp [magma_zidr_acc, hsq, hb]; rfl, rfl, rfl, ?_, rfl, rfl, rfl, rfl⟩
  intro i hi
  simp [cleanup, magma_zscal, hi]

/-- C7: when the loop is left by a breakdown test (zero `M(k,k)` or zero omega), the routine
returns MAGMA_SLOW_CONVERGENCE exactly when `init_res > final_res`, with `final_res` the
norm of the recomputed residual, and MAGMA_DIVERGENCE exactly when not (equality
included). -/
theorem C7_breakdown_classification (C : Collab K R) (fuel : Nat) (A : magma_z_matrix K)
    (b x : magma_z_vector K) (par : magma_z_solver_par R) (s : IdrState K R)
    (hsq : A.num_rows = A.num_cols) (hb : C.dznrm2 b.num_rows b.dval ≠ 0)
    (hinit : ¬ (idrInit C A b x par).nrmr ≤ idrTol C b par.epsilon)
    (hloop : idrLoop C (idrEnv C A b x par) fuel (idrInit C A b x par) = some (.brk s))
    (hbd : Breakdown C (idrEnv C A b x par) s) :
    ∃ res, magma_zidr_acc C fuel A b x par = some res ∧
      res.par.init_res = (idrInit C A b x par).nrmr ∧
      res.par.final_res = (magma_zresidualvec C A b s.x s.r).2 ∧
      res.par.info = res.info ∧
      (res.info = MAGMA_SLOW_CONVERGENCE ↔ res.par.init_res > res.par.final_res) ∧
      (res.info = MAGMA_DIVERGENCE ↔ ¬ res.par.init_res > res.par.final_res) := by
  have hbd := hbd.info_eq
  refine ⟨_, magma_zidr_acc_of_brk C fuel A b x par s hsq hb hinit hloop, rfl, rfl, rfl, ?_, ?_⟩
  · simp only [lastStats, cleanup, hbd]
    by_cases hlt : (idrInit C A b x par).nrmr >
        (magma_zresidualvec C (idrEnv C A b x par).A (idrEnv C A b x par).b s.x s.r).2
    · simp [hlt, MAGMA_DIVERGENCE, MAGMA_SUCCESS, MAGMA_SLOW_CONVERGENCE]
    · simp [hlt, MAGMA_DIVERGENCE, MAGMA_SUCCESS, MAGMA_SLOW_CONVERGENCE]
  · simp only [lastStats, cleanup, hbd]
    by_cases hlt : (idrInit C A b x par).nrmr >
        (magma_zresidualvec C (idrEnv C A b x par).A (idrEnv C A b x par).b s.x s.r).2
    · simp [hlt, MAGMA_DIVERGENCE, MAGMA_SUCCESS, MAGMA_SLOW_CONVERGENCE]
    · simp [hlt, MAGMA_DIVERGENCE, MAGMA_SUCCESS, MAGMA_SLOW_CONVERGENCE]

/-- C6 (amended): when the loop is left by a breakdown test (zero `M(k,k)` or zero omega),
the status returned is never MAGMA_SUCCESS; it is MAGMA_DIVERGENCE when the recomputed final residual norm is not
below the initial one and MAGMA_SLOW_CONVERGENCE when it is strictly below. -/
theorem C6_breakdown_status (C : Collab K R) (fuel : Nat) (A : magma_z_matrix K)
    (b x : magma_z_vector K) (par : magma_z_solver_par R) (s : IdrState K R)
    (hsq : A.num_rows = A.num_cols) (hb : C.dznrm2 b.num_rows b.dval ≠ 0)
    (hinit : ¬ (idrInit C A b x par).nrmr ≤ idrTol C b par.epsilon)
    (hloop : idrLoop C (idrEnv C A b x par) fuel (idrInit C A b x par) = some (.brk s))
    (hbd : Breakdown C (idrEnv C A b x par) s) :
    ∃ res, magma_zidr_acc C fuel A b x par = some res ∧
      res.info ≠ MAGMA_SUCCESS ∧
      (res.par.init_res ≤ res.par.final_res → res.info = MAGMA_DIVERGENCE) ∧
      (res.par.final_res < res.par.init_res → res.info = MAGMA_SLOW_CONVERGENCE) := by
  have hbd := hbd.info_eq
  refine ⟨_, magma_zidr_acc_of_brk C fuel A b x par s hsq hb hinit hloop, ?_, ?_, ?_⟩
  · simp only [lastStats, cleanup, hbd]
    by_cases hlt : (idrInit C A b x par).nrmr >
        (magma_zresidualvec C (idrEnv C A b x par).A (idrEnv C A b x par).b s.x s.r).2
    · simp [hlt, MAGMA_DIVERGENCE, MAGMA_SUCCESS, MAGMA_SLOW_CONVERGENCE]
    · simp [hlt, MAGMA_DIVERGENCE, MAGMA_SUCCESS, MAGMA_SLOW_CONVERGENCE]
  · intro hle
    have hlt : ¬ (idrInit C A b x par).nrmr >
        (magma_zresidualvec C (idrEnv C A b x par).A (idrEnv C A b x par).b s.x s.r).2 :=
      not_lt.mpr hle
    simp [lastStats, cleanup, hbd, hlt, MAGMA_DIVERGENCE, MAGMA_SUCCESS]
  · intro hlt
    have hlt' : (idrInit C A b x par).nrmr >
        (magma_zresidualvec C (idrEnv C A b x par).A (idrEnv C A b x par).b s.x s.r).2 := hlt
    simp [lastStats, cleanup, hbd, hlt', MAGMA_DIVERGENCE, MAGMA_SUCCESS]

/-- C5 (amended): when the loop is left at a checkpoint (not by a breakdown test) at which
the counter has reached the effective maximum and the residual norm is still above `tolb`, the
routine returns MAGMA_SUCCESS; reaching the limit shows only in the statistics, as
`numiter ≥ maxiter` and `iter_res > tolb`, and `x` is the last iterate. -/
theorem C5_limit_returns_success (C : Collab K R) (fuel : Nat) (A : magma_z_matrix K)
    (b x : magma_z_vector K) (par : magma_z_solver_par R) (s : IdrState K R)
    (hsq : A.num_rows = A.num_cols) (hb : C.dznrm2 b.num_rows b.dval ≠ 0)
    (hinit : ¬ (idrInit C A b x par).nrmr ≤ idrTol C b par.epsilon)
    (hloop : idrLoop C (idrEnv C A b x par) fuel (idrInit C A b x par) = some (.brk s))
    (hck : ¬ Breakdown C (idrEnv C A b x par) s)
    (hres : idrTol C b par.epsilon < s.nrmr)
    (hlim : MIN (2 * A.num_cols) par.maxiter ≤ s.numiter) :
    ∃ res, magma_zidr_acc C fuel A b x par = some res ∧
      res.info = MAGMA_SUCCESS ∧ res.par.info = MAGMA_SUCCESS ∧
      res.par.maxiter ≤ res.par.numiter ∧
      idrTol C b par.epsilon < res.par.iter_res ∧
      res.x = s.x := by
  have hctl := idrLoop_control C (idrEnv C A b x par) fuel (idrInit C A b x par) _ rfl rfl rfl
    (not_le.mp hinit) hloop
  have hck : s.info = MAGMA_SUCCESS := by
    rcases hctl.1 with h | ⟨h, -⟩
    · exact h
    · exact absurd h hck
  refine ⟨_, magma_zidr_acc_of_brk C fuel A b x par s hsq hb hinit hloop, ?_, ?_, hlim, hres,
    rfl⟩
  · simp [lastStats, cleanup, hck]
  · simp [lastStats, cleanup, hck]

/-- C8 (amended): when the CHECK of the dense solve fails in some inner step, the routine
returns the nonzero code of that solve unchanged (no last stats, no reclassification:
`final_res` and `iter_res` keep the values of the caller), and `x` is the array at the
start of the failing step, with the updates of all inner steps completed before. -/
theorem C8_failed_solve_code (C : Collab K R) (fuel : Nat) (A : magma_z_matrix K)
    (b x : magma_z_vector K) (par : magma_z_solver_par R) (s : IdrState K R)
    (hsq : A.num_rows = A.num_cols) (hb : C.dznrm2 b.num_rows b.dval ≠ 0)
    (hinit : ¬ (idrInit C A b x par).nrmr ≤ idrTol C b par.epsilon)
    (hloop : idrLoop C (idrEnv C A b x par) fuel (idrInit C A b x par) = some (.cleanup s)) :
    ∃ res, magma_zidr_acc C fuel A b x par = some res ∧
      (∃ k st, s = (smallSolve C (idrEnv C A b x par) k st).2 ∧
        innerStep C (idrEnv C A b x par) k st = .cleanup s ∧
        res.info = (smallSolve C (idrEnv C A b x par) k st).1 ∧
        res.x = st.x) ∧
      res.info ≠ 0 ∧ res.par.info = res.info ∧
      res.par.final_res = par.final_res ∧ res.par.iter_res = par.iter_res := by
  have hctl := idrLoop_control C (idrEnv C A b x par) fuel (idrInit C A b x par) _ rfl rfl rfl
    (not_le.mp hinit) hloop
  obtain ⟨⟨k, st, hne, hs⟩, -, -⟩ := hctl
  refine ⟨_, magma_zidr_acc_of_cleanup C fuel A b x par s hsq hb hinit hloop, ⟨k, st, hs, ?_, ?_, ?_⟩,
    ?_, rfl, rfl, rfl⟩
  · rw [hs]; simp [innerStep_eq, hne]
  · rw [hs]; rfl
  · rw [hs]; rfl
  · rw [hs]; exact hne

/-- The two breakdown tests precede the updates of their step.  If the new `M(k,k)` of
inner step `k` is zero, the shadow space loop breaks in a state with the `x` and `r` of the
start of step `k` and `info` MAGMA_DIVERGENCE.  If the value of `om` that line 556 tests is
zero, the dimension-reduction step breaks in a state with the `x` and `r` of its start.
That value is the rescaled one: when `t` is orthogonal to `r`, the case omega = 0 of the
method, `rho` is zero and line 550 divides zero by zero, so `om` is a NaN; and with a real
part and a conversion that map only zero to zero and nonzero `|t|`, `|r|` the tested value
is never zero.  A pass that breaks ends the do-while loop in that very state, and the last
stats return its `x`. -/
theorem breakdown_keeps_x_r (C : Collab K R) (E : IdrEnv K R) (k rem fuel : Nat)
    (st : IdrState K R) :
    ((smallSolve C E k st).1 = 0 → (newDirection E k (smallSolve C E k st).2).M k k = 0 →
      ∃ s, innerStep C E k st = .brk s ∧ innerLoop C E (rem + 1) k st = .brk s ∧
        s.x = st.x ∧ s.r = st.r ∧ s.info = MAGMA_DIVERGENCE ∧ s.innerflag = 1) ∧
    (omegaIeee C E st = some 0 →
      ∃ s, dimRedStep C E st = .brk s ∧
        s.x = st.x ∧ s.r = st.r ∧ s.info = MAGMA_DIVERGENCE) ∧
    (C.real 0 = 0 → omegaNrmt C E st * st.nrmr ≠ 0 → omegaTr E st = 0 →
      omegaIeee C E st = none) ∧
    (C.real 0 = 0 → (∀ a : R, C.make a = 0 → a = 0) → omegaNrmt C E st * st.nrmr ≠ 0 →
      omegaIeee C E st ≠ some 0) ∧
    (∀ s, iteration C E st = .brk s → idrLoop C E (fuel + 1) st = some (.brk s)) ∧
    (∀ par s, (lastStats C E par s).x = s.x) := by
  refine ⟨?_, ?_, omegaIeee_orth C E st, omegaIeee_ne_zero C E st, ?_, ?_⟩
  · intro hz hm
    have hstep : innerStep C E k st = .brk { newDirection E k (smallSolve C E k st).2 with
        info := MAGMA_DIVERGENCE, innerflag := 1 } := by
      simp [innerStep_eq, hz, hm]
    refine ⟨_, hstep, ?_, ?_, ?_, rfl, rfl⟩
    · simp only [innerLoop, hstep]
    · simp
    · simp
  · intro hi
    have hz := omegaIeee_zero_om C E st hi
    refine ⟨{ newOmega C E st with info := MAGMA_DIVERGENCE }, ?_, ?_, ?_, rfl⟩
    · simp [dimRedStep, hz]
    · simp
    · simp
  · intro s hs
    simp only [idrLoop, hs]
  · intro par s
    rfl

theorem int32_eq (z : Int) (h1 : -2147483648 ≤ z) (h2 : z < 2147483648) : int32 z = z := by
  unfold int32
  norm_num
  omega

/-- Line 193 in `magma_int_t` arithmetic stores the cap `MIN (2 * A.num_cols) maxiter` when
`0 ≤ A.num_cols < 2 ^ 30`. -/
theorem storedMaxiter_eq (A : magma_z_matrix K) (maxiter : Int) (h0 : 0 ≤ A.num_cols)
    (h1 : A.num_cols < 2 ^ 30) : storedMaxiter A maxiter = MIN (2 * A.num_cols) maxiter := by
  have h2 : A.num_cols < 1073741824 := by norm_num at h1; exact h1
  unfold storedMaxiter
  rw [int32_eq _ (by omega) (by omega)]

/-- For `A.num_cols = 2 ^ 30` the product of line 193 overflows and the value stored is
`-2 ^ 31`. -/
theorem storedMaxiter_overflow (A : magma_z_matrix K) (maxiter : Int)
    (h0 : A.num_cols = 2 ^ 30) (h1 : 0 ≤ maxiter) : storedMaxiter A maxiter = -2 ^ 31 := by
  have h2 : int32 (2 * A.num_cols) = -2147483648 := by
    rw [h0]
    unfold int32
    norm_num
  unfold storedMaxiter MIN
  rw [h2, if_pos (by omega)]
  norm_num

/-- Wrap-around does not increase a nonnegative value. -/
theorem int32_le (z : Int) (h : 0 ≤ z) : int32 z ≤ z := by
  unfold int32
  norm_num
  omega

/-- For a matrix with `0 ≤ A.num_cols` the cap of line 193 in `magma_int_t` arithmetic is
at most the cap taken exactly. -/
theorem storedMaxiter_le (A : magma_z_matrix K) (maxiter : Int) (h0 : 0 ≤ A.num_cols) :
    storedMaxiter A maxiter ≤ MIN (2 * A.num_cols) maxiter := by
  have h1 := int32_le (2 * A.num_cols) (by omega)
  unfold storedMaxiter MIN
  split_ifs <;> omega

/-- C10 (amended): with enough fuel the routine returns, and the iteration count it reports
never exceeds `max 1 (MIN (2 * A.num_cols) maxiter)`: the body of the do-while loop runs
once before any limit is looked at, so the count is 1 when the effective cap is below 1.
For a square matrix with `0 ≤ A.num_cols < 2 ^ 30`, where the product `2 * A.num_cols` of
line 193 does not overflow `magma_int_t`, the value stored back into `solver_par->maxiter`
is the cap `MIN (2 * A.num_cols) maxiter`.  The bound does not depend on that: the loop
run under the cap of `magma_int_t` arithmetic returns with a count within the same
bound. -/
theorem C10_numiter_bound (C : Collab K R) (fuel : Nat) (A : magma_z_matrix K)
    (b x : magma_z_vector K) (par : magma_z_solver_par R)
    (hfuel : (MIN (2 * A.num_cols) par.maxiter).toNat < fuel) :
    ∃ res, magma_zidr_acc C fuel A b x par = some res ∧
      res.par.numiter ≤ max 1 (MIN (2 * A.num_cols) par.maxiter) ∧
      (A.num_rows = A.num_cols → 0 ≤ A.num_cols → A.num_cols < 2 ^ 30 →
        res.par.maxiter = MIN (2 * A.num_cols) par.maxiter ∧
        res.par.maxiter = storedMaxiter A par.maxiter) ∧
      (0 ≤ A.num_cols → ¬ (idrInit C A b x par).nrmr ≤ (idrEnv C A b x par).tolb →
        ∃ out, idrLoop C { idrEnv C A b x par with maxiter := storedMaxiter A par.maxiter }
            fuel (idrInit C A b x par) = some out ∧
          out.state.numiter ≤ max 1 (MIN (2 * A.num_cols) par.maxiter)) := by
  have hmach : 0 ≤ A.num_cols → ¬ (idrInit C A b x par).nrmr ≤ (idrEnv C A b x par).tolb →
      ∃ out, idrLoop C { idrEnv C A b x par with maxiter := storedMaxiter A par.maxiter }
          fuel (idrInit C A b x par) = some out ∧
        out.state.numiter ≤ max 1 (MIN (2 * A.num_cols) par.maxiter) := by
    intro h0 hres
    have hle := storedMaxiter_le A par.maxiter h0
    obtain ⟨out, hout⟩ := idrLoop_terminates C
      { idrEnv C A b x par with maxiter := storedMaxiter A par.maxiter } fuel
      (idrInit C A b x par) rfl (by
        have h1 : (idrInit C A b x par).numiter = 0 := rfl
        rw [h1]
        show (storedMaxiter A par.maxiter - 0).toNat ≤ fuel
        omega) (by omega)
    have hctl := idrLoop_control C
      { idrEnv C A b x par with maxiter := storedMaxiter A par.maxiter } fuel
      (idrInit C A b x par) out rfl rfl rfl (not_le.mp hres) hout
    have hmax : max 1 (storedMaxiter A par.maxiter) ≤ max 1 (MIN (2 * A.num_cols) par.maxiter) :=
      max_le_max le_rfl hle
    refine ⟨out, hout, ?_⟩
    cases out with
    | next s => exact absurd hctl (by simp [Flow.sat])
    | brk s => exact le_trans hctl.2.2 hmax
    | cleanup s => exact le_trans hctl.2.2 hmax
  have hpos : (0 : Int) ≤ max 1 (MIN (2 * A.num_cols) par.maxiter) :=
    le_trans (by norm_num) (le_max_left _ _)
  have hst : ∀ m : Int, m = MIN (2 * A.num_cols) par.maxiter → 0 ≤ A.num_cols →
      A.num_cols < 2 ^ 30 →
      m = MIN (2 * A.num_cols) par.maxiter ∧ m = storedMaxiter A par.maxiter :=
    fun m hm h0 h1 => ⟨hm, hm.trans (storedMaxiter_eq A par.maxiter h0 h1).symm⟩
  by_cases hsq : A.num_rows = A.num_cols
  swap
  · exact ⟨_, by simp [magma_zidr_acc, hsq]; rfl, hpos, fun h => absurd h hsq, hmach⟩
  by_cases hb : C.dznrm2 b.num_rows b.dval = 0
  · exact ⟨_, by simp [magma_zidr_acc, hsq, hb]; rfl, hpos, fun _ => hst _ rfl, hmach⟩
  by_cases hinit : (idrInit C A b x par).nrmr ≤ (idrEnv C A b x par).tolb
  · exact ⟨_, by simp [magma_zidr_acc, hsq, hb, hinit]; rfl, hpos, fun _ => hst _ rfl, hmach⟩
  obtain ⟨out, hout⟩ := idrLoop_terminates C (idrEnv C A b x par) fuel (idrInit C A b x par)
    rfl (by
      have : (idrInit C A b x par).numiter = 0 := rfl
      have h2 : (idrEnv C A b x par).maxiter = MIN (2 * A.num_cols) par.maxiter := rfl
      rw [this, h2]
      omega) (by omega)
  have hctl := idrLoop_control C (idrEnv C A b x par) fuel (idrInit C A b x par) out rfl rfl rfl
    (not_le.mp hinit) hout
  cases out with
  | next s => exact absurd hctl (by simp [Flow.sat])
  | brk s =>
    exact ⟨_, magma_zidr_acc_of_brk C fuel A b x par s hsq hb hinit hout, hctl.2.2,
      fun _ => hst _ rfl, hmach⟩
  | cleanup s =>
    exact ⟨_, magma_zidr_acc_of_cleanup C fuel A b x par s hsq hb hinit hout, hctl.2.2,
      fun _ => hst _ rfl, hmach⟩

/-- C2: in exact arithmetic, on an `n`-by-`n` system, when the loop is left at a checkpoint
with `nrmr ≤ tolb`, the norm of the recomputed residual reported as `final_res` equals the
maintained norm reported as `iter_res`, hence `final_res ≤ tolb`. -/
theorem C2_converged_final_residual (C : Collab K R) (fuel : Nat) (A : magma_z_matrix K)
    (b x : magma_z_vector K) (par : magma_z_solver_par R) (n : Nat) (s : IdrState K R)
    (hE : SquareSystem (idrEnv C A b x par) n) (hb : C.dznrm2 b.num_rows b.dval ≠ 0)
    (hinit : ¬ (idrInit C A b x par).nrmr ≤ idrTol C b par.epsilon)
    (hloop : idrLoop C (idrEnv C A b x par) fuel (idrInit C A b x par) = some (.brk s))
    (hconv : s.nrmr ≤ idrTol C b par.epsilon) :
    ∃ res, magma_zidr_acc C fuel A b x par = some res ∧
      res.par.iter_res = s.nrmr ∧
      res.par.final_res = (magma_zresidualvec C A b res.x s.r).2 ∧
      res.par.final_res = res.par.iter_res ∧
      res.par.final_res ≤ idrTol C b par.epsilon := by
  have hsq : A.num_rows = A.num_cols := by
    obtain ⟨h1, h2, -⟩ := hE
    exact h1.trans h2.symm
  have hinv := idrLoop_residual C (idrEnv C A b x par) n hE fuel (idrInit C A b x par) _ rfl
    (idrInit_residual C A b x par n hE) hloop
  have hfin := residualvec_of_inv C (idrEnv C A b x par) n hE s hinv
  have hfin2 : (magma_zresidualvec C A b s.x s.r).2 = s.nrmr := by
    have := congrArg Prod.snd hfin
    exact this
  refine ⟨_, magma_zidr_acc_of_brk C fuel A b x par s hsq hb hinit hloop, rfl, rfl, ?_, ?_⟩
  · exact hfin2
  · exact hfin2.trans_le hconv

/-- C1 (amended): convergence is not guaranteed, but on an `n`-by-`n` system with
`‖b‖ > 0` that enters the loop the routine returns with at most
`max 1 (MIN (2 * A.num_cols) maxiter)` iterations, and whenever the loop is left at a
checkpoint with `nrmr ≤ tolb` the status is MAGMA_SUCCESS and, in exact arithmetic, the
recomputed residual satisfies `final_res ≤ tolb`, that is `final_res / ‖b‖ ≤ epsilon` when
`‖b‖ · epsilon` is not below the absolute floor. -/
theorem C1_conditional_convergence (C : Collab K R) (fuel : Nat) (A : magma_z_matrix K)
    (b x : magma_z_vector K) (par : magma_z_solver_par R) (n : Nat)
    (hE : SquareSystem (idrEnv C A b x par) n) (hb : 0 < C.dznrm2 b.num_rows b.dval)
    (hinit : ¬ (idrInit C A b x par).nrmr ≤ idrTol C b par.epsilon)
    (hfuel : (MIN (2 * A.num_cols) par.maxiter).toNat < fuel) :
    ∃ res, magma_zidr_acc C fuel A b x par = some res ∧
      res.par.numiter ≤ max 1 (MIN (2 * A.num_cols) par.maxiter) ∧
      ∀ s, idrLoop C (idrEnv C A b x par) fuel (idrInit C A b x par) = some (.brk s) →
        s.nrmr ≤ idrTol C b par.epsilon →
        res.info = MAGMA_SUCCESS ∧ res.par.final_res ≤ idrTol C b par.epsilon ∧
        (C.dlamch_E ≤ C.dznrm2 b.num_rows b.dval * par.epsilon →
          res.par.final_res / C.dznrm2 b.num_rows b.dval ≤ par.epsilon) := by
  have hsq : A.num_rows = A.num_cols := by
    obtain ⟨h1, h2, -⟩ := hE
    exact h1.trans h2.symm
  obtain ⟨out, hout⟩ := idrLoop_terminates C (idrEnv C A b x par) fuel (idrInit C A b x par)
    rfl (by
      have h1 : (idrInit C A b x par).numiter = 0 := rfl
      have h2 : (idrEnv C A b x par).maxiter = MIN (2 * A.num_cols) par.maxiter := rfl
      rw [h1, h2]
      omega) (by omega)
  have hctl := idrLoop_control C (idrEnv C A b x par) fuel (idrInit C A b x par) out rfl rfl rfl
    (not_le.mp hinit) hout
  cases out with
  | next s => exact absurd hctl (by simp [Flow.sat])
  | cleanup s =>
    refine ⟨_, magma_zidr_acc_of_cleanup C fuel A b x par s hsq hb.ne' hinit hout, hctl.2.2, ?_⟩
    intro s1 hs1
    rw [hout] at hs1
    cases hs1
  | brk s =>
    refine ⟨_, magma_zidr_acc_of_brk C fuel A b x par s hsq hb.ne' hinit hout, hctl.2.2, ?_⟩
    intro s1 hs1 hconv
    rw [hout] at hs1
    cases hs1
    have hinfo : s.info = 0 := by
      rcases hctl.1 with h | ⟨-, h⟩
      · exact h
      · exact absurd hconv (not_le.mpr h)
    have hinv := idrLoop_residual C (idrEnv C A b x par) n hE fuel (idrInit C A b x par) _ rfl
      (idrInit_residual C A b x par n hE) hout
    have hfin := residualvec_of_inv C (idrEnv C A b x par) n hE s hinv
    have hfin2 : (magma_zresidualvec C A b s.x s.r).2 = s.nrmr := congrArg Prod.snd hfin
    have hle : (magma_zresidualvec C A b s.x s.r).2 ≤ idrTol C b par.epsilon :=
      hfin2.trans_le hconv
    refine ⟨?_, hle, ?_⟩
    · simp [lastStats, cleanup, hinfo, MAGMA_SUCCESS]
    · intro hfloor
      have htol : idrTol C b par.epsilon = C.dznrm2 b.num_rows b.dval * par.epsilon := by
        simp [idrTol, not_lt.mpr hfloor]
      have h2 : (magma_zresidualvec C A b s.x s.r).2 ≤
          C.dznrm2 b.num_rows b.dval * par.epsilon := htol ▸ hle
      show (magma_zresidualvec C A b s.x s.r).2 / C.dznrm2 b.num_rows b.dval ≤ par.epsilon
      rw [div_le_iff₀ hb]
      rw [mul_comm] at h2
      exact h2

/-! ## Concrete runs -/

/-- A call that returns, returns `resultOf`. -/
theorem eq_some_resultOf (o : Option (IdrResult ℚ ℚ)) (h : o.isSome = true) :
    o = some (resultOf o) := by
  cases o with
  | none => simp at h
  | some res => rfl

/-- The result a call returns is `resultOf`. -/
theorem resultOf_eq (o : Option (IdrResult ℚ ℚ)) (res : IdrResult ℚ ℚ) (h : o = some res) :
    res = resultOf o := by
  subst h
  rfl

/-- An outcome of kind 1 is a `break` with the state it carries. -/
theorem exit_eq_brk (o : Option (Flow (IdrState ℚ ℚ))) (hb : o.map Flow.code = some 1) :
    o = some (.brk (exitState o)) := by
  cases o with
  | none => simp at hb
  | some out =>
    cases out with
    | next s => simp [Flow.code] at hb
    | brk s => rfl
    | cleanup s => simp [Flow.code] at hb

/-- An outcome of kind 2 is a `goto cleanup` with the state it carries. -/
theorem exit_eq_cleanup (o : Option (Flow (IdrState ℚ ℚ))) (hb : o.map Flow.code = some 2) :
    o = some (.cleanup (exitState o)) := by
  cases o with
  | none => simp at hb
  | some out =>
    cases out with
    | next s => simp [Flow.code] at hb
    | brk s => simp [Flow.code] at hb
    | cleanup s => rfl

/-- C3, witness: a 3-by-4 matrix. -/
theorem C3_nonsquare_witness :
    ∃ res, magma_zidr_acc (exactCollab unitDraw) 8 mat34 (vec2 3 4) (vec2 7 (-2))
        (parOf 100 30) = some res ∧
      magma_zidr_acc (exactCollab unitDraw) 0 mat34 (vec2 3 4) (vec2 7 (-2))
        (parOf 100 30) = some res ∧
      res.info = MAGMA_ERR ∧ res.par.info = MAGMA_ERR ∧ res.x = (vec2 7 (-2)).dval ∧
      res.par.numiter = 0 :=
  C3_nonsquare_shape_error (exactCollab unitDraw) 8 mat34 (vec2 3 4) (vec2 7 (-2))
    (parOf 100 30) (by decide)

/-- C4, witness: the zero right-hand side with the initial guess (7, -2). -/
theorem C4_zero_rhs_witness :
    ∃ res, magma_zidr_acc (exactCollab unitDraw) 8 (mat22 2 0 0 1) (vec2 0 0) (vec2 7 (-2))
        (parOf 100 30) = some res ∧
      res.info = MAGMA_SUCCESS ∧ res.par.info = MAGMA_SUCCESS ∧
      (∀ i : Nat, (i : Int) < (vec2 7 (-2)).num_rows * (vec2 7 (-2)).num_cols → res.x i = 0) ∧
      res.par.numiter = 0 ∧
      res.par.init_res = 0 ∧ res.par.final_res = 0 ∧ res.par.iter_res = 0 :=
  C4_zero_rhs (exactCollab unitDraw) 8 (mat22 2 0 0 1) (vec2 0 0) (vec2 7 (-2))
    (parOf 100 30) (by decide) (by decide!)

/-- C1, counterexample: A = diag(2, 1) is symmetric positive definite and strictly
diagonally dominant, b = (3, 4) = A·(3/2, 4), the initial guess is zero and
`max_iterations = 1`.  The routine returns MAGMA_SUCCESS after one iteration with
x = (3/2, 2) and `‖b − A·x‖ / ‖b‖ = 2/5`, far above the relative tolerance 1e-10. -/
theorem C1_counterexample :
    (mat22 2 0 0 1).val 0 0 = 2 ∧ (mat22 2 0 0 1).val 0 1 = 0 ∧
    (mat22 2 0 0 1).val 1 0 = 0 ∧ (mat22 2 0 0 1).val 1 1 = 1 ∧
    (vec2 3 4).dval 0 = matVec (mat22 2 0 0 1) (vec2 (3 / 2) 4).dval 0 ∧
    (vec2 3 4).dval 1 = matVec (mat22 2 0 0 1) (vec2 (3 / 2) 4).dval 1 ∧
    ∃ res, magma_zidr_acc (exactCollab unitDraw) 8 (mat22 2 0 0 1) (vec2 3 4) (vec2 0 0)
        (parOf 1 30) = some res ∧
      res.info = MAGMA_SUCCESS ∧ res.par.numiter = 1 ∧
      res.x 0 = 3 / 2 ∧ res.x 1 = 2 ∧
      res.par.final_res = (magma_zresidualvec (exactCollab unitDraw) (mat22 2 0 0 1)
        (vec2 3 4) res.x (fun _ => 0)).2 ∧
      res.par.final_res / (exactCollab unitDraw).dznrm2 2 (vec2 3 4).dval = 2 / 5 ∧
      ¬ res.par.final_res / (exactCollab unitDraw).dznrm2 2 (vec2 3 4).dval <
        (parOf 1 30).epsilon := by
  refine ⟨by decide!, by decide!, by decide!, by decide!, by decide!, by decide!,
    _, eq_some_resultOf _ (by decide!), by decide!, by decide!, by decide!, by decide!,
    by decide!, by decide!, by decide!⟩

/-- C1, witness: A = diag(2, 1), b = (3, 4), zero initial guess, `max_iterations = 100`:
the run converges in two iterations. -/
theorem C1_conditional_convergence_witness :
    ∃ res, magma_zidr_acc (exactCollab unitDraw) 8 (mat22 2 0 0 1) (vec2 3 4) (vec2 0 0)
        (parOf 100 30) = some res ∧
      res.par.numiter ≤ max 1 (MIN (2 * (mat22 2 0 0 1).num_cols) (parOf 100 30).maxiter) ∧
      res.info = MAGMA_SUCCESS ∧
      res.par.final_res ≤ idrTol (exactCollab unitDraw) (vec2 3 4) (parOf 100 30).epsilon := by
  obtain ⟨res, h1, h2, h3⟩ := C1_conditional_convergence (exactCollab unitDraw) 8
    (mat22 2 0 0 1) (vec2 3 4) (vec2 0 0) (parOf 100 30) 2 ⟨rfl, rfl, rfl, rfl, rfl⟩
    (by decide!) (by decide!) (by decide)
  obtain ⟨h4, h5, -⟩ := h3 _ (exit_eq_brk _ (by decide!)) (by decide!)
  exact ⟨res, h1, h2, h4, h5⟩

/-- C2, witness: the converging run on A = diag(2, 1), b = (3, 4). -/
theorem C2_converged_final_residual_witness :
    ∃ res, magma_zidr_acc (exactCollab unitDraw) 8 (mat22 2 0 0 1) (vec2 3 4) (vec2 0 0)
        (parOf 100 30) = some res ∧
      res.par.final_res = res.par.iter_res ∧
      res.par.final_res ≤ idrTol (exactCollab unitDraw) (vec2 3 4) (parOf 100 30).epsilon := by
  obtain ⟨res, h1, -, -, h4, h5⟩ := C2_converged_final_residual (exactCollab unitDraw) 8
    (mat22 2 0 0 1) (vec2 3 4) (vec2 0 0) (parOf 100 30) 2
    (exitState (idrLoop (exactCollab unitDraw)
      (idrEnv (exactCollab unitDraw) (mat22 2 0 0 1) (vec2 3 4) (vec2 0 0) (parOf 100 30)) 8
      (idrInit (exactCollab unitDraw) (mat22 2 0 0 1) (vec2 3 4) (vec2 0 0) (parOf 100 30))))
    ⟨rfl, rfl, rfl, rfl, rfl⟩ (by decide!) (by decide!) (exit_eq_brk _ (by decide!))
    (by decide!)
  exact ⟨res, h1, h4, h5⟩

/-- C5, counterexample: A with rows (2, 1) and (1, 2), b = (3, 4), zero initial guess, s = 1
and `max_iterations = 1`.  The loop is left by the `break` of the checkpoint of the first
inner step (`info` still clear) with the counter at the maximum 1 and `|r| = 7/10` above
`tolb`, and the routine returns MAGMA_SUCCESS. -/
theorem C5_counterexample :
    (idrLoop (exactCollab unitDraw)
      (idrEnv (exactCollab unitDraw) (mat22 2 1 1 2) (vec2 3 4) (vec2 0 0) (parOf 1 1)) 8
      (idrInit (exactCollab unitDraw) (mat22 2 1 1 2) (vec2 3 4) (vec2 0 0) (parOf 1 1))).map
        (fun out => (out.code, out.state.info, out.state.numiter, out.state.nrmr)) =
      some (1, 0, 1, 7 / 10) ∧
    (idrEnv (exactCollab unitDraw) (mat22 2 1 1 2) (vec2 3 4) (vec2 0 0) (parOf 1 1)).maxiter
      = 1 ∧
    idrTol (exactCollab unitDraw) (vec2 3 4) (parOf 1 1).epsilon < 7 / 10 ∧
    ∃ res, magma_zidr_acc (exactCollab unitDraw) 8 (mat22 2 1 1 2) (vec2 3 4) (vec2 0 0)
        (parOf 1 1) = some res ∧
      res.info = MAGMA_SUCCESS ∧ res.par.info = MAGMA_SUCCESS := by
  refine ⟨by decide!, by decide!, by decide!, _, eq_some_resultOf _ (by decide!), by decide!,
    by decide!⟩

/-- C5, witness: A = diag(2, 1), b = (3, 4), `max_iterations = 1`. -/
theorem C5_limit_returns_success_witness :
    ∃ res, magma_zidr_acc (exactCollab unitDraw) 8 (mat22 2 0 0 1) (vec2 3 4) (vec2 0 0)
        (parOf 1 30) = some res ∧
      res.info = MAGMA_SUCCESS ∧ res.par.info = MAGMA_SUCCESS ∧
      res.par.maxiter ≤ res.par.numiter ∧
      idrTol (exactCollab unitDraw) (vec2 3 4) (parOf 1 30).epsilon < res.par.iter_res := by
  obtain ⟨res, h1, h2, h3, h4, h5, -⟩ := C5_limit_returns_success (exactCollab unitDraw) 8
    (mat22 2 0 0 1) (vec2 3 4) (vec2 0 0) (parOf 1 30)
    (exitState (idrLoop (exactCollab unitDraw)
      (idrEnv (exactCollab unitDraw) (mat22 2 0 0 1) (vec2 3 4) (vec2 0 0) (parOf 1 30)) 8
      (idrInit (exactCollab unitDraw) (mat22 2 0 0 1) (vec2 3 4) (vec2 0 0) (parOf 1 30))))
    (by decide) (by decide!) (by decide!) (exit_eq_brk _ (by decide!))
    (fun hbd => absurd hbd.info_eq (by decide!)) (by decide!) (by decide!)
  exact ⟨res, h1, h2, h3, h4, h5⟩

/-- C6, counterexample: A with rows (1, 0) and (0, 0), b = (3, 4), zero initial guess and
s = 2.  Inner step 0 takes x to (3, 4) and `|r|` from 5 to 4; inner step 1 finds
`M(1,1) = 0`, so the loop is left with MAGMA_DIVERGENCE recorded; the recomputed residual
norm 4 is below the initial 5 and the routine returns MAGMA_SLOW_CONVERGENCE, not
MAGMA_DIVERGENCE. -/
theorem C6_counterexample :
    (idrLoop (exactCollab unitDraw)
      (idrEnv (exactCollab unitDraw) (mat22 1 0 0 0) (vec2 3 4) (vec2 0 0) (parOf 100 2)) 8
      (idrInit (exactCollab unitDraw) (mat22 1 0 0 0) (vec2 3 4) (vec2 0 0) (parOf 100 2))).map
        (fun out => (out.code, out.state.info, out.state.M 1 1, out.state.numiter)) =
      some (1, MAGMA_DIVERGENCE, 0, 2) ∧
    ∃ res, magma_zidr_acc (exactCollab unitDraw) 8 (mat22 1 0 0 0) (vec2 3 4) (vec2 0 0)
        (parOf 100 2) = some res ∧
      res.par.init_res = 5 ∧ res.par.final_res = 4 ∧
      res.info = MAGMA_SLOW_CONVERGENCE ∧ res.info ≠ MAGMA_DIVERGENCE := by
  refine ⟨by decide!, _, eq_some_resultOf _ (by decide!), by decide!, by decide!, by decide!,
    by decide!⟩

/-- C6, witness: A with rows (0, 0) and (0, 1), b = (3, 4), s = 1: the first inner step
finds `M(0,0) = 0` and the routine returns MAGMA_DIVERGENCE. -/
theorem C6_breakdown_status_witness :
    ∃ res, magma_zidr_acc (exactCollab unitDraw) 8 (mat22 0 0 0 1) (vec2 3 4) (vec2 0 0)
        (parOf 100 1) = some res ∧
      res.info ≠ MAGMA_SUCCESS ∧ res.info = MAGMA_DIVERGENCE := by
  obtain ⟨res, h1, h2, h3, -⟩ := C6_breakdown_status (exactCollab unitDraw) 8
    (mat22 0 0 0 1) (vec2 3 4) (vec2 0 0) (parOf 100 1)
    (exitState (idrLoop (exactCollab unitDraw)
      (idrEnv (exactCollab unitDraw) (mat22 0 0 0 1) (vec2 3 4) (vec2 0 0) (parOf 100 1)) 8
      (idrInit (exactCollab unitDraw) (mat22 0 0 0 1) (vec2 3 4) (vec2 0 0) (parOf 100 1))))
    (by decide) (by decide!) (by decide!) (exit_eq_brk _ (by decide!))
    (breakdown_of_exit_info _ _ _ _ _ _ _ (by decide!) (exit_eq_brk _ (by decide!))
      (by decide!))
  refine ⟨res, h1, h2, h3 ?_⟩
  rw [resultOf_eq _ _ h1]
  decide!

/-- C7, witness: A with rows (1, 0) and (0, 0), b = (3, 4), s = 2: the breakdown at inner
step 1 comes after the residual norm went from 5 to 4, and the routine returns
MAGMA_SLOW_CONVERGENCE. -/
theorem C7_breakdown_classification_witness :
    ∃ res, magma_zidr_acc (exactCollab unitDraw) 8 (mat22 1 0 0 0) (vec2 3 4) (vec2 0 0)
        (parOf 100 2) = some res ∧
      res.par.init_res > res.par.final_res ∧ res.info = MAGMA_SLOW_CONVERGENCE := by
  obtain ⟨res, h1, -, -, -, h5, -⟩ := C7_breakdown_classification (exactCollab unitDraw) 8
    (mat22 1 0 0 0) (vec2 3 4) (vec2 0 0) (parOf 100 2)
    (exitState (idrLoop (exactCollab unitDraw)
      (idrEnv (exactCollab unitDraw) (mat22 1 0 0 0) (vec2 3 4) (vec2 0 0) (parOf 100 2)) 8
      (idrInit (exactCollab unitDraw) (mat22 1 0 0 0) (vec2 3 4) (vec2 0 0) (parOf 100 2))))
    (by decide) (by decide!) (by decide!) (exit_eq_brk _ (by decide!))
    (breakdown_of_exit_info _ _ _ _ _ _ _ (by decide!) (exit_eq_brk _ (by decide!))
      (by decide!))
  have hgt : res.par.init_res > res.par.final_res := by
    rw [resultOf_eq _ _ h1]
    decide!
  exact ⟨res, h1, hgt, h5.mpr hgt⟩

/-- C8, counterexample: A = diag(2, 1), b = (3, 4), zero initial guess, s = 2, and a dense
solve that reports a singular pivot (code 1) at the 1-by-1 system of inner step 1.  Inner
step 0 has taken x to (3/2, 2); the CHECK fails, and the routine returns the code 1 of the
solve, not MAGMA_DIVERGENCE, with the stale `final_res` of the caller. -/
theorem C8_counterexample :
    (idrLoop (mockCollab unitDraw)
      (idrEnv (mockCollab unitDraw) (mat22 2 0 0 1) (vec2 3 4) (vec2 0 0) (parOf 100 2)) 8
      (idrInit (mockCollab unitDraw) (mat22 2 0 0 1) (vec2 3 4) (vec2 0 0) (parOf 100 2))).map
        (fun out => (out.code, out.state.info, out.state.numiter)) = some (2, 1, 2) ∧
    ∃ res, magma_zidr_acc (mockCollab unitDraw) 8 (mat22 2 0 0 1) (vec2 3 4) (vec2 0 0)
        (parOf 100 2) = some res ∧
      res.info = 1 ∧ res.info ≠ MAGMA_DIVERGENCE ∧
      res.x 0 = 3 / 2 ∧ res.x 1 = 2 ∧ res.par.final_res = (parOf 100 2).final_res := by
  refine ⟨by decide!, _, eq_some_resultOf _ (by decide!), by decide!, by decide!, by decide!,
    by decide!, by decide!⟩

/-- C8, witness: A with rows (2, 1) and (1, 2), b = (3, 4), s = 2, with the dense solve that
fails at inner step 1: the code 1 is returned and x keeps the update of inner step 0. -/
theorem C8_failed_solve_code_witness :
    ∃ res, magma_zidr_acc (mockCollab unitDraw) 8 (mat22 2 1 1 2) (vec2 3 4) (vec2 0 0)
        (parOf 100 2) = some res ∧
      res.info = 1 ∧ res.par.info = res.info ∧ res.x 0 = 9 / 10 ∧ res.x 1 = 6 / 5 ∧
      res.par.final_res = (parOf 100 2).final_res := by
  obtain ⟨res, h1, -, -, h4, h5, -⟩ := C8_failed_solve_code (mockCollab unitDraw) 8
    (mat22 2 1 1 2) (vec2 3 4) (vec2 0 0) (parOf 100 2)
    (exitState (idrLoop (mockCollab unitDraw)
      (idrEnv (mockCollab unitDraw) (mat22 2 1 1 2) (vec2 3 4) (vec2 0 0) (parOf 100 2)) 8
      (idrInit (mockCollab unitDraw) (mat22 2 1 1 2) (vec2 3 4) (vec2 0 0) (parOf 100 2))))
    (by decide) (by decide!) (by decide!) (exit_eq_cleanup _ (by decide!))
  refine ⟨res, h1, ?_, h4, ?_, ?_, h5⟩
  · rw [resultOf_eq _ _ h1]; decide!
  · rw [resultOf_eq _ _ h1]; decide!
  · rw [resultOf_eq _ _ h1]; decide!

/-- The breakdown of an inner step on A with rows (0, 0) and (0, 1), b = (3, 4), s = 1: the
first inner step of the first pass finds `M(0,0) = 0` and the shadow space loop breaks with
the initial `x`. -/
theorem breakdown_keeps_x_r_inner :
    ∃ s, innerLoop (exactCollab unitDraw)
        (idrEnv (exactCollab unitDraw) (mat22 0 0 0 1) (vec2 3 4) (vec2 0 0) (parOf 100 1)) 1 0
        (cycleStart
          (idrEnv (exactCollab unitDraw) (mat22 0 0 0 1) (vec2 3 4) (vec2 0 0) (parOf 100 1))
          (idrInit (exactCollab unitDraw) (mat22 0 0 0 1) (vec2 3 4) (vec2 0 0)
            (parOf 100 1))) = .brk s ∧
      s.x = (vec2 0 0).dval ∧ s.info = MAGMA_DIVERGENCE := by
  obtain ⟨s, -, h2, h3, -, h5, -⟩ := (breakdown_keeps_x_r (exactCollab unitDraw)
    (idrEnv (exactCollab unitDraw) (mat22 0 0 0 1) (vec2 3 4) (vec2 0 0) (parOf 100 1)) 0 0 0
    (cycleStart
      (idrEnv (exactCollab unitDraw) (mat22 0 0 0 1) (vec2 3 4) (vec2 0 0) (parOf 100 1))
      (idrInit (exactCollab unitDraw) (mat22 0 0 0 1) (vec2 3 4) (vec2 0 0)
        (parOf 100 1)))).1 (by decide!) (by decide!)
  exact ⟨s, h2, h3, h5⟩

/-- C10, counterexample: A = diag(2, 1), b = (3, 4) and `max_iterations = 0`: the effective
cap `MIN(2·2, 0) = 0` is stored in `solver_par->maxiter`, yet the body of the do-while loop
runs once and the routine reports `numiter = 1`. -/
theorem C10_counterexample :
    MIN (2 * (mat22 2 0 0 1).num_cols) (parOf 0 30).maxiter = 0 ∧
    ∃ res, magma_zidr_acc (exactCollab unitDraw) 8 (mat22 2 0 0 1) (vec2 3 4) (vec2 0 0)
        (parOf 0 30) = some res ∧
      res.par.maxiter = 0 ∧ res.par.numiter = 1 ∧
      ¬ res.par.numiter ≤ MIN (2 * (mat22 2 0 0 1).num_cols) (parOf 0 30).maxiter := by
  refine ⟨by decide, _, eq_some_resultOf _ (by decide!), by decide!, by decide!, by decide!⟩

/-- C10, witness: A = diag(2, 1), b = (3, 4) and `max_iterations = 100`, effective cap 4,
which is the value stored. -/
theorem C10_numiter_bound_witness :
    ∃ res, magma_zidr_acc (exactCollab unitDraw) 8 (mat22 2 0 0 1) (vec2 3 4) (vec2 0 0)
        (parOf 100 30) = some res ∧
      res.par.numiter ≤ 4 ∧ res.par.maxiter = 4 := by
  obtain ⟨res, h1, h2, h3, -⟩ := C10_numiter_bound (exactCollab unitDraw) 8 (mat22 2 0 0 1)
    (vec2 3 4) (vec2 0 0) (parOf 100 30) (by decide)
  exact ⟨res, h1, h2, (h3 (by decide) (by decide) (by decide)).1⟩

/-! ## Further properties of the loop -/

/-- A checkpoint that leaves the loop found `|r| ≤ tolb` or the counter at the limit. -/
theorem Checkpoint.stop (C : Collab K R) (E : IdrEnv K R) (s : IdrState K R)
    (h : Checkpoint C E s) : s.nrmr ≤ E.tolb ∨ s.numiter ≥ E.maxiter := by
  rcases h with ⟨k, st, hs, hc⟩ | ⟨st, hs, hc⟩
  · rw [hs]; simpa using hc
  · rw [hs]; simpa using hc

/-- A loop entered with both flags clear is left by a `break` only at a breakdown test or at
a checkpoint. -/
theorem idrLoop_exit_kind (C : Collab K R) (E : IdrEnv K R) (fuel : Nat)
    (st : IdrState K R) (out : Flow (IdrState K R))
    (hflag : st.innerflag = 0) (h : idrLoop C E fuel st = some out) :
    Flow.sat (fun _ => True) (fun s => Breakdown C E s ∨ Checkpoint C E s) (fun _ => True)
      out := by
  refine idrLoop_rule C E (I := fun s => s.innerflag = 0) (N := fun s => s.innerflag = 0)
    ?_ ?_ ?_ fuel st out hflag h
  · intro s hI
    apply iteration_rule C E (I := fun s => s.innerflag = 0) (J := fun s => s.innerflag = 0)
    · intro s hs; exact hs
    · intro s hs; simpa using hs
    · intro k s hs
      apply innerStep_sat
      · intro _; trivial
      · intro hz hm; exact Or.inl (Or.inl ⟨k, s, hz, hm, rfl⟩)
      · intro _ _
        apply applyUpdate_sat
        · intro hc; exact Or.inr (Or.inl ⟨k, _, rfl, hc⟩)
        · intro _; simpa using hs
    · intro s hs
      apply dimRedStep_sat
      · intro hz; exact Or.inl (Or.inr ⟨s, hz, rfl⟩)
      · intro _ hc; exact Or.inr (Or.inr ⟨s, rfl, hc⟩)
      · intro _ _; simpa using hs
    · exact hI
  · intro s hs _; exact hs
  · intro s _ _; trivial

/-- The effective shadow space size and iteration cap are written back by every call on a
square matrix. -/
theorem magma_zidr_acc_restart (C : Collab K R) (fuel : Nat) (A : magma_z_matrix K)
    (b x : magma_z_vector K) (par : magma_z_solver_par R) (res : IdrResult K R)
    (hsq : A.num_rows = A.num_cols) (h : magma_zidr_acc C fuel A b x par = some res) :
    res.par.restart = shadowSize par.restart A := by
  by_cases hb : C.dznrm2 b.num_rows b.dval = 0
  · simp [magma_zidr_acc, hsq, hb] at h
    rw [← h]; rfl
  by_cases hinit : (idrInit C A b x par).nrmr ≤ (idrEnv C A b x par).tolb
  · simp [magma_zidr_acc, hsq, hb, hinit] at h
    rw [← h]; rfl
  cases hl : idrLoop C (idrEnv C A b x par) fuel (idrInit C A b x par) with
  | none => simp [magma_zidr_acc, hsq, hb, hinit, hl] at h
  | some out =>
    cases out with
    | next s =>
      simp [magma_zidr_acc, hsq, hb, hinit, hl] at h
      rw [← h]; rfl
    | brk s =>
      simp [magma_zidr_acc, hsq, hb, hinit, hl] at h
      rw [← h]; rfl
    | cleanup s =>
      simp [magma_zidr_acc, hsq, hb, hinit, hl] at h
      rw [← h]; rfl

/-- C11: when the effective cap `m = MIN (2 * A.num_cols) maxiter` is at least 1 and the
loop is left by a `break` that is neither a breakdown nor a checkpoint that found
`nrmr ≤ tolb` before step `m`, the loop was left at the checkpoint of step `m`: the
reported iteration count is exactly `m` and `x` is the array after the update of that
step. -/
theorem C11_stops_at_cap (C : Collab K R) (fuel : Nat) (A : magma_z_matrix K)
    (b x : magma_z_vector K) (par : magma_z_solver_par R) (s : IdrState K R)
    (hsq : A.num_rows = A.num_cols) (hb : C.dznrm2 b.num_rows b.dval ≠ 0)
    (hinit : ¬ (idrInit C A b x par).nrmr ≤ idrTol C b par.epsilon)
    (hm : 1 ≤ MIN (2 * A.num_cols) par.maxiter)
    (hloop : idrLoop C (idrEnv C A b x par) fuel (idrInit C A b x par) = some (.brk s))
    (hnb : ¬ Breakdown C (idrEnv C A b x par) s)
    (hnc : s.numiter < MIN (2 * A.num_cols) par.maxiter → idrTol C b par.epsilon < s.nrmr) :
    ∃ res, magma_zidr_acc C fuel A b x par = some res ∧
      res.par.numiter = MIN (2 * A.num_cols) par.maxiter ∧
      res.par.numiter = res.par.maxiter ∧
      Checkpoint C (idrEnv C A b x par) s ∧
      res.x = s.x := by
  have hctl := idrLoop_control C (idrEnv C A b x par) fuel (idrInit C A b x par) _ rfl rfl rfl
    (not_le.mp hinit) hloop
  have hkind := idrLoop_exit_kind C (idrEnv C A b x par) fuel (idrInit C A b x par) _ rfl hloop
  have hck : Checkpoint C (idrEnv C A b x par) s := by
    rcases hkind with h | h
    · exact absurd h hnb
    · exact h
  have hle : s.numiter ≤ MIN (2 * A.num_cols) par.maxiter := by
    have h1 : s.numiter ≤ max 1 (MIN (2 * A.num_cols) par.maxiter) := hctl.2.2
    rwa [max_eq_right hm] at h1
  have hnum : s.numiter = MIN (2 * A.num_cols) par.maxiter := by
    rcases hck.stop with h | h
    · by_contra hne
      have hlt : s.numiter < MIN (2 * A.num_cols) par.maxiter := lt_of_le_of_ne hle hne
      exact absurd h (not_le.mpr (hnc hlt))
    · exact le_antisymm hle h
  exact ⟨_, magma_zidr_acc_of_brk C fuel A b x par s hsq hb hinit hloop, hnum, hnum, hck, rfl⟩

/-- C12 (amended): on a square matrix with `n = A.num_cols ≥ 1` the effective shadow space
size `s`, the one the iteration uses and the one written back to `solver_par->restart`,
never exceeds `n`; it is at least 1 whenever the requested size is at least 1, and a
requested size of 0 or below is taken as it is. -/
theorem C12_shadow_size_bounds (C : Collab K R) (fuel : Nat) (A : magma_z_matrix K)
    (b x : magma_z_vector K) (par : magma_z_solver_par R) (res : IdrResult K R)
    (hsq : A.num_rows = A.num_cols) (hn : 1 ≤ A.num_cols)
    (h : magma_zidr_acc C fuel A b x par = some res) :
    res.par.restart = (idrEnv C A b x par).s ∧
    res.par.restart ≤ A.num_cols ∧
    (1 ≤ par.restart → 1 ≤ res.par.restart) ∧
    (par.restart ≤ 0 → res.par.restart = par.restart) := by
  have hr := magma_zidr_acc_restart C fuel A b x par res hsq h
  rw [hr]
  refine ⟨rfl, ?_, ?_, ?_⟩
  · unfold shadowSize
    split_ifs <;> omega
  · intro h1
    unfold shadowSize
    split_ifs <;> omega
  · intro h0
    unfold shadowSize
    split_ifs <;> omega

/-- C13 (amended): on a square matrix the effective shadow space size for a requested size
`q ≥ 1` other than 30 is `min n q`, so that a requested size with `1 ≤ q ≤ n` and `q ≠ 30`
is used unchanged; the requested size 30 gives `s = 1`. -/
theorem C13_shadow_size_value (C : Collab K R) (fuel : Nat) (A : magma_z_matrix K)
    (b x : magma_z_vector K) (par : magma_z_solver_par R) (res : IdrResult K R)
    (hsq : A.num_rows = A.num_cols) (hq : 1 ≤ par.restart)
    (h : magma_zidr_acc C fuel A b x par = some res) :
    res.par.restart = (idrEnv C A b x par).s ∧
    (par.restart ≠ 30 → res.par.restart = min A.num_cols par.restart) ∧
    (par.restart ≠ 30 → par.restart ≤ A.num_cols → res.par.restart = par.restart) ∧
    (par.restart = 30 → res.par.restart = 1) := by
  have hr := magma_zidr_acc_restart C fuel A b x par res hsq h
  rw [hr]
  refine ⟨rfl, ?_, ?_, ?_⟩
  · intro h30
    unfold shadowSize
    rw [if_pos h30]
    split_ifs with hgt
    · exact (min_eq_left (le_of_lt hgt)).symm
    · exact (min_eq_right (not_lt.mp hgt)).symm
  · intro h30 hle
    unfold shadowSize
    rw [if_pos h30, if_neg (not_lt.mpr hle)]
  · intro h30
    unfold shadowSize
    rw [if_neg (not_not.mpr h30)]

/-- C14: the threshold of every checkpoint is `tolb = max (‖b‖ · epsilon) floor`, with the
floor `lapackf77_dlamch("E")`: it does not depend on the initial guess, it is never below
the floor, and an inner step (respectively a dimension-reduction step with a nonzero omega)
breaks at its checkpoint exactly when the new `|r|` is at most this value or the counter has
reached the limit. -/
theorem C14_threshold (C : Collab K R) (A : magma_z_matrix K) (b x : magma_z_vector K)
    (par : magma_z_solver_par R) :
    (idrEnv C A b x par).tolb = max (C.dznrm2 b.num_rows b.dval * par.epsilon) C.dlamch_E ∧
    (∀ x1 : magma_z_vector K, (idrEnv C A b x1 par).tolb = (idrEnv C A b x par).tolb) ∧
    C.dlamch_E ≤ (idrEnv C A b x par).tolb ∧
    (∀ k st, (∃ s, applyUpdate C (idrEnv C A b x par) k st = .brk s) ↔
      ((updateXR C (idrEnv C A b x par) k st).nrmr ≤
          max (C.dznrm2 b.num_rows b.dval * par.epsilon) C.dlamch_E ∨
        st.numiter ≥ (idrEnv C A b x par).maxiter)) ∧
    (∀ st, (newOmega C (idrEnv C A b x par) st).om ≠ 0 →
      ((∃ s, dimRedStep C (idrEnv C A b x par) st = .brk s) ↔
        ((omegaUpdate C (idrEnv C A b x par) (newOmega C (idrEnv C A b x par) st)).nrmr ≤
            max (C.dznrm2 b.num_rows b.dval * par.epsilon) C.dlamch_E ∨
          st.numiter ≥ (idrEnv C A b x par).maxiter))) := by
  have htol : (idrEnv C A b x par).tolb =
      max (C.dznrm2 b.num_rows b.dval * par.epsilon) C.dlamch_E := by
    show idrTol C b par.epsilon = _
    unfold idrTol
    simp only []
    split_ifs with hlt
    · exact (max_eq_right (le_of_lt hlt)).symm
    · exact (max_eq_left (not_lt.mp hlt)).symm
  refine ⟨htol, fun _ => rfl, ?_, ?_, ?_⟩
  · rw [htol]; exact le_max_right _ _
  · intro k st
    rw [← htol]
    unfold applyUpdate
    simp only [updateXR_numiter]
    split_ifs with hc
    · exact ⟨fun _ => hc, fun _ => ⟨_, rfl⟩⟩
    · constructor
      · rintro ⟨s, hs⟩; cases hs
      · intro h; exact absurd h hc
  · intro st hom
    rw [← htol]
    unfold dimRedStep
    simp only [omegaUpdate_numiter, newOmega_numiter, if_neg hom]
    split_ifs with hc
    · exact ⟨fun _ => hc, fun _ => ⟨_, rfl⟩⟩
    · constructor
      · rintro ⟨s, hs⟩; cases hs
      · intro h; exact absurd h hc

/-- A chain of CHECKs that fails does so with a nonzero code. -/
theorem firstCheck_ne_zero : ∀ (l : List Int) (e : Int), firstCheck l = some e → e ≠ 0 := by
  intro l
  induction l with
  | nil => intro e h; cases h
  | cons a l ih =>
    intro e h
    unfold firstCheck CHECK at h
    by_cases ha : a ≠ 0
    · rw [if_pos ha] at h
      cases h
      exact ha
    · rw [if_neg ha] at h
      exact ih e h

/-- When every CHECK of a memory routine passes, the routine with those CHECKs is
`magma_zidr_acc`. -/
theorem magma_zidr_acc_mem_eq (M : MemRoutines) (C : Collab K R) (fuel : Nat)
    (A : magma_z_matrix K) (b x : magma_z_vector K) (par : magma_z_solver_par R)
    (h1 : setupChecks M A b (shadowSize par.restart A) = none)
    (h2 : loopChecks M A b (shadowSize par.restart A) = none) :
    magma_zidr_acc_mem M C fuel A b x par = magma_zidr_acc C fuel A b x par := by
  have h1a : setupChecks M A b (idrEnv C A b x par).s = none := h1
  have h2a : loopChecks M A b (idrEnv C A b x par).s = none := h2
  unfold magma_zidr_acc_mem
  split_ifs with hc
  · rfl
  · simp only [h1a, h2a]
    split_ifs <;> rfl

/-- The memory routines that fail on negative sizes: the CHECKs of lines 229-283 pass when
the shadow space size and the dimensions are not negative, and the first of them fails with
MAGMA_ERR_HOST_ALLOC when the shadow space size is negative for a matrix with columns. -/
theorem setupChecks_sizedMem (A : magma_z_matrix K) (b : magma_z_vector K) (s : Int) :
    (0 ≤ s → 0 ≤ A.num_rows → 0 ≤ A.num_cols → 0 ≤ b.num_rows → 0 ≤ b.num_cols →
      setupChecks sizedMem A b s = none) ∧
    (s < 0 → 0 < A.num_cols → setupChecks sizedMem A b s = some MAGMA_ERR_HOST_ALLOC) := by
  constructor
  · intro hs hr hc hbr hbc
    have e1 : ¬ A.num_cols * s < 0 := not_lt.mpr (mul_nonneg hc hs)
    have e2 : ¬ A.num_rows * (2 * b.num_cols) < 0 :=
      not_lt.mpr (mul_nonneg hr (mul_nonneg (by norm_num) hbc))
    have e3 : ¬ b.num_rows * b.num_cols < 0 := not_lt.mpr (mul_nonneg hbr hbc)
    have e4 : ¬ b.num_rows * b.num_cols * 2 < 0 :=
      not_lt.mpr (mul_nonneg (mul_nonneg hbr hbc) (by norm_num))
    simp [setupChecks, firstCheck, CHECK, sizedMem, e1, e2, e3, e4]
  · intro hs hc
    have e1 : A.num_cols * s < 0 := mul_neg_of_pos_of_neg hc hs
    simp [setupChecks, firstCheck, CHECK, sizedMem, e1, MAGMA_ERR_HOST_ALLOC]

/-- C15 (amended): on a square matrix with `‖b‖ ≠ 0`, when the norm of the initial residual
is at most `tolb`: if the CHECKs of the memory routines of lines 229-283 pass, the routine
returns MAGMA_SUCCESS with `numiter = 0`, `x` as it was, and
`final_res = iter_res = init_res`, the norm of the initial residual b − A·x, and no pass of
the loop is made (the result is the same with zero fuel); if one of them fails, the routine
returns its nonzero code before the initial guess is tested, with `numiter = 0`, `x` as it
was and `init_res`, `final_res`, `iter_res` as the caller left them.  With memory routines
that fail on negative sizes the CHECKs pass when the shadow space size and the dimensions
are not negative, and the first one fails with MAGMA_ERR_HOST_ALLOC when the shadow space
size is negative. -/
theorem C15_initial_guess_converged (M : MemRoutines) (C : Collab K R) (fuel : Nat)
    (A : magma_z_matrix K) (b x : magma_z_vector K) (par : magma_z_solver_par R)
    (hsq : A.num_rows = A.num_cols) (hb : C.dznrm2 b.num_rows b.dval ≠ 0)
    (hinit : (magma_zresidualvec C A b x.dval (fun _ => 0)).2 ≤ idrTol C b par.epsilon) :
    (setupChecks M A b (shadowSize par.restart A) = none →
      ∃ res, magma_zidr_acc_mem M C fuel A b x par = some res ∧
        magma_zidr_acc_mem M C 0 A b x par = some res ∧
        res.info = MAGMA_SUCCESS ∧ res.par.info = MAGMA_SUCCESS ∧
        res.par.numiter = 0 ∧ res.x = x.dval ∧
        res.par.init_res = (magma_zresidualvec C A b x.dval (fun _ => 0)).2 ∧
        res.par.final_res = res.par.init_res ∧ res.par.iter_res = res.par.init_res) ∧
    (∀ e, setupChecks M A b (shadowSize par.restart A) = some e →
      ∃ res, magma_zidr_acc_mem M C fuel A b x par = some res ∧
        res.info = e ∧ e ≠ MAGMA_SUCCESS ∧ res.par.info = e ∧
        res.par.numiter = 0 ∧ res.x = x.dval ∧
        res.par.init_res = par.init_res ∧ res.par.final_res = par.final_res ∧
        res.par.iter_res = par.iter_res) ∧
    (0 ≤ shadowSize par.restart A → 0 ≤ A.num_cols → 0 ≤ b.num_rows → 0 ≤ b.num_cols →
      setupChecks sizedMem A b (shadowSize par.restart A) = none) ∧
    (shadowSize par.restart A < 0 → 0 < A.num_cols →
      setupChecks sizedMem A b (shadowSize par.restart A) = some MAGMA_ERR_HOST_ALLOC) := by
  have hinit1 : (idrInit C A b x par).nrmr ≤ (idrEnv C A b x par).tolb := hinit
  have hc : ¬ (A.num_rows ≠ A.num_cols ∨ C.dznrm2 b.num_rows b.dval = 0) := by
    rintro (h | h)
    · exact h hsq
    · exact hb h
  refine ⟨?_, ?_, ?_, (setupChecks_sizedMem A b _).2⟩
  · intro hm
    have hm1 : setupChecks M A b (idrEnv C A b x par).s = none := hm
    have hacc : ∀ fl, magma_zidr_acc_mem M C fl A b x par = magma_zidr_acc C fl A b x par := by
      intro fl
      unfold magma_zidr_acc_mem
      rw [if_neg hc]
      simp only [hm1, if_pos hinit1]
    refine ⟨_, by rw [hacc]; simp [magma_zidr_acc, hsq, hb, hinit1]; rfl, ?_, rfl, rfl, rfl,
      rfl, rfl, rfl, rfl⟩
    rw [hacc]
    simp [magma_zidr_acc, hsq, hb, hinit1]
  · intro e he
    have he1 : setupChecks M A b (idrEnv C A b x par).s = some e := he
    have hrun : magma_zidr_acc_mem M C fuel A b x par = some (cleanup e x.dval
        { par with numiter := 0, info := MAGMA_SUCCESS, restart := (idrEnv C A b x par).s,
                   maxiter := (idrEnv C A b x par).maxiter }) := by
      unfold magma_zidr_acc_mem
      rw [if_neg hc]
      simp only [he1]
    exact ⟨_, hrun, rfl, firstCheck_ne_zero _ e he, rfl, rfl, rfl, rfl, rfl, rfl⟩
  · intro hs hcn hbr hbc
    exact (setupChecks_sizedMem A b _).1 hs (hsq ▸ hcn) hcn hbr hbc

/-- The conjugate inner product only reads the first `n` entries of its arguments. -/
theorem magma_zdotc_congr (n : Nat) (x y x1 y1 : Vec K) (hx : ∀ i, i < n → x i = x1 i)
    (hy : ∀ i, i < n → y i = y1 i) : magma_zdotc n x y = magma_zdotc n x1 y1 := by
  unfold magma_zdotc
  apply sumTo_congr
  intro i hi
  have hi' : i < n := by simpa using hi
  rw [hx i hi', hy i hi']

/-- C16: in exact arithmetic on an `n`-by-`n` system the relation r = b − A·x holds in the
state in which the loop is entered, is kept by the update of an inner step
(x += beta·U(:,k), r −= beta·G(:,k)) whenever G(:,k) = A·U(:,k), is kept by the update of a
dimension-reduction step (x += omega·v, r −= omega·t with v = r and t = A·v), and holds in
every state in which the loop is left. -/
theorem C16_residual_relation (C : Collab K R) (fuel : Nat) (A : magma_z_matrix K)
    (b x : magma_z_vector K) (par : magma_z_solver_par R) (n : Nat)
    (hE : SquareSystem (idrEnv C A b x par) n) :
    (∀ i, i < n → (idrInit C A b x par).r i = b.dval i - matVec A (idrInit C A b x par).x i) ∧
    (∀ k st, (∀ i, i < n → st.r i = b.dval i - matVec A st.x i) →
      (∀ i, i < n → st.G k i = matVec A (st.U k) i) →
      ∀ i, i < n → (updateXR C (idrEnv C A b x par) k st).r i =
        b.dval i - matVec A (updateXR C (idrEnv C A b x par) k st).x i) ∧
    (∀ st, (∀ i, i < n → st.r i = b.dval i - matVec A st.x i) →
      ∀ i, i < n →
        (omegaUpdate C (idrEnv C A b x par) (newOmega C (idrEnv C A b x par) st)).r i =
        b.dval i - matVec A
          (omegaUpdate C (idrEnv C A b x par) (newOmega C (idrEnv C A b x par) st)).x i) ∧
    (∀ out, idrLoop C (idrEnv C A b x par) fuel (idrInit C A b x par) = some out →
      ∀ i, i < n → out.state.r i = b.dval i - matVec A out.state.x i) := by
  have hE0 := hE
  obtain ⟨h1, h2, h3, h4, h5⟩ := hE
  have hA : (idrEnv C A b x par).A = A := rfl
  have hbv : (idrEnv C A b x par).b = b := rfl
  rw [hA] at h1 h2
  rw [hbv] at h3 h4
  refine ⟨?_, ?_, ?_, ?_⟩
  · exact (idrInit_residual C A b x par n hE0).1
  · intro k st hr hG i hi
    have hi' : (i : Int) < n := by exact_mod_cast hi
    simp only [updateXR, h5, hbv, h3]
    rw [matVec_axpy A n h2, ← hG i hi]
    simp only [magma_zaxpy, hi', if_true, hr i hi]
    ring
  · intro st hr i hi
    have hvt := newOmega_v_t C (idrEnv C A b x par) n hE0 st
    have hi' : (i : Int) < n := by exact_mod_cast hi
    simp only [omegaUpdate, h5, hbv, h3, newOmega_x, newOmega_r]
    rw [matVec_axpy A n h2, matVec_congr A n h2 _ st.r (fun l hl => (hvt l hl).1)]
    simp only [magma_zaxpy, hi', if_true, hr i hi, (hvt i hi).2, hA]
    rw [matVec_congr A n h2 st.r (fun l => b.dval l - matVec A st.x l) hr]
    ring
  · intro out hout
    have hinv := idrLoop_residual C (idrEnv C A b x par) n hE0 fuel (idrInit C A b x par) out
      rfl (idrInit_residual C A b x par n hE0) hout
    cases out with
    | next s => exact hinv.1
    | brk s => exact hinv.1
    | cleanup s => exact hinv.1

/-- C11, witness: A = diag(2, 1), b = (3, 4), zero initial guess, s = 1 and
`max_iterations = 1`: the loop is left at the checkpoint of the first step with the residual
norm 2 still above the tolerance, and the routine reports `numiter = 1` and the iterate
x = (3/2, 2) of that step. -/
theorem C11_stops_at_cap_witness :
    ∃ res, magma_zidr_acc (exactCollab unitDraw) 8 (mat22 2 0 0 1) (vec2 3 4) (vec2 0 0)
        (parOf 1 30) = some res ∧
      res.par.numiter = 1 ∧ res.par.numiter = res.par.maxiter ∧
      res.x 0 = 3 / 2 ∧ res.x 1 = 2 := by
  obtain ⟨res, h1, h2, h3, -, -⟩ := C11_stops_at_cap (exactCollab unitDraw) 8
    (mat22 2 0 0 1) (vec2 3 4) (vec2 0 0) (parOf 1 30)
    (exitState (idrLoop (exactCollab unitDraw)
      (idrEnv (exactCollab unitDraw) (mat22 2 0 0 1) (vec2 3 4) (vec2 0 0) (parOf 1 30)) 8
      (idrInit (exactCollab unitDraw) (mat22 2 0 0 1) (vec2 3 4) (vec2 0 0) (parOf 1 30))))
    (by decide) (by decide!) (by decide!) (by decide) (exit_eq_brk _ (by decide!))
    (fun hbd => absurd hbd.info_eq (by decide!)) (fun hlt => absurd hlt (by decide!))
  refine ⟨res, h1, ?_, h3, ?_, ?_⟩
  · rw [h2]; decide
  · rw [resultOf_eq _ _ h1]; decide!
  · rw [resultOf_eq _ _ h1]; decide!

/-- C12, counterexample: A = diag(2, 1), n = 2, b = (3, 4), and the requested shadow space
sizes 0 and -5: the effective sizes, written back to `solver_par->restart`, are 0 and -5,
below 1. -/
theorem C12_counterexample :
    (mat22 2 0 0 1).num_rows = (mat22 2 0 0 1).num_cols ∧ 1 ≤ (mat22 2 0 0 1).num_cols ∧
    (idrEnv (exactCollab unitDraw) (mat22 2 0 0 1) (vec2 3 4) (vec2 (3 / 2) 4)
      (parOf 100 0)).s = 0 ∧
    (∃ res, magma_zidr_acc (exactCollab unitDraw) 8 (mat22 2 0 0 1) (vec2 3 4)
        (vec2 (3 / 2) 4) (parOf 100 0) = some res ∧
      res.par.restart = 0 ∧ ¬ 1 ≤ res.par.restart) ∧
    (∃ res, magma_zidr_acc (exactCollab unitDraw) 8 (mat22 2 0 0 1) (vec2 3 4)
        (vec2 (3 / 2) 4) (parOf 100 (-5)) = some res ∧
      res.par.restart = -5 ∧ ¬ 1 ≤ res.par.restart) := by
  refine ⟨by decide, by decide, by decide!,
    ⟨_, eq_some_resultOf _ (by decide!), by decide!, by decide!⟩,
    ⟨_, eq_some_resultOf _ (by decide!), by decide!, by decide!⟩⟩

/-- C12, witness: A = diag(2, 1), b = (3, 4) and the requested size 2. -/
theorem C12_shadow_size_bounds_witness :
    ∃ res, magma_zidr_acc (exactCollab unitDraw) 8 (mat22 2 0 0 1) (vec2 3 4) (vec2 0 0)
        (parOf 100 2) = some res ∧
      res.par.restart ≤ (mat22 2 0 0 1).num_cols ∧ 1 ≤ res.par.restart := by
  have h := eq_some_resultOf (magma_zidr_acc (exactCollab unitDraw) 8 (mat22 2 0 0 1)
    (vec2 3 4) (vec2 0 0) (parOf 100 2)) (by decide!)
  obtain ⟨-, h2, h3, -⟩ := C12_shadow_size_bounds (exactCollab unitDraw) 8 (mat22 2 0 0 1)
    (vec2 3 4) (vec2 0 0) (parOf 100 2) _ (by decide) (by decide) h
  exact ⟨_, h, h2, h3 (by decide)⟩

/-- C13, counterexample: the requested size 30.  On the identity of order 100 the effective
size is 1, not 30; on A = diag(2, 1) the run with requested size 30 uses and writes back
`s = 1`, not `min(2, 30) = 2`. -/
theorem C13_counterexample :
    shadowSize 30 eye100 = 1 ∧ min eye100.num_cols 30 = 30 ∧
    (∃ res, magma_zidr_acc (exactCollab unitDraw) 8 eye100 zero100 zero100 (parOf 100 30)
        = some res ∧ res.par.restart = 1 ∧ res.par.restart ≠ 30) ∧
    (idrEnv (exactCollab unitDraw) (mat22 2 0 0 1) (vec2 3 4) (vec2 0 0) (parOf 100 30)).s
      = 1 ∧
    (∃ res, magma_zidr_acc (exactCollab unitDraw) 8 (mat22 2 0 0 1) (vec2 3 4) (vec2 0 0)
        (parOf 100 30) = some res ∧
      res.par.restart = 1 ∧
      res.par.restart ≠ min (mat22 2 0 0 1).num_cols (parOf 100 30).restart) := by
  refine ⟨by decide, by decide,
    ⟨_, eq_some_resultOf _ (by decide!), by decide!, by decide!⟩, by decide,
    ⟨_, eq_some_resultOf _ (by decide!), by decide!, by decide!⟩⟩

/-- C13, witness: A = diag(2, 1), b = (3, 4) and the requested size 2, used unchanged. -/
theorem C13_shadow_size_value_witness :
    ∃ res, magma_zidr_acc (exactCollab unitDraw) 8 (mat22 2 0 0 1) (vec2 3 4) (vec2 0 0)
        (parOf 100 2) = some res ∧
      res.par.restart = min (mat22 2 0 0 1).num_cols (parOf 100 2).restart ∧
      res.par.restart = 2 := by
  have h := eq_some_resultOf (magma_zidr_acc (exactCollab unitDraw) 8 (mat22 2 0 0 1)
    (vec2 3 4) (vec2 0 0) (parOf 100 2)) (by decide!)
  obtain ⟨-, h2, h3, -⟩ := C13_shadow_size_value (exactCollab unitDraw) 8 (mat22 2 0 0 1)
    (vec2 3 4) (vec2 0 0) (parOf 100 2) _ (by decide) (by decide) h
  exact ⟨_, h, h2 (by decide), h3 (by decide) (by decide)⟩

/-- C15, witness: A = diag(2, 1), b = (3, 4) and the exact solution (3/2, 4) as initial
guess, with the default shadow space size 1 and memory routines that fail on negative
sizes. -/
theorem C15_initial_guess_converged_witness :
    ∃ res, magma_zidr_acc_mem sizedMem (exactCollab unitDraw) 8 (mat22 2 0 0 1) (vec2 3 4)
        (vec2 (3 / 2) 4) (parOf 100 30) = some res ∧
      res.info = MAGMA_SUCCESS ∧ res.par.numiter = 0 ∧ res.x = (vec2 (3 / 2) 4).dval ∧
      res.par.final_res = res.par.init_res ∧ res.par.iter_res = res.par.init_res := by
  obtain ⟨res, h1, -, h3, -, h5, h6, -, h8, h9⟩ := (C15_initial_guess_converged sizedMem
    (exactCollab unitDraw) 8 (mat22 2 0 0 1) (vec2 3 4) (vec2 (3 / 2) 4) (parOf 100 30)
    (by decide) (by decide!) (by decide!)).1 (by decide)
  exact ⟨res, h1, h3, h5, h6, h8, h9⟩

/-- C15, counterexample: A = diag(2, 1), b = (3, 4), the exact solution (3/2, 4) as initial
guess and `restart = -5`.  The shadow space size is -5, `magma_zvinit` is asked for a
2-by-(-5) vector at line 229 and fails: the routine returns MAGMA_ERR_HOST_ALLOC = -112, not
MAGMA_SUCCESS, before the initial guess is tested, and `init_res`, `final_res`, `iter_res`
keep the values of the caller instead of the norm 0 of the initial residual. -/
theorem C15_counterexample :
    (mat22 2 0 0 1).num_rows = (mat22 2 0 0 1).num_cols ∧
    (exactCollab unitDraw).dznrm2 (vec2 3 4).num_rows (vec2 3 4).dval ≠ 0 ∧
    (magma_zresidualvec (exactCollab unitDraw) (mat22 2 0 0 1) (vec2 3 4)
      (vec2 (3 / 2) 4).dval (fun _ => 0)).2 = 0 ∧
    (magma_zresidualvec (exactCollab unitDraw) (mat22 2 0 0 1) (vec2 3 4)
      (vec2 (3 / 2) 4).dval (fun _ => 0)).2 ≤
        idrTol (exactCollab unitDraw) (vec2 3 4) (parOf 100 (-5)).epsilon ∧
    shadowSize (parOf 100 (-5)).restart (mat22 2 0 0 1) = -5 ∧
    ∃ res, magma_zidr_acc_mem sizedMem (exactCollab unitDraw) 8 (mat22 2 0 0 1) (vec2 3 4)
        (vec2 (3 / 2) 4) (parOf 100 (-5)) = some res ∧
      res.info = -112 ∧ res.info ≠ MAGMA_SUCCESS ∧ res.par.numiter = 0 ∧
      res.par.init_res = 9 ∧ res.par.final_res = 9 ∧ res.par.iter_res = 9 := by
  refine ⟨by decide, by decide!, by decide!, by decide!, by decide, _,
    eq_some_resultOf _ (by decide!), by decide!, by decide!, by decide!, by decide!, by decide!,
    by decide!⟩

/-- C16, witness: A = diag(2, 1), b = (3, 4), zero initial guess: the loop is left by a
`break`, and r = b − A·x holds in both components of the state in which it is left. -/
theorem C16_residual_relation_witness :
    (exitState (idrLoop (exactCollab unitDraw)
        (idrEnv (exactCollab unitDraw) (mat22 2 0 0 1) (vec2 3 4) (vec2 0 0) (parOf 100 30)) 8
        (idrInit (exactCollab unitDraw) (mat22 2 0 0 1) (vec2 3 4) (vec2 0 0)
          (parOf 100 30)))).r 0 =
      (vec2 3 4).dval 0 - matVec (mat22 2 0 0 1)
        (exitState (idrLoop (exactCollab unitDraw)
          (idrEnv (exactCollab unitDraw) (mat22 2 0 0 1) (vec2 3 4) (vec2 0 0) (parOf 100 30)) 8
          (idrInit (exactCollab unitDraw) (mat22 2 0 0 1) (vec2 3 4) (vec2 0 0)
            (parOf 100 30)))).x 0 ∧
    (exitState (idrLoop (exactCollab unitDraw)
        (idrEnv (exactCollab unitDraw) (mat22 2 0 0 1) (vec2 3 4) (vec2 0 0) (parOf 100 30)) 8
        (idrInit (exactCollab unitDraw) (mat22 2 0 0 1) (vec2 3 4) (vec2 0 0)
          (parOf 100 30)))).r 1 =
      (vec2 3 4).dval 1 - matVec (mat22 2 0 0 1)
        (exitState (idrLoop (exactCollab unitDraw)
          (idrEnv (exactCollab unitDraw) (mat22 2 0 0 1) (vec2 3 4) (vec2 0 0) (parOf 100 30)) 8
          (idrInit (exactCollab unitDraw) (mat22 2 0 0 1) (vec2 3 4) (vec2 0 0)
            (parOf 100 30)))).x 1 :=
  have h := (C16_residual_relation (exactCollab unitDraw) 8 (mat22 2 0 0 1) (vec2 3 4)
    (vec2 0 0) (parOf 100 30) 2 ⟨rfl, rfl, rfl, rfl, rfl⟩).2.2.2 _
    (exit_eq_brk _ (by decide!))
  ⟨h 0 (by decide), h 1 (by decide)⟩

/-- The product P(:,j)ᴴ·w is linear in `w`. -/
theorem pdot_axpy (E : IdrEnv K R) (j : Nat) (a : K) (u w : Vec K) :
    pdot E j (magma_zaxpy E.A.num_cols a u w) = a * pdot E j u + pdot E j w := by
  unfold pdot magma_zdotc
  rw [← sumTo_mul_left, ← sumTo_add]
  apply sumTo_congr
  intro i hi
  have hi' : (i : Int) < E.A.num_cols := by omega
  simp only [magma_zaxpy, hi', if_true]
  ring

/-- The product P(:,j)ᴴ·w only reads the first `A.num_cols` entries of `w`. -/
theorem pdot_congr (E : IdrEnv K R) (j : Nat) (u w : Vec K)
    (h : ∀ i : Nat, (i : Int) < E.A.num_cols → u i = w i) : pdot E j u = pdot E j w := by
  unfold pdot magma_zdotc
  apply sumTo_congr
  intro i hi
  rw [h i (by omega)]

/-- The bi-orthogonalization of column `k` leaves the other columns of `G` alone. -/
theorem biortho_G_other (E : IdrEnv K R) (k m : Nat) (st : IdrState K R) (l : Nat)
    (hl : l ≠ k) : (biortho E k m st).G l = st.G l := by
  induction m with
  | zero => rfl
  | succ m ih => simp only [biortho, biorthoStep, setCol, if_neg hl]; exact ih

/-- After `m` passes of the bi-orthogonalization loop of inner step `k`, column `k` of `G`
is orthogonal to the first `m` columns of `P`, provided the earlier columns are
bi-orthogonal with nonzero diagonal entries of `M`. -/
theorem biortho_orth (E : IdrEnv K R) (k : Nat) (st : IdrState K R) (hks : (k : Int) < E.s)
    (hcol : ∀ i, i < k → BiCol E i st) (hd : ∀ i, i < k → st.M i i ≠ 0) :
    ∀ m, m ≤ k → ∀ j, j < m → pdot E j ((biortho E k m st).G k) = 0 := by
  intro m
  induction m with
  | zero => intro _ j hj; omega
  | succ m ih =>
    intro hm j hj
    have hmk : m ≠ k := by omega
    have hG : (biortho E k m st).G m = st.G m := biortho_G_other E k m st m hmk
    have hM : (biortho E k m st).M = st.M := biortho_M E k m st
    simp only [biortho, biorthoStep, setCol, if_true]
    rw [pdot_axpy, hG, hM]
    by_cases hjm : j = m
    · subst hjm
      have hmm : st.M j j = pdot E j (st.G j) := (hcol j (by omega)).2 j le_rfl (by omega)
      have hne := hd j (by omega)
      rw [← hmm]
      have : magma_zdotc E.A.num_cols (E.P j) ((biortho E k j st).G k) =
          pdot E j ((biortho E k j st).G k) := rfl
      rw [this]
      field_simp
    · have hlt : j < m := by omega
      rw [(hcol m (by omega)).1 j hlt, ih (by omega) j hlt]
      ring

/-- Inner step `k` writes column `k` of `G` only. -/
theorem newDirection_G_other (E : IdrEnv K R) (k : Nat) (st : IdrState K R) (l : Nat)
    (hl : l ≠ k) : (newDirection E k st).G l = st.G l := by
  unfold newDirection
  simp only []
  rw [biortho_G_other E k k _ l hl]
  simp only [setCol, if_neg hl]

/-- Inner step `k` writes the rows `k ≤ i < s` of column `k` of `M` only. -/
theorem newDirection_M_other (E : IdrEnv K R) (k : Nat) (st : IdrState K R) (j i : Nat)
    (h : j ≠ k ∨ i < k ∨ E.s ≤ (i : Int)) : (newDirection E k st).M j i = st.M j i := by
  unfold newDirection
  simp only [biortho_M, setCol]
  by_cases hj : j = k
  · subst hj
    simp only [if_true, store]
    rcases h with h | h | h
    · exact absurd rfl h
    · simp only [if_pos h]
    · by_cases hi : i < j
      · simp only [if_pos hi]
      · simp only [if_neg hi, magmablas_zgemv_C, ptr]
        have h2 : ¬ (((i - j : Nat) : Int) < E.s - (j : Int)) := by omega
        rw [if_neg h2]
        congr 1
        omega
  · simp only [if_neg hj]

/-- The entries of column `k` of `M` written by inner step `k` are the products
P(:,j)ᴴ·G(:,k) with the finished column of `G`. -/
theorem newDirection_M_col (E : IdrEnv K R) (k : Nat) (st : IdrState K R) (j : Nat)
    (hkj : k ≤ j) (hjs : (j : Int) < E.s) :
    (newDirection E k st).M k j = pdot E j ((newDirection E k st).G k) := by
  unfold newDirection
  simp only [biortho_M, setCol, if_true, store]
  have h1 : ¬ j < k := by omega
  have h2 : (((j - k : Nat) : Int) < E.s - (k : Int)) := by omega
  have h3 : k + (j - k) = j := by omega
  simp only [if_neg h1, magmablas_zgemv_C, if_pos h2, cols, h3, pdot, magma_zdotc]
  ring

/-- After inner step `k` has formed its columns, column `k` is bi-orthogonal. -/
theorem newDirection_bicol (E : IdrEnv K R) (k : Nat) (st : IdrState K R)
    (hks : (k : Int) < E.s) (hcol : ∀ i, i < k → BiCol E i st)
    (hd : ∀ i, i < k → st.M i i ≠ 0) : BiCol E k (newDirection E k st) := by
  refine ⟨?_, fun j hkj hjs => newDirection_M_col E k st j hkj hjs⟩
  intro j hj
  unfold newDirection
  simp only []
  apply biortho_orth E k _ hks _ _ k le_rfl j hj
  · intro i hi
    have hik : i ≠ k := by omega
    refine ⟨fun j hj => ?_, fun j hij hjs => ?_⟩
    · simp only [setCol, if_neg hik]
      exact (hcol i hi).1 j hj
    · simp only [setCol, if_neg hik]
      exact (hcol i hi).2 j hij hjs
  · exact hd

/-- Inner step `k` keeps the bi-orthogonality of the other columns. -/
theorem newDirection_bicol_other (E : IdrEnv K R) (k : Nat) (st : IdrState K R) (l : Nat)
    (hl : l ≠ k) (h : BiCol E l st) : BiCol E l (newDirection E k st) := by
  refine ⟨fun j hj => ?_, fun j hlj hjs => ?_⟩
  · rw [newDirection_G_other E k st l hl]; exact h.1 j hj
  · rw [newDirection_G_other E k st l hl, newDirection_M_other E k st l j (Or.inl hl)]
    exact h.2 j hlj hjs

/-! ## The inner steps of one pass -/

/-- An inner step that falls through passed the CHECK of the dense solve, found
`M(k,k) ≠ 0`, passed the check of convergence and limit, and hands on the updated state. -/
theorem innerStep_next (C : Collab K R) (E : IdrEnv K R) (k : Nat) (st st1 : IdrState K R)
    (h : innerStep C E k st = .next st1) :
    (smallSolve C E k st).1 = 0 ∧
    (newDirection E k (smallSolve C E k st).2).M k k ≠ 0 ∧
    ¬ ((updateXR C E k (newDirection E k (smallSolve C E k st).2)).nrmr ≤ E.tolb ∨
        st.numiter ≥ E.maxiter) ∧
    st1 = { updateXR C E k (newDirection E k (smallSolve C E k st).2) with
            f := updateF E k (newDirection E k (smallSolve C E k st).2),
            numiter := st.numiter + 1 } := by
  rw [innerStep_eq] at h
  split_ifs at h with h1 h2
  refine ⟨not_not.mp h1, h2, ?_⟩
  unfold applyUpdate at h
  simp only [updateXR_numiter, newDirection_numiter, smallSolve_numiter] at h
  split_ifs at h with h3
  exact ⟨h3, (Flow.next.inj h).symm⟩

/-- Bi-orthogonality of a column only depends on `G` and `M`. -/
theorem BiCol.transfer {E : IdrEnv K R} {l : Nat} {st st1 : IdrState K R}
    (h : BiCol E l st) (hG : st1.G = st.G) (hM : st1.M = st.M) : BiCol E l st1 := by
  unfold BiCol
  rw [hG, hM]
  exact h

/-- At the head of inner step `k` the columns finished in this pass, and the first `m`
columns if they were bi-orthogonal when the pass was entered, are bi-orthogonal, and the
diagonal entries `M(i,i)`, `i < k`, are not zero. -/
theorem reach_bicol (C : Collab K R) (E : IdrEnv K R) (st0 : IdrState K R) (m : Nat)
    (h0 : ∀ l, l < m → BiCol E l st0) (k : Nat) (st : IdrState K R)
    (h : InnerReach C E st0 k st) :
    (∀ l, l < max m k → BiCol E l st) ∧ (∀ i, i < k → st.M i i ≠ 0) := by
  induction h with
  | start =>
    refine ⟨fun l hl => ?_, fun i hi => by omega⟩
    exact (h0 l (by simpa using hl)).transfer (cycleStart_G E st0) (cycleStart_M E st0)
  | step k st st1 hr hks hstep ih =>
    obtain ⟨hz, hmk, -, hst1⟩ := innerStep_next C E k st st1 hstep
    have hcol : ∀ i, i < k → BiCol E i (smallSolve C E k st).2 := fun i hi =>
      (ih.1 i (lt_of_lt_of_le hi (le_max_right m k))).transfer
        (smallSolve_G C E k st) (smallSolve_M C E k st)
    have hd : ∀ i, i < k → (smallSolve C E k st).2.M i i ≠ 0 := fun i hi => by
      rw [smallSolve_M]; exact ih.2 i hi
    have hG : st1.G = (newDirection E k (smallSolve C E k st).2).G := by rw [hst1]; rfl
    have hM : st1.M = (newDirection E k (smallSolve C E k st).2).M := by rw [hst1]; rfl
    refine ⟨fun l hl => ?_, fun i hi => ?_⟩
    · by_cases hlk : l = k
      · subst hlk
        exact (newDirection_bicol E l _ hks hcol hd).transfer hG hM
      · have hl1 : l < max m k := by
          rcases lt_max_iff.mp hl with h1 | h1
          · exact lt_max_iff.mpr (Or.inl h1)
          · exact lt_max_iff.mpr (Or.inr (by omega))
        exact (newDirection_bicol_other E k _ l hlk
          ((ih.1 l hl1).transfer (smallSolve_G C E k st) (smallSolve_M C E k st))).transfer hG hM
    · rw [hM]
      by_cases hik : i = k
      · subst hik; exact hmk
      · rw [newDirection_M_other E k _ i i (Or.inl hik), smallSolve_M]
        exact ih.2 i (by omega)

/-- The update r −= beta·G(:,k) of inner step `k` makes `r` orthogonal to the first `k+1`
columns of `P`, when column `k` is bi-orthogonal with `M(k,k) ≠ 0`, `f(k) = P(:,k)ᴴ·r` and
`r` is orthogonal to the first `k` columns. -/
theorem updateXR_orth (C : Collab K R) (E : IdrEnv K R) (k : Nat) (st : IdrState K R)
    (hb : E.b.num_rows = E.A.num_cols) (hks : (k : Int) < E.s) (hcol : BiCol E k st)
    (hmk : st.M k k ≠ 0) (hf : st.f k = pdot E k st.r) (hr : ∀ j, j < k → pdot E j st.r = 0) :
    ∀ j, j ≤ k → pdot E j (updateXR C E k st).r = 0 := by
  intro j hj
  simp only [updateXR, hb, stepBeta]
  rw [pdot_axpy]
  by_cases hjk : j = k
  · subst hjk
    rw [← hcol.2 j le_rfl hks, ← hf]
    field_simp
  · rw [hcol.1 j (by omega), hr j (by omega)]
    ring

/-- The update of `f` of inner step `k` keeps `f(j) = P(:,j)ᴴ·r` for `k < j < s`, with the
`r` just updated. -/
theorem updateF_pdot (C : Collab K R) (E : IdrEnv K R) (k : Nat) (st : IdrState K R)
    (hb : E.b.num_rows = E.A.num_cols) (hcol : BiCol E k st)
    (hf : ∀ j, k ≤ j → (j : Int) < E.s → st.f j = pdot E j st.r) :
    ∀ j, k + 1 ≤ j → (j : Int) < E.s → updateF E k st j = pdot E j (updateXR C E k st).r := by
  intro j hkj hjs
  have h1 : (k : Int) + 1 < E.s := by omega
  have h2 : ¬ j < k + 1 := by omega
  have h3 : (((j - (k + 1) : Nat) : Int) < E.s - (k : Int) - 1) := by omega
  have h4 : k + 1 + (j - (k + 1)) = j := by omega
  simp only [updateF, if_pos h1, store, if_neg h2, magma_zaxpy, if_pos h3, ptr, h4, updateXR,
    hb]
  rw [pdot_axpy, hcol.2 j (by omega) hjs, hf j (by omega) hjs]

/-- At the head of inner step `k` of a pass on an `n`-by-`n` system, `f(j) = P(:,j)ᴴ·r` for
`k ≤ j < s` and `r` is orthogonal to the first `k` columns of `P`. -/
theorem reach_forth (C : Collab K R) (E : IdrEnv K R) (n : Nat) (hE : SquareSystem E n)
    (st0 : IdrState K R) (k : Nat) (st : IdrState K R) (h : InnerReach C E st0 k st) :
    (∀ j, k ≤ j → (j : Int) < E.s → st.f j = pdot E j st.r) ∧
    (∀ j, j < k → pdot E j st.r = 0) := by
  have hb : E.b.num_rows = E.A.num_cols := by rw [hE.2.2.1, hE.2.1]
  induction h with
  | start =>
    refine ⟨fun j _ hjs => ?_, fun j hj => by omega⟩
    simp only [cycleStart, magmablas_zgemv_C, if_pos hjs, pdot, magma_zdotc]
    ring
  | step k st st1 hr hks hstep ih =>
    obtain ⟨hz, hmk, -, hst1⟩ := innerStep_next C E k st st1 hstep
    have hbi := reach_bicol C E st0 0 (fun l hl => by omega) k st hr
    have hcol : BiCol E k (newDirection E k (smallSolve C E k st).2) :=
      newDirection_bicol E k _ hks
        (fun i hi => (hbi.1 i (lt_of_lt_of_le hi (le_max_right 0 k))).transfer
          (smallSolve_G C E k st) (smallSolve_M C E k st))
        (fun i hi => by rw [smallSolve_M]; exact hbi.2 i hi)
    have hf : ∀ j, k ≤ j → (j : Int) < E.s →
        (newDirection E k (smallSolve C E k st).2).f j =
          pdot E j (newDirection E k (smallSolve C E k st).2).r := by
      intro j hkj hjs
      rw [newDirection_f, newDirection_r, smallSolve_f, smallSolve_r]
      exact ih.1 j hkj hjs
    have hro : ∀ j, j < k → pdot E j (newDirection E k (smallSolve C E k st).2).r = 0 := by
      intro j hj
      rw [newDirection_r, smallSolve_r]
      exact ih.2 j hj
    have hr1 : st1.r = (updateXR C E k (newDirection E k (smallSolve C E k st).2)).r := by
      rw [hst1]
    have hf1 : st1.f = updateF E k (newDirection E k (smallSolve C E k st).2) := by
      rw [hst1]
    rw [hr1, hf1]
    exact ⟨updateF_pdot C E k _ hb hcol hf,
      fun j hj => updateXR_orth C E k _ hb hks hcol hmk (hf k le_rfl hks) hro j (by omega)⟩

/-! ## Invariant rules for the reachable states -/

/-- A condition kept by every inner step holds at the head of every inner step of a
pass. -/
theorem innerReach_rule (C : Collab K R) (E : IdrEnv K R) {J B L : IdrState K R → Prop}
    (h1 : ∀ k st, J st → Flow.sat J B L (innerStep C E k st)) (st0 : IdrState K R)
    (h0 : J (cycleStart E st0)) : ∀ k st, InnerReach C E st0 k st → J st := by
  intro k st h
  induction h with
  | start => exact h0
  | step k st st1 _ _ hstep ih =>
    have h := h1 k st ih
    rw [hstep] at h
    exact h

/-- A condition kept by every pass of the do-while body holds whenever the body is
entered. -/
theorem loopReach_rule (C : Collab K R) (E : IdrEnv K R) {I N B L : IdrState K R → Prop}
    (hit : ∀ st, I st → Flow.sat N B L (iteration C E st))
    (h3 : ∀ st, N st → st.numiter + 1 ≤ E.maxiter → I st) (st0 : IdrState K R)
    (h0 : I st0) : ∀ st, LoopReach C E st0 st → I st := by
  intro st h
  induction h with
  | start => exact h0
  | pass st st1 _ hstep hc ih =>
    have h := hit st ih
    rw [hstep] at h
    exact h3 st1 h hc

/-- An inner step keeps the relations r = b − A·x and G = A·U. -/
theorem residual_innerStep (C : Collab K R) (E : IdrEnv K R) (n : Nat)
    (hE : SquareSystem E n) (k : Nat) (s : IdrState K R)
    (h : s.innerflag = 0 ∧ ResidualInv C E n s) :
    Flow.sat (fun s => s.innerflag = 0 ∧ ResidualInv C E n s) (ResidualInv C E n)
      (ResidualInv C E n) (innerStep C E k s) := by
  obtain ⟨a, b⟩ := h
  have hnd : ResidualInv C E n (newDirection E k (smallSolve C E k s).2) := by
    refine ⟨?_, ?_, ?_⟩
    · simpa using b.1
    · exact newDirection_GAU E n hE k _ (by simpa using b.2.1)
    · simpa using b.2.2
  apply innerStep_sat
  · intro _
    exact b.of_eq C E n s _ rfl rfl rfl rfl rfl
  · intro _ _
    exact hnd.of_eq C E n _ _ rfl rfl rfl rfl rfl
  · intro _ _
    have hup := updateXR_residual C E n hE k _ hnd
    apply applyUpdate_sat
    · intro _
      exact hup.of_eq C E n _ _ rfl rfl rfl rfl rfl
    · intro _
      exact ⟨by simpa using a, hup.of_eq C E n _ _ rfl rfl rfl rfl rfl⟩

/-- A pass of the do-while body keeps the relations r = b − A·x and G = A·U. -/
theorem residual_iteration (C : Collab K R) (E : IdrEnv K R) (n : Nat)
    (hE : SquareSystem E n) (s : IdrState K R)
    (h : s.innerflag = 0 ∧ ResidualInv C E n s) :
    Flow.sat (fun s => s.innerflag = 0 ∧ ResidualInv C E n s) (ResidualInv C E n)
      (ResidualInv C E n) (iteration C E s) := by
  apply iteration_rule C E
    (I := fun s => s.innerflag = 0 ∧ ResidualInv C E n s)
    (J := fun s => s.innerflag = 0 ∧ ResidualInv C E n s)
  · intro s hs; exact hs.1
  · intro s ⟨a, b⟩
    exact ⟨by simpa using a, b.of_eq C E n s _ rfl rfl rfl rfl rfl⟩
  · exact fun k s hs => residual_innerStep C E n hE k s hs
  · intro s ⟨a, b⟩
    have hup := omegaUpdate_residual C E n hE s b
    apply dimRedStep_sat
    · intro _
      exact b.of_eq C E n s _ rfl rfl rfl rfl rfl
    · intro _ _; exact hup
    · intro _ _; exact ⟨by simpa using a, hup⟩
  · exact h

/-- The relations r = b − A·x and G = A·U hold at the head of every inner step of every
pass of a loop entered with them. -/
theorem reach_residual (C : Collab K R) (E : IdrEnv K R) (n : Nat) (hE : SquareSystem E n)
    (st0 : IdrState K R) (hflag : st0.innerflag = 0) (hinv : ResidualInv C E n st0)
    (st : IdrState K R) (hl : LoopReach C E st0 st) (k : Nat) (s : IdrState K R)
    (hi : InnerReach C E st k s) : ResidualInv C E n s := by
  have h1 := loopReach_rule C E (I := fun s => s.innerflag = 0 ∧ ResidualInv C E n s)
    (fun s hs => residual_iteration C E n hE s hs) (fun s hs _ => hs) st0
    ⟨hflag, hinv⟩ st hl
  exact (innerReach_rule C E (fun k s hs => residual_innerStep C E n hE k s hs) st
    ⟨by simpa using h1.1, h1.2.of_eq C E n st _ rfl rfl rfl rfl rfl⟩ k s hi).2

/-! ## The shape of M -/

/-- An inner step writes the rows `k ≤ i < s` of column `k` of `M` only. -/
theorem innerStep_M_other (C : Collab K R) (E : IdrEnv K R) (k : Nat) (st : IdrState K R)
    (j i : Nat) (h : j ≠ k ∨ i < k ∨ E.s ≤ (i : Int)) :
    (innerStep C E k st).state.M j i = st.M j i := by
  have hnd : (newDirection E k (smallSolve C E k st).2).M j i = st.M j i := by
    rw [newDirection_M_other E k _ j i h, smallSolve_M]
  rw [innerStep_eq]
  split_ifs with h1 h2
  · simp only [Flow.state, smallSolve_M]
  · exact hnd
  · unfold applyUpdate
    simp only []
    split_ifs
    · exact hnd
    · exact hnd

/-- An inner step keeps `M` lower triangular. -/
theorem lowerTri_innerStep (C : Collab K R) (E : IdrEnv K R) (k : Nat) (st : IdrState K R)
    (h : LowerTri st.M) : LowerTri (innerStep C E k st).state.M := by
  intro j i hij
  rw [innerStep_M_other C E k st j i (by
    by_cases hj : j = k
    · exact Or.inr (Or.inl (by omega))
    · exact Or.inl hj)]
  exact h j i hij

/-- The dimension-reduction step does not write `M`. -/
theorem dimRedStep_M (C : Collab K R) (E : IdrEnv K R) (st : IdrState K R) :
    (dimRedStep C E st).state.M = st.M := by
  unfold dimRedStep
  simp only []
  split_ifs
  · simp only [Flow.state, newOmega_M]
  · simp only [Flow.state, omegaUpdate_M, newOmega_M]
  · simp only [Flow.state, omegaUpdate_M, newOmega_M]

/-- A condition of the form `Q st.M` kept by every inner step is kept by every pass. -/
theorem iteration_M_rule (C : Collab K R) (E : IdrEnv K R) (Q : ColMat K → Prop)
    (h1 : ∀ k st, Q st.M → Q (innerStep C E k st).state.M) (st : IdrState K R)
    (hf : st.innerflag = 0) (h : Q st.M) :
    Flow.sat (fun s => s.innerflag = 0 ∧ Q s.M) (fun s => Q s.M) (fun s => Q s.M)
      (iteration C E st) := by
  apply iteration_rule C E (I := fun s => s.innerflag = 0 ∧ Q s.M)
    (J := fun s => s.innerflag = 0 ∧ Q s.M)
  · intro s hs; exact hs.1
  · intro s ⟨a, b⟩; exact ⟨by simpa using a, by simpa using b⟩
  · intro k s ⟨a, b⟩
    have hq := h1 k s b
    have hn := iteration_next_numiter C E s a
    have hfl : Flow.sat (fun s1 => s1.innerflag = 0) (fun _ => True) (fun _ => True)
        (innerStep C E k s) := by
      apply innerStep_sat
      · intro _; trivial
      · intro _ _; trivial
      · intro _ _
        apply applyUpdate_sat
        · intro _; trivial
        · intro _; simpa using a
    cases hstep : innerStep C E k s with
    | next s1 => rw [hstep] at hq hfl; exact ⟨hfl, hq⟩
    | brk s1 => rw [hstep] at hq; exact hq
    | cleanup s1 => rw [hstep] at hq; exact hq
  · intro s ⟨a, b⟩
    have hq : Q (dimRedStep C E s).state.M := by rw [dimRedStep_M]; exact b
    have hfl : Flow.sat (fun s1 => s1.innerflag = 0) (fun _ => True) (fun _ => True)
        (dimRedStep C E s) := by
      apply dimRedStep_sat
      · intro _; trivial
      · intro _ _; trivial
      · intro _ _; simpa using a
    cases hstep : dimRedStep C E s with
    | next s1 => rw [hstep] at hq hfl; exact ⟨hfl, hq⟩
    | brk s1 => rw [hstep] at hq; exact hq
    | cleanup s1 => rw [hstep] at hq; exact hq
  · exact ⟨hf, h⟩

/-- A pass of the do-while body keeps `M` lower triangular. -/
theorem lowerTri_iteration (C : Collab K R) (E : IdrEnv K R) (st : IdrState K R)
    (h : st.innerflag = 0 ∧ LowerTri st.M) :
    Flow.sat (fun s => s.innerflag = 0 ∧ LowerTri s.M) (fun s => LowerTri s.M)
      (fun s => LowerTri s.M) (iteration C E st) :=
  iteration_M_rule C E LowerTri (fun k s hq => lowerTri_innerStep C E k s hq) st h.1 h.2

/-- `M` is lower triangular whenever the body of a loop entered with a lower triangular
`M` is entered. -/
theorem loopReach_lowerTri (C : Collab K R) (E : IdrEnv K R) (st0 : IdrState K R)
    (h0 : st0.innerflag = 0 ∧ LowerTri st0.M) (st : IdrState K R)
    (hl : LoopReach C E st0 st) : st.innerflag = 0 ∧ LowerTri st.M :=
  loopReach_rule C E (I := fun s => s.innerflag = 0 ∧ LowerTri s.M)
    (fun s hs => lowerTri_iteration C E s hs) (fun s hs _ => hs) st0 h0 st hl

/-- `M` is lower triangular at the head of every inner step of a pass entered with a lower
triangular `M`. -/
theorem innerReach_lowerTri (C : Collab K R) (E : IdrEnv K R) (st0 : IdrState K R)
    (h0 : LowerTri st0.M) (k : Nat) (s : IdrState K R) (hi : InnerReach C E st0 k s) :
    LowerTri s.M :=
  innerReach_rule C E (J := fun s => LowerTri s.M) (B := fun s => LowerTri s.M)
    (L := fun s => LowerTri s.M) (fun k s hq => by
      have h := lowerTri_innerStep C E k s hq
      cases hstep : innerStep C E k s with
      | next s1 => rw [hstep] at h; exact h
      | brk s1 => rw [hstep] at h; exact h
      | cleanup s1 => rw [hstep] at h; exact h) st0
    (by show LowerTri (cycleStart E st0).M; rw [cycleStart_M]; exact h0) k s hi

/-- The state in which the loop is entered has a lower triangular `M`. -/
theorem idrInit_lowerTri (C : Collab K R) (A : magma_z_matrix K) (b x : magma_z_vector K)
    (par : magma_z_solver_par R) : LowerTri (idrInit C A b x par).M := by
  intro j i hij
  have hne : ¬ (i = j ∧ (i : Int) < shadowSize par.restart A) := fun h => by omega
  simp only [idrInit, if_neg hne]

/-! ## Claims on the relations kept by the inner steps -/

/-- C21: at the head of every inner step `k` of every pass, the diagonal entries `M(i,i)`,
`i < k`, are not zero (the steps before `k` passed the test of lines 449-453), and after the
bi-orthogonalization loop of step `k` the new column of `G` satisfies
P(:,i)ᴴ·G(:,k) = 0 for every `i < k`: the entries of column `k` of Pᴴ·G that line 444
does not compute are zero. -/
theorem C21_biortho_zero (C : Collab K R) (E : IdrEnv K R) (st0 : IdrState K R) (k : Nat)
    (st : IdrState K R) (h : InnerReach C E st0 k st) (hks : (k : Int) < E.s) :
    (∀ i, i < k → st.M i i ≠ 0) ∧
    ∀ i, i < k → pdot E i ((newDirection E k (smallSolve C E k st).2).G k) = 0 := by
  have hbi := reach_bicol C E st0 0 (fun l hl => by omega) k st h
  refine ⟨hbi.2, ?_⟩
  exact (newDirection_bicol E k _ hks
    (fun i hi => (hbi.1 i (lt_of_lt_of_le hi (le_max_right 0 k))).transfer
      (smallSolve_G C E k st) (smallSolve_M C E k st))
    (fun i hi => by rw [smallSolve_M]; exact hbi.2 i hi)).1

/-- C22: on an `n`-by-`n` system, G(:,j) = A·U(:,j) holds for every column in the state in
which the loop is entered (G = U = 0), is kept by the bi-orthogonalization updates, holds
for every column after an inner step has formed its columns `k`, holds at the head of
every inner step of every pass, and holds in the state in which the loop is left. -/
theorem C22_G_eq_AU (C : Collab K R) (fuel : Nat) (A : magma_z_matrix K)
    (b x : magma_z_vector K) (par : magma_z_solver_par R) (n : Nat)
    (hE : SquareSystem (idrEnv C A b x par) n) :
    (∀ j i, i < n → (idrInit C A b x par).G j i = matVec A ((idrInit C A b x par).U j) i) ∧
    (∀ k m st, (∀ j i, i < n → st.G j i = matVec A (st.U j) i) →
      ∀ j i, i < n → (biortho (idrEnv C A b x par) k m st).G j i =
        matVec A ((biortho (idrEnv C A b x par) k m st).U j) i) ∧
    (∀ k st, (∀ j i, i < n → st.G j i = matVec A (st.U j) i) →
      ∀ j i, i < n → (newDirection (idrEnv C A b x par) k st).G j i =
        matVec A ((newDirection (idrEnv C A b x par) k st).U j) i) ∧
    (∀ st k s, LoopReach C (idrEnv C A b x par) (idrInit C A b x par) st →
      InnerReach C (idrEnv C A b x par) st k s →
      ∀ j i, i < n → s.G j i = matVec A (s.U j) i) ∧
    (∀ out, idrLoop C (idrEnv C A b x par) fuel (idrInit C A b x par) = some out →
      ∀ j i, i < n → out.state.G j i = matVec A (out.state.U j) i) := by
  have hinit := idrInit_residual C A b x par n hE
  refine ⟨hinit.2.1, ?_, ?_, ?_, ?_⟩
  · exact fun k m st h => biortho_GAU (idrEnv C A b x par) n hE k m st h
  · exact fun k st h => newDirection_GAU (idrEnv C A b x par) n hE k st h
  · intro st k s hl hi
    exact (reach_residual C (idrEnv C A b x par) n hE (idrInit C A b x par) rfl hinit st hl
      k s hi).2.1
  · intro out hout
    have hinv := idrLoop_residual C (idrEnv C A b x par) n hE fuel (idrInit C A b x par) out
      rfl hinit hout
    cases out with
    | next s => exact hinv.2.1
    | brk s => exact hinv.2.1
    | cleanup s => exact hinv.2.1

/-- C23: on an `n`-by-`n` system, `f = Pᴴ·r` holds after the head of every pass (line 363),
and when inner step `k` falls through to step `k+1`, after its update of `f` the entries
`f(j)`, `k+1 ≤ j < s`, are P(:,j)ᴴ·r for the `r` just updated. -/
theorem C23_f_update (C : Collab K R) (E : IdrEnv K R) (n : Nat) (hE : SquareSystem E n)
    (st0 : IdrState K R) (k : Nat) (st st1 : IdrState K R) (h : InnerReach C E st0 k st)
    (hks : (k : Int) < E.s) (hstep : innerStep C E k st = .next st1) :
    (∀ j : Nat, (j : Int) < E.s → (cycleStart E st0).f j = pdot E j (cycleStart E st0).r) ∧
    st1.f = updateF E k (newDirection E k (smallSolve C E k st).2) ∧
    st1.r = (updateXR C E k (newDirection E k (smallSolve C E k st).2)).r ∧
    ∀ j, k + 1 ≤ j → (j : Int) < E.s → st1.f j = pdot E j st1.r := by
  obtain ⟨-, -, -, hst1⟩ := innerStep_next C E k st st1 hstep
  refine ⟨fun j hj => (reach_forth C E n hE st0 0 _ .start).1 j (Nat.zero_le j) hj,
    by rw [hst1], by rw [hst1], ?_⟩
  exact (reach_forth C E n hE st0 (k + 1) st1 (.step k st st1 h hks hstep)).1

/-- C24: on an `n`-by-`n` system, when inner step `k` of a pass has found `M(k,k) ≠ 0` and
applied r −= beta·G(:,k) with beta = f(k) / M(k,k), the residual is orthogonal to the first
`k+1` columns of `P`. -/
theorem C24_residual_orth (C : Collab K R) (E : IdrEnv K R) (n : Nat)
    (hE : SquareSystem E n) (st0 : IdrState K R) (k : Nat) (st : IdrState K R)
    (h : InnerReach C E st0 k st) (hks : (k : Int) < E.s)
    (hmk : (newDirection E k (smallSolve C E k st).2).M k k ≠ 0) :
    (updateXR C E k (newDirection E k (smallSolve C E k st).2)).r =
      magma_zaxpy E.b.num_rows
        (-((newDirection E k (smallSolve C E k st).2).f k /
            (newDirection E k (smallSolve C E k st).2).M k k))
        ((newDirection E k (smallSolve C E k st).2).G k) st.r ∧
    ∀ j, j ≤ k →
      pdot E j (updateXR C E k (newDirection E k (smallSolve C E k st).2)).r = 0 := by
  have hb : E.b.num_rows = E.A.num_cols := by rw [hE.2.2.1, hE.2.1]
  have hbi := reach_bicol C E st0 0 (fun l hl => by omega) k st h
  have hfo := reach_forth C E n hE st0 k st h
  have hcol : BiCol E k (newDirection E k (smallSolve C E k st).2) :=
    newDirection_bicol E k _ hks
      (fun i hi => (hbi.1 i (lt_of_lt_of_le hi (le_max_right 0 k))).transfer
        (smallSolve_G C E k st) (smallSolve_M C E k st))
      (fun i hi => by rw [smallSolve_M]; exact hbi.2 i hi)
  refine ⟨by simp [updateXR, stepBeta], ?_⟩
  apply updateXR_orth C E k _ hb hks hcol hmk
  · rw [newDirection_f, newDirection_r, smallSolve_f, smallSolve_r]
    exact hfo.1 k le_rfl hks
  · intro j hj
    rw [newDirection_r, smallSolve_r]
    exact hfo.2 j hj

/-- C30: `M` is the `s`-by-`s` identity when the loop is entered; an inner step `k` changes
no entry of `M` outside the rows `k ≤ i < s` of column `k` and the dimension-reduction step
changes none; so `M` has zeros above its diagonal at the head of every inner step of every
pass and in the state in which the loop is left, and the block handed to the dense solve
of inner step `k` has zeros above its diagonal. -/
theorem C30_M_lower_triangular (C : Collab K R) (fuel : Nat) (A : magma_z_matrix K)
    (b x : magma_z_vector K) (par : magma_z_solver_par R) :
    (∀ j i : Nat, (idrInit C A b x par).M j i =
      if i = j ∧ (i : Int) < (idrEnv C A b x par).s then 1 else 0) ∧
    (∀ (k : Nat) st (j i : Nat), (j ≠ k ∨ i < k ∨ (idrEnv C A b x par).s ≤ (i : Int)) →
      (innerStep C (idrEnv C A b x par) k st).state.M j i = st.M j i) ∧
    (∀ st, (dimRedStep C (idrEnv C A b x par) st).state.M = st.M) ∧
    (∀ st k s, LoopReach C (idrEnv C A b x par) (idrInit C A b x par) st →
      InnerReach C (idrEnv C A b x par) st k s →
      LowerTri s.M ∧ ∀ i j : Nat, i < j → (fun l => ptr (s.M (k + l)) k) j i = 0) ∧
    (∀ out, idrLoop C (idrEnv C A b x par) fuel (idrInit C A b x par) = some out →
      LowerTri out.state.M) := by
  have h0 := idrInit_lowerTri C A b x par
  refine ⟨fun j i => rfl, fun k st j i h => innerStep_M_other C _ k st j i h,
    fun st => dimRedStep_M C _ st, ?_, ?_⟩
  · intro st k s hl hi
    have h1 := loopReach_lowerTri C _ _ ⟨rfl, h0⟩ st hl
    have h2 := innerReach_lowerTri C _ st h1.2 k s hi
    exact ⟨h2, fun i j hij => h2 (k + j) (k + i) (by omega)⟩
  · intro out hout
    have h := idrLoop_rule C (idrEnv C A b x par)
      (I := fun s => s.innerflag = 0 ∧ LowerTri s.M) (W := fun s => LowerTri s.M)
      (fun s hs => lowerTri_iteration C _ s hs) (fun s hs _ => hs) (fun s hs _ => hs.2)
      fuel _ out ⟨rfl, h0⟩ hout
    cases out with
    | next s => exact h
    | brk s => exact h
    | cleanup s => exact h

/-! ## Bi-orthogonality after a complete pass -/

/-- The shadow space loop that falls through has run all its inner steps. -/
theorem innerLoop_next_reach (C : Collab K R) (E : IdrEnv K R) (st0 : IdrState K R) :
    ∀ rem k st st2, InnerReach C E st0 k st → k + rem ≤ E.s.toNat →
      innerLoop C E rem k st = .next st2 → InnerReach C E st0 (k + rem) st2 := by
  intro rem
  induction rem with
  | zero =>
    intro k st st2 hr _ h
    simp only [innerLoop] at h
    rw [← Flow.next.inj h]
    exact hr
  | succ rem ih =>
    intro k st st2 hr hk h
    unfold innerLoop at h
    cases hstep : innerStep C E k st with
    | next s1 =>
      rw [hstep] at h
      simp only [] at h
      have h1 := ih (k + 1) s1 st2 (.step k st s1 hr (by omega) hstep) (by omega) h
      have he : k + 1 + rem = k + (rem + 1) := by omega
      rw [he] at h1
      exact h1
    | brk s1 => rw [hstep] at h; simp at h
    | cleanup s1 => rw [hstep] at h; simp at h

/-- A shadow space loop left by a `break` has set `innerflag`. -/
theorem innerLoop_brk_innerflag (C : Collab K R) (E : IdrEnv K R) (rem k : Nat)
    (st : IdrState K R) :
    Flow.sat (fun _ => True) (fun s => s.innerflag = 1) (fun _ => True)
      (innerLoop C E rem k st) :=
  innerLoop_rule C E (J := fun _ => True) (fun k s _ => innerStep_brk_innerflag C E k s)
    rem k st trivial

/-- A pass of the do-while body that falls through has run all its inner steps and the
dimension-reduction step. -/
theorem iteration_next (C : Collab K R) (E : IdrEnv K R) (st0 st1 : IdrState K R)
    (h : iteration C E st0 = .next st1) :
    ∃ st2, InnerReach C E st0 E.s.toNat st2 ∧ st2.innerflag ≠ 1 ∧
      dimRedStep C E st2 = .next st1 := by
  unfold iteration at h
  have hb := innerLoop_brk_innerflag C E E.s.toNat 0 (cycleStart E st0)
  cases hin : innerLoop C E E.s.toNat 0 (cycleStart E st0) with
  | next s2 =>
    rw [hin] at h
    simp only [] at h
    have hr := innerLoop_next_reach C E st0 E.s.toNat 0 _ s2 .start (by omega) hin
    rw [Nat.zero_add] at hr
    by_cases hf : s2.innerflag = 1
    · rw [if_pos hf] at h; simp at h
    · rw [if_neg hf] at h; exact ⟨s2, hr, hf, h⟩
  | brk s2 =>
    rw [hin] at h hb
    simp only [] at h
    have hb1 : s2.innerflag = 1 := hb
    rw [if_pos hb1] at h
    simp at h
  | cleanup s2 => rw [hin] at h; simp at h

/-- The dimension-reduction step does not write `G`. -/
theorem dimRedStep_G (C : Collab K R) (E : IdrEnv K R) (st : IdrState K R) :
    (dimRedStep C E st).state.G = st.G := by
  unfold dimRedStep
  simp only []
  split_ifs
  · simp only [Flow.state, newOmega_G]
  · simp only [Flow.state, omegaUpdate_G, newOmega_G]
  · simp only [Flow.state, omegaUpdate_G, newOmega_G]

/-- After a complete pass every column of `G` is bi-orthogonal. -/
theorem iteration_next_bicol (C : Collab K R) (E : IdrEnv K R) (st0 st1 : IdrState K R)
    (h : iteration C E st0 = .next st1) : ∀ l, l < E.s.toNat → BiCol E l st1 := by
  obtain ⟨st2, hr, -, hd⟩ := iteration_next C E st0 st1 h
  have hbi := (reach_bicol C E st0 0 (fun l hl => by omega) _ st2 hr).1
  have hG := dimRedStep_G C E st2
  have hM := dimRedStep_M C E st2
  rw [hd] at hG hM
  intro l hl
  exact (hbi l (lt_max_iff.mpr (Or.inr hl))).transfer hG hM

/-- Sums over two indices may be exchanged. -/
theorem sumTo_comm (a b : Nat) (F : Nat → Nat → K) :
    sumTo a (fun i => sumTo b (fun l => F i l)) =
      sumTo b (fun l => sumTo a (fun i => F i l)) := by
  induction a with
  | zero => simp [sumTo, sumTo_zero]
  | succ a ih => simp only [sumTo, ih, sumTo_add]

/-- The product P(:,j)ᴴ·(w − G·c) for a block of `m` columns. -/
theorem pdot_gemv (E : IdrEnv K R) (j : Nat) (m : Int) (G : ColMat K) (c w : Vec K) :
    pdot E j (magmablas_zgemv_N E.A.num_cols m (-1) G c 1 w) =
      -sumTo m.toNat (fun l => c l * pdot E j (G l)) + pdot E j w := by
  have h1 : pdot E j (magmablas_zgemv_N E.A.num_cols m (-1) G c 1 w) =
      sumTo E.A.num_cols.toNat (fun i =>
        -sumTo m.toNat (fun l => c l * (star (E.P j i) * G l i)) + star (E.P j i) * w i) := by
    unfold pdot magma_zdotc
    apply sumTo_congr
    intro i hi
    have hi' : (i : Int) < E.A.num_cols := by omega
    simp only [magmablas_zgemv_N, if_pos hi']
    rw [mul_add, ← neg_one_mul (sumTo m.toNat _), ← sumTo_mul_left, ← sumTo_mul_left,
      ← sumTo_mul_left]
    congr 1
    · apply sumTo_congr
      intro l _
      ring
    · ring
  rw [h1, sumTo_add]
  congr 1
  have h2 : sumTo E.A.num_cols.toNat (fun i =>
      -sumTo m.toNat (fun l => c l * (star (E.P j i) * G l i))) =
      -sumTo E.A.num_cols.toNat (fun i =>
        sumTo m.toNat (fun l => c l * (star (E.P j i) * G l i))) := by
    rw [← neg_one_mul, ← sumTo_mul_left]
    apply sumTo_congr
    intro i _
    ring
  rw [h2, sumTo_comm]
  congr 1
  apply sumTo_congr
  intro l _
  unfold pdot magma_zdotc
  rw [sumTo_mul_left]

/-- C25: on an `n`-by-`n` system, in every pass of the do-while body that follows a
complete pass, at every inner step `k`: if the vector `c` returned by the dense solve
satisfies M(k:s,k:s)·c(k:s) = f(k:s), then v = r − G(:,k:s)·c(k:s) satisfies
P(:,j)ᴴ·v = 0 for every `j < s`. -/
theorem C25_v_orthogonal_to_P (C : Collab K R) (A : magma_z_matrix K)
    (b x : magma_z_vector K) (par : magma_z_solver_par R) (n : Nat)
    (hE : SquareSystem (idrEnv C A b x par) n) (st0 st1 : IdrState K R) (k : Nat)
    (st : IdrState K R)
    (hl : LoopReach C (idrEnv C A b x par) (idrInit C A b x par) st0)
    (hpass : iteration C (idrEnv C A b x par) st0 = .next st1)
    (hi : InnerReach C (idrEnv C A b x par) st1 k st)
    (hks : (k : Int) < (idrEnv C A b x par).s)
    (hsol : ∀ j, k ≤ j → (j : Int) < (idrEnv C A b x par).s →
      sumTo ((idrEnv C A b x par).s - (k : Int)).toNat (fun l =>
        st.M (k + l) j * (smallSolve C (idrEnv C A b x par) k st).2.c (k + l)) = st.f j) :
    ∀ j : Nat, (j : Int) < (idrEnv C A b x par).s →
      pdot (idrEnv C A b x par) j
        (residualProjection (idrEnv C A b x par) k
          (smallSolve C (idrEnv C A b x par) k st).2) = 0 := by
  generalize hEdef : idrEnv C A b x par = E at *
  have h0 : (idrInit C A b x par).innerflag = 0 ∧ LowerTri (idrInit C A b x par).M :=
    ⟨rfl, idrInit_lowerTri C A b x par⟩
  have hlt0 := loopReach_lowerTri C E _ h0 st0 hl
  have hlt1 := lowerTri_iteration C E st0 hlt0
  rw [hpass] at hlt1
  have hlt : LowerTri st.M := innerReach_lowerTri C E st1 hlt1.2 k st hi
  have hbi := (reach_bicol C E st1 E.s.toNat (iteration_next_bicol C E st0 st1 hpass)
    k st hi).1
  have hfo := reach_forth C E n hE st1 k st hi
  obtain ⟨h1, h2, h3, h4, h5⟩ := hE
  intro j hjs
  unfold residualProjection
  simp only [smallSolve_G, smallSolve_r]
  rw [pdot_gemv]
  have hr : pdot E j (magma_zcopy (E.b.num_rows * E.b.num_cols) st.r
      (smallSolve C E k st).2.v1) = pdot E j st.r := by
    apply pdot_congr
    intro i hin
    have hi' : (i : Int) < E.b.num_rows * E.b.num_cols := by rw [h3, h4, mul_one, ← h2]; exact hin
    simp only [magma_zcopy, if_pos hi']
  rw [hr]
  by_cases hkj : k ≤ j
  · have hsum : sumTo (E.s - (k : Int)).toNat (fun l =>
        ptr (smallSolve C E k st).2.c k l * pdot E j (cols st.G k l)) = st.f j := by
      rw [← hsol j hkj hjs]
      apply sumTo_congr
      intro l hl
      simp only [ptr, cols]
      have hcol := hbi (k + l) (lt_max_iff.mpr (Or.inl (by omega)))
      by_cases hlj : k + l ≤ j
      · rw [hcol.2 j hlj hjs]; ring
      · rw [hcol.1 j (by omega), hlt (k + l) j (by omega)]; ring
    rw [hsum, hfo.1 j hkj hjs]
    ring
  · have hsum : sumTo (E.s - (k : Int)).toNat (fun l =>
        ptr (smallSolve C E k st).2.c k l * pdot E j (cols st.G k l)) = 0 := by
      rw [← sumTo_zero (E.s - (k : Int)).toNat]
      apply sumTo_congr
      intro l hl
      simp only [ptr, cols]
      rw [(hbi (k + l) (lt_max_iff.mpr (Or.inl (by omega)))).1 j (by omega)]
      ring
    rw [hsum, hfo.2 j (by omega)]
    ring

/-! ## Counting steps and products with A -/

theorem innerStepSpmv_eq (C : Collab K R) (E : IdrEnv K R) (k : Nat) (st : IdrState K R) :
    innerStepSpmv C E k st = if (smallSolve C E k st).1 ≠ 0 then 0 else 1 := by
  unfold innerStepSpmv CHECK
  by_cases h : (smallSolve C E k st).1 = 0
  · simp [h]
  · simp [h]

/-- What an inner step does to the counter and to `innerflag`, and whether it multiplied
by `A`. -/
theorem innerStep_count (C : Collab K R) (E : IdrEnv K R) (k : Nat) (st : IdrState K R) :
    Flow.sat
      (fun s => s.numiter = st.numiter + 1 ∧ s.innerflag = st.innerflag ∧
        innerStepSpmv C E k st = 1)
      (fun s => s.numiter = st.numiter ∧ innerStepSpmv C E k st = 1)
      (fun s => s.numiter = st.numiter ∧ innerStepSpmv C E k st = 0)
      (innerStep C E k st) := by
  rw [innerStepSpmv_eq]
  apply innerStep_sat
  · intro h; exact ⟨rfl, by rw [if_pos h]⟩
  · intro h _; exact ⟨by simp, by simp [h]⟩
  · intro h _
    apply applyUpdate_sat
    · intro _; exact ⟨by simp, by simp [h]⟩
    · intro _; exact ⟨by simp, by simp, by simp [h]⟩

/-- The shadow space loop: the counter advances by the number of inner steps started,
less one when the loop is left from inside a step; every started step multiplied by `A`
except one that failed its CHECK. -/
theorem innerLoop_count (C : Collab K R) (E : IdrEnv K R) :
    ∀ rem k st,
      (innerLoop C E rem k st).state.numiter +
          (if (innerLoop C E rem k st).code = 0 then 0 else 1) =
        st.numiter + (innerLoopCount C E (fun _ _ => 1) rem k st : Int) ∧
      innerLoopCount C E (innerStepSpmv C E) rem k st +
          (if (innerLoop C E rem k st).code = 2 then 1 else 0) =
        innerLoopCount C E (fun _ _ => 1) rem k st ∧
      ((innerLoop C E rem k st).code = 0 →
        (innerLoop C E rem k st).state.innerflag = st.innerflag) := by
  intro rem
  induction rem with
  | zero => intro k st; simp [innerLoop, innerLoopCount, Flow.state, Flow.code]
  | succ rem ih =>
    intro k st
    have hs := innerStep_count C E k st
    unfold innerLoop innerLoopCount
    cases hstep : innerStep C E k st with
    | next s1 =>
      rw [hstep] at hs
      obtain ⟨h1, h2, h3⟩ := hs
      obtain ⟨i1, i2, i3⟩ := ih (k + 1) s1
      simp only []
      refine ⟨?_, ?_, ?_⟩
      · rw [i1, h1]; push_cast; ring
      · rw [h3, ← i2]; ring
      · intro hc; rw [i3 hc, h2]
    | brk s1 =>
      rw [hstep] at hs
      simp only [Flow.state, Flow.code]
      refine ⟨?_, ?_, fun hc => absurd hc (by decide)⟩
      · rw [hs.1]; simp
      · rw [hs.2]; simp
    | cleanup s1 =>
      rw [hstep] at hs
      simp only [Flow.state, Flow.code]
      refine ⟨?_, ?_, fun hc => absurd hc (by decide)⟩
      · rw [hs.1]; simp
      · rw [hs.2]; simp

/-- What the dimension-reduction step does to the counter and to `innerflag`. -/
theorem dimRedStep_count (C : Collab K R) (E : IdrEnv K R) (st : IdrState K R) :
    (dimRedStep C E st).state.numiter = st.numiter ∧
    (dimRedStep C E st).state.innerflag = st.innerflag ∧ (dimRedStep C E st).code ≠ 2 := by
  unfold dimRedStep
  simp only []
  split_ifs <;> simp [Flow.state, Flow.code]

/-- One pass of the do-while body entered with `innerflag` clear: the counter advances by
the number of steps started; every started step multiplied by `A` except one that failed
its CHECK. -/
theorem iteration_count (C : Collab K R) (E : IdrEnv K R) (st : IdrState K R)
    (hf : st.innerflag = 0) :
    (iteration C E st).state.numiter =
      st.numiter + (iterationCount C E (fun _ _ => 1) st : Int) ∧
    iterationCount C E (innerStepSpmv C E) st +
        (if (iteration C E st).code = 2 then 1 else 0) =
      iterationCount C E (fun _ _ => 1) st ∧
    ((iteration C E st).code = 0 → (iteration C E st).state.innerflag = 0) := by
  obtain ⟨i1, i2, i3⟩ := innerLoop_count C E E.s.toNat 0 (cycleStart E st)
  have hb := innerLoop_brk_innerflag C E E.s.toNat 0 (cycleStart E st)
  unfold iteration iterationCount
  cases hin : innerLoop C E E.s.toNat 0 (cycleStart E st) with
  | next s2 =>
    rw [hin] at i1 i2 i3
    have i4 : s2.innerflag = 0 := by
      have h := i3 rfl
      simp only [Flow.state, cycleStart_innerflag] at h
      rw [h, hf]
    simp only [Flow.state, Flow.code, if_true, cycleStart_numiter] at i1 i2
    have hf2 : ¬ s2.innerflag = 1 := by rw [i4]; decide
    obtain ⟨d1, d2, d3⟩ := dimRedStep_count C E s2
    simp only [if_neg hf2]
    refine ⟨?_, ?_, ?_⟩
    · rw [d1]; push_cast; omega
    · rw [if_neg d3]
      simp only [Nat.reduceEqDiff, if_false, add_zero] at i2
      omega
    · intro _; rw [d2, i4]
  | brk s2 =>
    rw [hin] at i1 i2 hb
    have hb1 : s2.innerflag = 1 := hb
    simp only [Flow.state, Flow.code, cycleStart_numiter] at i1 i2
    simp only [if_pos hb1, Flow.state, Flow.code]
    refine ⟨?_, ?_, fun hc => absurd hc (by decide)⟩
    · simp at i1; push_cast; omega
    · simp at i2; simp; omega
  | cleanup s2 =>
    rw [hin] at i1 i2
    simp only [Flow.state, Flow.code, cycleStart_numiter] at i1 i2
    simp only [Flow.state, Flow.code]
    refine ⟨?_, ?_, fun hc => absurd hc (by decide)⟩
    · simp at i1; push_cast; omega
    · simp at i2; simp; omega

/-- The do-while loop entered with `innerflag` clear: the counter advances by the number of
steps started inside the loop, and the number of products with `A` is that number, less
one when the loop is left by a failed CHECK. -/
theorem idrLoop_count (C : Collab K R) (E : IdrEnv K R) :
    ∀ fuel st out, st.innerflag = 0 → idrLoop C E fuel st = some out →
      out.state.numiter = st.numiter + (idrLoopSteps C E fuel st : Int) ∧
      idrLoopSpmv C E fuel st + (if out.code = 2 then 1 else 0) = idrLoopSteps C E fuel st := by
  intro fuel
  induction fuel with
  | zero => intro st out _ h; simp [idrLoop] at h
  | succ fuel ih =>
    intro st out hf h
    obtain ⟨i1, i2, i3⟩ := iteration_count C E st hf
    unfold idrLoopSteps idrLoopSpmv idrLoopCount
    unfold idrLoop at h
    cases hit : iteration C E st with
    | next s1 =>
      rw [hit] at h i1 i2 i3
      have i4 : s1.innerflag = 0 := i3 rfl
      simp only [Flow.state, Flow.code] at i1 i2
      simp only [] at h
      by_cases hc : s1.numiter + 1 ≤ E.maxiter
      · rw [if_pos hc] at h
        obtain ⟨j1, j2⟩ := ih s1 out i4 h
        simp only [idrLoopSteps, idrLoopSpmv] at j1 j2
        simp only [if_pos hc]
        refine ⟨?_, ?_⟩
        · rw [j1, i1]; push_cast; ring
        · simp at i2; omega
      · rw [if_neg hc] at h
        simp only [if_neg hc]
        rw [← Option.some.inj h]
        simp only [Flow.state, Flow.code]
        refine ⟨?_, ?_⟩
        · rw [i1]; simp
        · simp at i2; simp; omega
    | brk s1 =>
      rw [hit] at h i1 i2
      simp only [] at h
      rw [← Option.some.inj h]
      simp only [Flow.state, Flow.code] at i1 i2 ⊢
      refine ⟨?_, ?_⟩
      · rw [i1]; simp
      · simp at i2; simp; omega
    | cleanup s1 =>
      rw [hit] at h i1 i2
      simp only [] at h
      rw [← Option.some.inj h]
      simp only [Flow.state, Flow.code] at i1 i2 ⊢
      refine ⟨?_, ?_⟩
      · rw [i1]; simp
      · simp at i2; simp; omega

/-! ## The counter and the ways out of the loop -/

/-- Inner step `k` of a pass runs under the number `c + 1 + k`, where `c` is the counter
with which the pass was entered. -/
theorem reach_numiter (C : Collab K R) (E : IdrEnv K R) (st0 : IdrState K R) (k : Nat)
    (st : IdrState K R) (h : InnerReach C E st0 k st) :
    st.numiter = st0.numiter + 1 + k ∧ st.innerflag = st0.innerflag := by
  induction h with
  | start => simp
  | step k st st1 _ _ hstep ih =>
    have hs := innerStep_count C E k st
    rw [hstep] at hs
    refine ⟨?_, ?_⟩
    · rw [hs.1, ih.1]; push_cast; ring
    · rw [hs.2.1, ih.2]

/-- A complete pass advances the counter by `s + 1`; its dimension-reduction step runs
under the last of these numbers. -/
theorem iteration_next_count (C : Collab K R) (E : IdrEnv K R) (st0 st1 : IdrState K R)
    (h : iteration C E st0 = .next st1) :
    ∃ st2, InnerReach C E st0 E.s.toNat st2 ∧ dimRedStep C E st2 = .next st1 ∧
      st2.numiter = st0.numiter + 1 + E.s.toNat ∧ st1.numiter = st0.numiter + 1 + E.s.toNat := by
  obtain ⟨st2, hr, -, hd⟩ := iteration_next C E st0 st1 h
  have h2 := (reach_numiter C E st0 _ st2 hr).1
  have h3 := (dimRedStep_count C E st2).1
  rw [hd] at h3
  exact ⟨st2, hr, hd, h2, by rw [← h2]; exact h3⟩

/-- The body of the loop is entered with a counter that is a multiple of `s + 1` above the
one the loop was entered with. -/
theorem loopReach_numiter (C : Collab K R) (E : IdrEnv K R) (st0 st : IdrState K R)
    (h : LoopReach C E st0 st) :
    ∃ j : Nat, st.numiter = st0.numiter + j * ((E.s.toNat : Int) + 1) := by
  induction h with
  | start => exact ⟨0, by simp⟩
  | pass st st1 _ hstep _ ih =>
    obtain ⟨j, hj⟩ := ih
    obtain ⟨_, _, _, _, h1⟩ := iteration_next_count C E st st1 hstep
    exact ⟨j + 1, by rw [h1, hj]; push_cast; ring⟩

/-- A step entered with the counter at or above the limit leaves the loop. -/
theorem innerStep_at_limit (C : Collab K R) (E : IdrEnv K R) (k : Nat) (st : IdrState K R)
    (h : st.numiter ≥ E.maxiter) : (innerStep C E k st).code ≠ 0 := by
  have hs : Flow.sat (fun _ => False) (fun _ => True) (fun _ => True) (innerStep C E k st) := by
    apply innerStep_sat
    · intro _; trivial
    · intro _ _; trivial
    · intro _ _
      apply applyUpdate_sat
      · intro _; trivial
      · intro hn; exact hn (Or.inr (by simpa using h))
  cases hstep : innerStep C E k st with
  | next s => rw [hstep] at hs; exact hs.elim
  | brk s => simp [Flow.code]
  | cleanup s => simp [Flow.code]

/-- A dimension-reduction step entered with the counter at or above the limit leaves the
loop. -/
theorem dimRedStep_at_limit (C : Collab K R) (E : IdrEnv K R) (st : IdrState K R)
    (h : st.numiter ≥ E.maxiter) : (dimRedStep C E st).code ≠ 0 := by
  have hs : Flow.sat (fun _ => False) (fun _ => True) (fun _ => True) (dimRedStep C E st) := by
    apply dimRedStep_sat
    · intro _; trivial
    · intro _ _; trivial
    · intro _ hn; exact hn (Or.inr h)
  cases hstep : dimRedStep C E st with
  | next s => rw [hstep] at hs; exact hs.elim
  | brk s => simp [Flow.code]
  | cleanup s => simp [Flow.code]

/-- A loop entered with counter 0 and `innerflag` clear is never left through its
while-condition, and the counter ends between 1 and `max 1 maxiter`. -/
theorem idrLoop_exit (C : Collab K R) (E : IdrEnv K R) (fuel : Nat) (st : IdrState K R)
    (out : Flow (IdrState K R)) (h0 : st.numiter = 0) (hflag : st.innerflag = 0)
    (h : idrLoop C E fuel st = some out) :
    out.code ≠ 0 ∧ 1 ≤ out.state.numiter ∧ out.state.numiter ≤ max 1 E.maxiter := by
  have hs : Flow.sat (fun _ => False)
      (fun s => 1 ≤ s.numiter ∧ s.numiter ≤ max 1 E.maxiter)
      (fun s => 1 ≤ s.numiter ∧ s.numiter ≤ max 1 E.maxiter) out := by
    refine idrLoop_rule C E
      (I := fun s => s.innerflag = 0 ∧ 0 ≤ s.numiter ∧ s.numiter + 1 ≤ max 1 E.maxiter)
      (N := fun s => s.innerflag = 0 ∧ 1 ≤ s.numiter ∧ s.numiter < E.maxiter)
      ?_ ?_ ?_ fuel st out ⟨hflag, by omega, by rw [h0]; simp⟩ h
    · intro s hI
      apply iteration_rule C E
        (I := fun s => s.innerflag = 0 ∧ 0 ≤ s.numiter ∧ s.numiter + 1 ≤ max 1 E.maxiter)
        (J := fun s => s.innerflag = 0 ∧ 1 ≤ s.numiter ∧ s.numiter ≤ max 1 E.maxiter)
      · intro s hs; exact hs.1
      · intro s ⟨a, d, e⟩
        exact ⟨by simpa using a, by simp; omega, by simpa using e⟩
      · intro k s ⟨a, d, e⟩
        apply innerStep_sat
        · intro _; exact ⟨by simpa using d, by simpa using e⟩
        · intro _ _; exact ⟨by simpa using d, by simpa using e⟩
        · intro _ _
          apply applyUpdate_sat
          · intro _; exact ⟨by simpa using d, by simpa using e⟩
          · intro hn
            rw [not_or, not_le, not_le] at hn
            obtain ⟨-, hn2⟩ := hn
            simp only [newDirection_numiter, smallSolve_numiter] at hn2
            refine ⟨by simpa using a, by simp; omega, ?_⟩
            simp only [newDirection_numiter, smallSolve_numiter]
            have := le_max_right 1 E.maxiter
            omega
      · intro s ⟨a, d, e⟩
        apply dimRedStep_sat
        · intro _; exact ⟨by simpa using d, by simpa using e⟩
        · intro _ _; exact ⟨by simpa using d, by simpa using e⟩
        · intro _ hn
          rw [not_or, not_le, not_le] at hn
          exact ⟨by simpa using a, by simpa using d, hn.2⟩
      · exact hI
    · intro s ⟨a, d, e⟩ hc
      have := le_max_right 1 E.maxiter
      exact ⟨a, by omega, by omega⟩
    · intro s ⟨a, d, e⟩ hc
      omega
  cases out with
  | next s => exact hs.elim
  | brk s => exact ⟨by simp [Flow.code], hs⟩
  | cleanup s => exact ⟨by simp [Flow.code], hs⟩

/-- The condition on `M` under which the dense solve of every inner step is handed a
nonsingular triangular block: zeros above the diagonal, no zero among the first `s`
diagonal entries. -/
theorem solve_ok_block (C : Collab K R) (E : IdrEnv K R) (hsolve : SolveOk C) (k : Nat)
    (st : IdrState K R) (hlt : LowerTri st.M) (hd : ∀ i : Nat, (i : Int) < E.s → st.M i i ≠ 0) :
    (smallSolve C E k st).1 = 0 := by
  unfold smallSolve
  simp only []
  apply hsolve
  · intro i j hij _
    exact hlt (k + j) (k + i) (by omega)
  · intro i hi
    exact hd (k + i) (by push_cast; omega)

/-- With a dense solve that keeps its contract, a loop entered with `M` lower triangular
and without zeros on its diagonal is never left by the failed CHECK of a dense solve. -/
theorem idrLoop_no_cleanup (C : Collab K R) (E : IdrEnv K R) (hsolve : SolveOk C)
    (fuel : Nat) (st : IdrState K R) (out : Flow (IdrState K R)) (hflag : st.innerflag = 0)
    (hlt : LowerTri st.M) (hd : ∀ i : Nat, (i : Int) < E.s → st.M i i ≠ 0)
    (h : idrLoop C E fuel st = some out) : out.code ≠ 2 := by
  have hs : Flow.sat (fun _ => True) (fun _ => True) (fun _ => False) out := by
    refine idrLoop_rule C E
      (I := fun s => s.innerflag = 0 ∧ LowerTri s.M ∧ ∀ i : Nat, (i : Int) < E.s → s.M i i ≠ 0)
      (N := fun s => s.innerflag = 0 ∧ LowerTri s.M ∧ ∀ i : Nat, (i : Int) < E.s → s.M i i ≠ 0)
      ?_ ?_ ?_ fuel st out ⟨hflag, hlt, hd⟩ h
    · intro s hI
      apply iteration_rule C E
        (I := fun s => s.innerflag = 0 ∧ LowerTri s.M ∧
          ∀ i : Nat, (i : Int) < E.s → s.M i i ≠ 0)
        (J := fun s => s.innerflag = 0 ∧ LowerTri s.M ∧
          ∀ i : Nat, (i : Int) < E.s → s.M i i ≠ 0)
      · intro s hs; exact hs.1
      · intro s ⟨a, d, e⟩
        exact ⟨by simpa using a, by simpa using d, by simpa using e⟩
      · intro k s ⟨a, d, e⟩
        apply innerStep_sat
        · intro hc; exact hc (solve_ok_block C E hsolve k s d e)
        · intro _ _; trivial
        · intro _ hmk
          apply applyUpdate_sat
          · intro _; trivial
          · intro _
            refine ⟨by simpa using a, ?_, ?_⟩
            · intro j i hij
              show (newDirection E k (smallSolve C E k s).2).M j i = 0
              rw [newDirection_M_other E k _ j i (by
                by_cases hj : j = k
                · exact Or.inr (Or.inl (by omega))
                · exact Or.inl hj), smallSolve_M]
              exact d j i hij
            · intro i hi
              show (newDirection E k (smallSolve C E k s).2).M i i ≠ 0
              by_cases hik : i = k
              · subst hik; exact hmk
              · rw [newDirection_M_other E k _ i i (Or.inl hik), smallSolve_M]
                exact e i hi
      · intro s ⟨a, d, e⟩
        apply dimRedStep_sat
        · intro _; trivial
        · intro _ _; trivial
        · intro _ _; exact ⟨by simpa using a, by simpa using d, by simpa using e⟩
      · exact hI
    · intro s hs _; exact hs
    · intro s _ _; trivial
  cases out with
  | next s => simp [Flow.code]
  | brk s => simp [Flow.code]
  | cleanup s => exact hs.elim

/-- The state in which the loop is entered has ones on the first `s` diagonal entries
of `M`. -/
theorem idrInit_diag (C : Collab K R) (A : magma_z_matrix K) (b x : magma_z_vector K)
    (par : magma_z_solver_par R) :
    ∀ i : Nat, (i : Int) < (idrEnv C A b x par).s → (idrInit C A b x par).M i i ≠ 0 := by
  intro i hi
  have h : (i = i ∧ (i : Int) < shadowSize par.restart A) := ⟨rfl, hi⟩
  show (if i = i ∧ (i : Int) < shadowSize par.restart A then (1 : K) else 0) ≠ 0
  rw [if_pos h]
  exact one_ne_zero

/-! ## Claims on the iteration counter -/

/-- C27: for a run on a square matrix with `|b| ≠ 0`, initial residual above the threshold
and `s ≥ 1`: the body of the loop is always entered with a counter that is a multiple of
`s + 1`; inner step `k` of a pass entered with counter `c` runs under the number
`c + 1 + k`; a complete pass ends with its dimension-reduction step under the number
`c + s + 1` and leaves the counter at `c + s + 1`; the iteration count the routine reports
is the number of steps started inside the loop; it is the number of products with `A`
performed inside the loop unless the loop is left by the failed CHECK of the dense solve,
whose step is counted without a product, where it is one more; and a dense solve that keeps
its contract never fails that CHECK. -/
theorem C27_count_is_operator_applications (C : Collab K R) (fuel : Nat)
    (A : magma_z_matrix K) (b x : magma_z_vector K) (par : magma_z_solver_par R)
    (res : IdrResult K R) (hsq : A.num_rows = A.num_cols)
    (hb : C.dznrm2 b.num_rows b.dval ≠ 0)
    (hinit : ¬ (idrInit C A b x par).nrmr ≤ (idrEnv C A b x par).tolb)
    (hs : 1 ≤ (idrEnv C A b x par).s)
    (hrun : magma_zidr_acc C fuel A b x par = some res) :
    (∀ st, LoopReach C (idrEnv C A b x par) (idrInit C A b x par) st →
      ∃ j : Nat, st.numiter = j * ((idrEnv C A b x par).s + 1)) ∧
    (∀ st k s, LoopReach C (idrEnv C A b x par) (idrInit C A b x par) st →
      InnerReach C (idrEnv C A b x par) st k s → s.numiter = st.numiter + 1 + k) ∧
    (∀ st st1, LoopReach C (idrEnv C A b x par) (idrInit C A b x par) st →
      iteration C (idrEnv C A b x par) st = .next st1 →
      ∃ st2, InnerReach C (idrEnv C A b x par) st (idrEnv C A b x par).s.toNat st2 ∧
        dimRedStep C (idrEnv C A b x par) st2 = .next st1 ∧
        st2.numiter = st.numiter + (idrEnv C A b x par).s + 1 ∧
        st1.numiter = st.numiter + (idrEnv C A b x par).s + 1) ∧
    ∃ out, idrLoop C (idrEnv C A b x par) fuel (idrInit C A b x par) = some out ∧
      res.par.numiter = idrLoopSteps C (idrEnv C A b x par) fuel (idrInit C A b x par) ∧
      (out.code ≠ 2 →
        res.par.numiter = idrLoopSpmv C (idrEnv C A b x par) fuel (idrInit C A b x par)) ∧
      (out.code = 2 →
        res.par.numiter =
          idrLoopSpmv C (idrEnv C A b x par) fuel (idrInit C A b x par) + 1) ∧
      (SolveOk C → out.code ≠ 2) := by
  have hsn : ((idrEnv C A b x par).s.toNat : Int) = (idrEnv C A b x par).s := by omega
  refine ⟨?_, ?_, ?_, ?_⟩
  · intro st hl
    obtain ⟨j, hj⟩ := loopReach_numiter C _ _ st hl
    refine ⟨j, ?_⟩
    rw [hj, hsn]
    show (0 : Int) + _ = _
    ring
  · intro st k s _ hi
    exact (reach_numiter C _ st k s hi).1
  · intro st st1 _ hit
    obtain ⟨st2, h1, h2, h3, h4⟩ := iteration_next_count C _ st st1 hit
    refine ⟨st2, h1, h2, ?_, ?_⟩
    · rw [h3, hsn]; ring
    · rw [h4, hsn]; ring
  · cases hloop : idrLoop C (idrEnv C A b x par) fuel (idrInit C A b x par) with
    | none => simp [magma_zidr_acc, hsq, hb, hinit, hloop] at hrun
    | some out =>
      have hcount := idrLoop_count C _ fuel _ out rfl hloop
      have hnc := fun hsolve : SolveOk C =>
        idrLoop_no_cleanup C _ hsolve fuel _ out rfl (idrInit_lowerTri C A b x par)
          (idrInit_diag C A b x par) hloop
      have hnum : res.par.numiter = out.state.numiter := by
        cases out with
        | next s =>
          simp [magma_zidr_acc, hsq, hb, hinit, hloop] at hrun
          rw [← hrun]; rfl
        | brk s =>
          simp [magma_zidr_acc, hsq, hb, hinit, hloop] at hrun
          rw [← hrun]; rfl
        | cleanup s =>
          simp [magma_zidr_acc, hsq, hb, hinit, hloop] at hrun
          rw [← hrun]; rfl
      obtain ⟨c1, c2⟩ := hcount
      have c3 : (idrInit C A b x par).numiter = 0 := rfl
      rw [c3] at c1
      refine ⟨out, rfl, by rw [hnum, c1]; simp, ?_, ?_, hnc⟩
      · intro h2
        rw [if_neg h2] at c2
        rw [hnum, c1]
        simp only [zero_add, Nat.cast_inj]
        omega
      · intro h2
        rw [if_pos h2] at c2
        rw [hnum, c1, ← c2]
        simp

/-- C28: with fuel above the effective limit `MIN (2 * A.num_cols) maxiter` the do-while
loop returns; it is never left through its while-condition; the counter it ends with is the
number of steps started, at least 1 and at most `max 1` of the effective limit; an inner or
dimension-reduction step entered with the counter at or above the limit leaves the loop; and
with a dense solve that keeps its contract the loop is left through a `break`. -/
theorem C28_loop_terminates (C : Collab K R) (fuel : Nat) (A : magma_z_matrix K)
    (b x : magma_z_vector K) (par : magma_z_solver_par R)
    (hfuel : (MIN (2 * A.num_cols) par.maxiter).toNat < fuel) :
    ∃ out, idrLoop C (idrEnv C A b x par) fuel (idrInit C A b x par) = some out ∧
      out.code ≠ 0 ∧
      out.state.numiter = idrLoopSteps C (idrEnv C A b x par) fuel (idrInit C A b x par) ∧
      1 ≤ out.state.numiter ∧
      out.state.numiter ≤ max 1 (MIN (2 * A.num_cols) par.maxiter) ∧
      (∀ k st, st.numiter ≥ MIN (2 * A.num_cols) par.maxiter →
        (innerStep C (idrEnv C A b x par) k st).code ≠ 0) ∧
      (∀ st, st.numiter ≥ MIN (2 * A.num_cols) par.maxiter →
        (dimRedStep C (idrEnv C A b x par) st).code ≠ 0) ∧
      (SolveOk C → out.code = 1) := by
  obtain ⟨out, hout⟩ := idrLoop_terminates C (idrEnv C A b x par) fuel (idrInit C A b x par)
    rfl (by
      show ((MIN (2 * A.num_cols) par.maxiter) - 0).toNat ≤ fuel
      omega) (by omega)
  obtain ⟨e1, e2, e3⟩ := idrLoop_exit C _ fuel _ out rfl rfl hout
  have hcount := (idrLoop_count C _ fuel _ out rfl hout).1
  refine ⟨out, hout, e1, ?_, e2, e3,
    fun k st h => innerStep_at_limit C _ k st h,
    fun st h => dimRedStep_at_limit C _ st h, ?_⟩
  · rw [hcount]
    show (0 : Int) + _ = _
    simp
  · intro hsolve
    have hnc := idrLoop_no_cleanup C _ hsolve fuel _ out rfl (idrInit_lowerTri C A b x par)
      (idrInit_diag C A b x par) hout
    cases out with
    | next s => exact absurd rfl e1
    | brk s => rfl
    | cleanup s => exact absurd rfl hnc

/-! ## Concrete runs for the claims on the inner steps and the counter -/

/-- An outcome of kind 0 falls through with the state it carries. -/
theorem next_of_code (o : Flow (IdrState ℚ ℚ)) (h : o.code = 0) : o = .next o.state := by
  cases o with
  | next s => rfl
  | brk s => simp [Flow.code] at h
  | cleanup s => simp [Flow.code] at h

theorem firstZeroPivot_zero (A : ColMat ℚ) (n : Nat) (h : ∀ i, i < n → A i i ≠ 0) :
    firstZeroPivot A n = 0 := by
  induction n with
  | zero => rfl
  | succ n ih =>
    simp only [firstZeroPivot, ih (fun i hi => h i (by omega)), ne_eq, not_true_eq_false,
      if_false, if_neg (h n (by omega))]

/-- The exact dense solve keeps its contract. -/
theorem exactCollab_solveOk (P1 : ColMat ℚ) : SolveOk (exactCollab P1) := by
  intro n nrhs M b _ hd
  show (lowerSolve n nrhs M b).1 = 0
  unfold lowerSolve
  rw [firstZeroPivot_zero M n.toNat (fun i hi => hd i (by omega))]
  simp

/-- C21, witness: A = [[2,1],[1,2]], b = (3,4), s = 2, P the unit vectors.  The first inner
step falls through; in the second, G(:,1) = A·U(:,1) = (7/10, 7/5) is corrected by
alpha = 7/100 to (0, 63/100), which is orthogonal to P(:,0). -/
theorem C21_biortho_zero_witness :
    (newDirection (runEnv 2) 1 (smallSolve runCollab (runEnv 2) 1 (runStep0 2)).2).G 1 1 =
      63 / 100 ∧
    pdot (runEnv 2) 0
      ((newDirection (runEnv 2) 1 (smallSolve runCollab (runEnv 2) 1 (runStep0 2)).2).G 1) = 0 :=
  ⟨by decide!,
   (C21_biortho_zero runCollab (runEnv 2) (runInit 2) 1 (runStep0 2)
    (.step 0 _ _ .start (by decide!) (next_of_code _ (by decide!))) (by decide!)).2 0
    (by decide)⟩

/-- C23, witness: the same run.  After the first inner step r = (0, 7/10) and
f(1) = 4 − (3/10)·11 = 7/10 = P(:,1)ᴴ·r. -/
theorem C23_f_update_witness :
    (runStep0 2).f 1 = 7 / 10 ∧ (runStep0 2).f 1 = pdot (runEnv 2) 1 (runStep0 2).r :=
  ⟨by decide!,
   (C23_f_update runCollab (runEnv 2) 2 ⟨rfl, rfl, rfl, rfl, rfl⟩ (runInit 2) 0
    (cycleStart (runEnv 2) (runInit 2)) (runStep0 2) .start (by decide!)
    (next_of_code _ (by decide!))).2.2.2 1 (by decide) (by decide!)⟩

/-- C24, witness: the same run, second inner step: after r −= beta·G(:,1) the residual is
orthogonal to P(:,0) and P(:,1). -/
theorem C24_residual_orth_witness :
    pdot (runEnv 2) 0
      (updateXR runCollab (runEnv 2) 1
        (newDirection (runEnv 2) 1 (smallSolve runCollab (runEnv 2) 1 (runStep0 2)).2)).r = 0 ∧
    pdot (runEnv 2) 1
      (updateXR runCollab (runEnv 2) 1
        (newDirection (runEnv 2) 1 (smallSolve runCollab (runEnv 2) 1 (runStep0 2)).2)).r = 0 :=
  have h := (C24_residual_orth runCollab (runEnv 2) 2 ⟨rfl, rfl, rfl, rfl, rfl⟩ (runInit 2) 1
    (runStep0 2) (.step 0 _ _ .start (by decide!) (next_of_code _ (by decide!)))
    (by decide!) (by decide!)).2
  ⟨h 0 (by decide), h 1 (by decide)⟩

/-- C22, witness: A = [[2,1],[1,2]], b = (3,4), s = 1: the loop is left by a `break` in
its second pass, and G(:,0) = A·U(:,0) holds in both rows of the state in which it is
left. -/
theorem C22_G_eq_AU_witness :
    (exitState (idrLoop runCollab (runEnv 1) 8 (runInit 1))).G 0 0 =
      matVec (mat22 2 1 1 2) ((exitState (idrLoop runCollab (runEnv 1) 8 (runInit 1))).U 0) 0 ∧
    (exitState (idrLoop runCollab (runEnv 1) 8 (runInit 1))).G 0 1 =
      matVec (mat22 2 1 1 2) ((exitState (idrLoop runCollab (runEnv 1) 8 (runInit 1))).U 0) 1 :=
  have h := (C22_G_eq_AU runCollab 8 (mat22 2 1 1 2) (vec2 3 4) (vec2 0 0) (parOf 100 1) 2
    ⟨rfl, rfl, rfl, rfl, rfl⟩).2.2.2.2 _ (exit_eq_brk _ (by decide!))
  ⟨h 0 0 (by decide), h 0 1 (by decide)⟩

/-- C25, witness: the same run.  The first pass is complete; at the inner step of the
second pass c(0) = f(0) / M(0,0) solves the 1-by-1 system and
v = r − c(0)·G(:,0) = (0, 623/1250) is orthogonal to P(:,0). -/
theorem C25_v_orthogonal_to_P_witness :
    residualProjection (runEnv 1) 0
      (smallSolve runCollab (runEnv 1) 0 (cycleStart (runEnv 1) (runPass1 1))).2 1 =
        623 / 1250 ∧
    pdot (runEnv 1) 0
      (residualProjection (runEnv 1) 0
        (smallSolve runCollab (runEnv 1) 0 (cycleStart (runEnv 1) (runPass1 1))).2) = 0 :=
  ⟨by decide!,
   C25_v_orthogonal_to_P runCollab (mat22 2 1 1 2) (vec2 3 4) (vec2 0 0) (parOf 100 1) 2
    ⟨rfl, rfl, rfl, rfl, rfl⟩ (runInit 1) (runPass1 1) 0
    (cycleStart (runEnv 1) (runPass1 1)) .start (next_of_code _ (by decide!)) .start
    (by decide!)
    (fun j _ hj => by
      have hj0 : j = 0 := by
        have h1 : (runEnv 1).s = 1 := by decide!
        have h2 : (j : Int) < 1 := h1 ▸ hj
        omega
      subst hj0
      decide!)
    0 (by decide!)⟩

/-- C27, witness: the same run.  The routine reports 3 iterations: the inner step and the
dimension-reduction step of the first pass and the inner step of the second pass, each
with one product with `A`. -/
theorem C27_count_is_operator_applications_witness :
    (resultOf (magma_zidr_acc runCollab 8 (mat22 2 1 1 2) (vec2 3 4) (vec2 0 0)
      (parOf 100 1))).par.numiter = 3 ∧
    ((resultOf (magma_zidr_acc runCollab 8 (mat22 2 1 1 2) (vec2 3 4) (vec2 0 0)
      (parOf 100 1))).par.numiter : Int) =
      idrLoopSpmv runCollab (runEnv 1) 8 (runInit 1) := by
  obtain ⟨out, -, -, h3, -, h5⟩ :=
    (C27_count_is_operator_applications runCollab 8 (mat22 2 1 1 2) (vec2 3 4) (vec2 0 0)
      (parOf 100 1) _ (by decide) (by decide!) (by decide!) (by decide!)
      (eq_some_resultOf _ (by decide!))).2.2.2
  exact ⟨by decide!, h3 (h5 (exactCollab_solveOk unitDraw))⟩

/-- C27, counterexample: A = [[2,1],[1,2]], b = (3,4), zero initial guess, s = 1, and a
dense solve that reports a singular pivot at the first inner step.  The counter was advanced
at the head of the loop body, the CHECK jumps to cleanup before the product G(:,0) = A·U(:,0):
the routine reports 1 iteration and the loop has performed no product with `A`. -/
theorem C27_counterexample :
    ∃ res, magma_zidr_acc (mockCollab unitDraw) 8 (mat22 2 1 1 2) (vec2 3 4) (vec2 0 0)
        (parOf 100 1) = some res ∧
      res.par.numiter = 1 ∧
      idrLoopSpmv (mockCollab unitDraw)
        (idrEnv (mockCollab unitDraw) (mat22 2 1 1 2) (vec2 3 4) (vec2 0 0) (parOf 100 1)) 8
        (idrInit (mockCollab unitDraw) (mat22 2 1 1 2) (vec2 3 4) (vec2 0 0) (parOf 100 1)) =
          0 := by
  refine ⟨_, eq_some_resultOf _ (by decide!), by decide!, by decide!⟩

/-- C28, counterexample: A = [[2,1],[1,2]], b = (3,4), zero initial guess, s = 2, and a
dense solve that reports a singular pivot at the 1-by-1 system of inner step 1.  The loop
is left in its first pass by the jump of the CHECK to the label cleanup: neither through a
`break` nor through its while-condition. -/
theorem C28_counterexample :
    (idrLoop (mockCollab unitDraw)
      (idrEnv (mockCollab unitDraw) (mat22 2 1 1 2) (vec2 3 4) (vec2 0 0) (parOf 100 2)) 8
      (idrInit (mockCollab unitDraw) (mat22 2 1 1 2) (vec2 3 4) (vec2 0 0) (parOf 100 2))).map
        (fun out => (out.code, out.state.numiter)) = some (2, 2) := by
  decide!

/-- C28, witness: the same run with fuel 8: the loop returns, left through a `break` with
the counter at 3. -/
theorem C28_loop_terminates_witness :
    ∃ out, idrLoop runCollab (runEnv 1) 8 (runInit 1) = some out ∧ out.code = 1 ∧
      out.state.numiter = 3 := by
  obtain ⟨out, h1, -, -, -, -, -, -, h2⟩ := C28_loop_terminates runCollab 8 (mat22 2 1 1 2)
    (vec2 3 4) (vec2 0 0) (parOf 100 1) (by decide)
  refine ⟨out, h1, h2 (exactCollab_solveOk unitDraw), ?_⟩
  have h3 : out.state = exitState (idrLoop runCollab (runEnv 1) 8 (runInit 1)) := by
    rw [show idrLoop runCollab (runEnv 1) 8 (runInit 1) = some out from h1]; rfl
  rw [h3]
  decide!

/-! ## The solver at s = 1 and the scalar recurrence -/

/-- At `s = 1` the dense solve of the inner step is the division `c = f / M`. -/
theorem sim_smallSolve (C : Collab K R) (E : IdrEnv K R) (hs : E.s = 1) (h1 : Solve1 C)
    (st : IdrState K R) (hm : st.M 0 0 ≠ 0) :
    (smallSolve C E 0 st).1 = 0 ∧ (smallSolve C E 0 st).2.c 0 = st.f 0 / st.M 0 0 := by
  have h := h1 E.b.num_cols (fun j => ptr (st.M (0 + j)) 0)
    (ptr (store st.c 0 (magma_zcopy 1 (ptr st.f 0) (ptr st.c 0))) 0)
    (by simpa [ptr] using hm)
  have hsk : E.s - ((0 : Nat) : Int) = 1 := by rw [hs]; simp
  unfold smallSolve
  simp only [hsk]
  refine ⟨h.1, ?_⟩
  simp only [store, Nat.lt_irrefl, if_false, Nat.sub_zero]
  rw [h.2]
  simp [ptr, store, magma_zcopy]

/-- At `s = 1` the inner step forms U = omega·(r − c·G) + c·U, G = A·U and M = Pᴴ·G. -/
theorem sim_newDirection (E : IdrEnv K R) (n : Nat) (hE : SquareSystem E n) (hs : E.s = 1)
    (st : IdrState K R) :
    (∀ i, i < n → (newDirection E 0 st).U 0 i =
      st.om * (st.r i - st.c 0 * st.G 0 i) + st.c 0 * st.U 0 i) ∧
    (∀ i, i < n → (newDirection E 0 st).G 0 i =
      matVec E.A (fun i => st.om * (st.r i - st.c 0 * st.G 0 i) + st.c 0 * st.U 0 i) i) ∧
    (newDirection E 0 st).M 0 0 = magma_zdotc n (E.P 0) ((newDirection E 0 st).G 0) := by
  obtain ⟨h1, h2, h3, h4, h5⟩ := hE
  have hsk : E.s - ((0 : Nat) : Int) = 1 := by rw [hs]; simp
  have hv : ∀ i, i < n →
      magmablas_zgemv_N E.A.num_cols (E.s - ((0 : Nat) : Int)) 1 (cols st.U 0) (ptr st.c 0) st.om
        (magmablas_zgemv_N E.A.num_cols (E.s - ((0 : Nat) : Int)) (-1) (cols st.G 0)
          (ptr st.c 0) 1 (magma_zcopy (E.b.num_rows * E.b.num_cols) st.r st.v1)) i =
      st.om * (st.r i - st.c 0 * st.G 0 i) + st.c 0 * st.U 0 i := by
    intro i hi
    have hi' : (i : Int) < n := by exact_mod_cast hi
    have hi2 : (i : Int) < (n : Int) * 1 := by simpa using hi'
    simp only [magmablas_zgemv_N, h2, hi', if_true, hsk, Int.toNat_one, sumTo, cols, ptr,
      magma_zcopy, h3, h4, hi2]
    ring
  refine ⟨?_, ?_, ?_⟩
  · intro i hi
    have hi' : (i : Int) < n := by exact_mod_cast hi
    unfold newDirection
    simp only [biortho, setCol, if_true, magma_zcopy, h2, hi']
    rw [← h2]
    exact hv i hi
  · intro i hi
    have hi' : (i : Int) < n := by exact_mod_cast hi
    unfold newDirection
    simp only [biortho, setCol, if_true, magma_zcopy, h2, hi', magma_z_spmv, h1]
    rw [one_mul, zero_mul, add_zero]
    apply matVec_congr E.A n h2
    intro l hl
    rw [← h2]
    exact hv l hl
  · have h := newDirection_M_col E 0 st 0 le_rfl (by rw [hs]; decide)
    rw [h]
    unfold pdot
    rw [h2]

/-- One pass of the do-while body at `s = 1`, with the loops and tests unfolded. -/
theorem iteration_s1 (C : Collab K R) (E : IdrEnv K R) (hs : E.s = 1) (st : IdrState K R) :
    iteration C E st =
      if (smallSolve C E 0 (cycleStart E st)).1 ≠ 0 then
        .cleanup (smallSolve C E 0 (cycleStart E st)).2
      else if (newDirection E 0 (smallSolve C E 0 (cycleStart E st)).2).M 0 0 = 0 then
        .brk { newDirection E 0 (smallSolve C E 0 (cycleStart E st)).2 with
               info := MAGMA_DIVERGENCE, innerflag := 1 }
      else if (updateXR C E 0 (newDirection E 0 (smallSolve C E 0 (cycleStart E st)).2)).nrmr
          ≤ E.tolb ∨ st.numiter + 1 ≥ E.maxiter then
        .brk { updateXR C E 0 (newDirection E 0 (smallSolve C E 0 (cycleStart E st)).2) with
               innerflag := 1 }
      else if st.innerflag = 1 then
        .brk { updateXR C E 0 (newDirection E 0 (smallSolve C E 0 (cycleStart E st)).2) with
               f := updateF E 0 (newDirection E 0 (smallSolve C E 0 (cycleStart E st)).2),
               numiter := st.numiter + 1 + 1 }
      else
        dimRedStep C E
          { updateXR C E 0 (newDirection E 0 (smallSolve C E 0 (cycleStart E st)).2) with
            f := updateF E 0 (newDirection E 0 (smallSolve C E 0 (cycleStart E st)).2),
            numiter := st.numiter + 1 + 1 } := by
  have hs1 : E.s.toNat = 1 := by rw [hs]; rfl
  unfold iteration
  rw [hs1]
  unfold innerLoop
  rw [innerStep_eq]
  by_cases h1 : (smallSolve C E 0 (cycleStart E st)).1 ≠ 0
  · simp only [if_pos h1]
  · simp only [if_neg h1]
    by_cases h2 : (newDirection E 0 (smallSolve C E 0 (cycleStart E st)).2).M 0 0 = 0
    · simp only [if_pos h2, if_true]
    · simp only [if_neg h2]
      unfold applyUpdate
      simp only [updateXR_numiter, newDirection_numiter, smallSolve_numiter,
        cycleStart_numiter]
      by_cases h3 : (updateXR C E 0
          (newDirection E 0 (smallSolve C E 0 (cycleStart E st)).2)).nrmr ≤ E.tolb ∨
          st.numiter + 1 ≥ E.maxiter
      · simp only [if_pos h3, if_true]
      · simp only [if_neg h3, innerLoop, updateXR_innerflag, newDirection_innerflag,
          smallSolve_innerflag, cycleStart_innerflag]

/-- An update y += a·u on the first `n` entries only reads the first `n` entries of `u`. -/
theorem magma_zaxpy_congr (n : Nat) (a : K) (u u1 w : Vec K) (h : ∀ i, i < n → u i = u1 i) :
    magma_zaxpy n a u w = magma_zaxpy n a u1 w := by
  funext i
  by_cases hi : (i : Int) < n
  · simp only [magma_zaxpy, if_pos hi]
    rw [h i (by exact_mod_cast hi)]
  · simp only [magma_zaxpy, if_neg hi]

/-- The update of `x` and `r` of the inner step at `s = 1`, in terms of the new columns. -/
theorem sim_updateXR (C : Collab K R) (E : IdrEnv K R) (n : Nat) (hE : SquareSystem E n)
    (st : IdrState K R) :
    (updateXR C E 0 st).x = magma_zaxpy n (st.f 0 / st.M 0 0) (st.U 0) st.x ∧
    (updateXR C E 0 st).r = magma_zaxpy n (-(st.f 0 / st.M 0 0)) (st.G 0) st.r ∧
    (updateXR C E 0 st).nrmr =
      C.dznrm2 n (magma_zaxpy n (-(st.f 0 / st.M 0 0)) (st.G 0) st.r) := by
  obtain ⟨h1, h2, h3, h4, h5⟩ := hE
  simp only [updateXR, stepBeta, h3, h4, h5, mul_one, and_self]

/-- The dimension-reduction step on an `n`-by-`n` system, in terms of `r` alone. -/
theorem sim_dimRed (C : Collab K R) (E : IdrEnv K R) (n : Nat) (hE : SquareSystem E n)
    (st : IdrState K R) :
    (newOmega C E st).om = idr1Omega C n (matVec E.A st.r) st.r st.nrmr ∧
    (omegaUpdate C E (newOmega C E st)).x =
      magma_zaxpy n (newOmega C E st).om st.r st.x ∧
    (omegaUpdate C E (newOmega C E st)).r =
      magma_zaxpy n (-(newOmega C E st).om) (matVec E.A st.r) st.r ∧
    (omegaUpdate C E (newOmega C E st)).nrmr =
      C.dznrm2 n (magma_zaxpy n (-(newOmega C E st).om) (matVec E.A st.r) st.r) := by
  have hvt := newOmega_v_t C E n hE st
  obtain ⟨h1, h2, h3, h4, h5⟩ := hE
  have hx : (omegaUpdate C E (newOmega C E st)).x =
      magma_zaxpy n (newOmega C E st).om st.r st.x := by
    simp only [omegaUpdate, h5, newOmega_x]
    exact magma_zaxpy_congr n _ _ _ _ (fun i hi => (hvt i hi).1)
  have hr : (omegaUpdate C E (newOmega C E st)).r =
      magma_zaxpy n (-(newOmega C E st).om) (matVec E.A st.r) st.r := by
    simp only [omegaUpdate, h3, newOmega_r]
    exact magma_zaxpy_congr n _ _ _ _ (fun i hi => (hvt i hi).2)
  refine ⟨?_, hx, hr, ?_⟩
  · have ht : ∀ i, i < n → magma_z_spmv 1 E.A
        (magma_zcopy (E.b.num_rows * E.b.num_cols) st.r st.v) 0 st.t i = matVec E.A st.r i :=
      fun i hi => (hvt i hi).2
    have hdof : E.A.num_rows * E.b.num_cols = (n : Int) := by rw [h1, h4, mul_one]
    have htt := magma_zdotc_congr n _ _ _ _ ht ht
    have htr := magma_zdotc_congr n _ st.r _ st.r ht (fun _ _ => rfl)
    simp only [newOmega, magma_zmdotc, hdof, htt, htr, idr1Omega]
  · rw [← hr]
    simp only [omegaUpdate, h3, h4, mul_one]

/-- At `s = 1` one pass of the do-while body and one cycle of the scalar recurrence, started
in agreeing states, end the same way: both fall through in agreeing states, or both
`break` with the same `x`, `r` and counter. -/
theorem sim_iteration (C : Collab K R) (E : IdrEnv K R) (n : Nat) (hE : SquareSystem E n)
    (hs : E.s = 1) (h1 : Solve1 C) (st : IdrState K R) (st1 : Idr1State K R)
    (hsim : Sim n st st1) :
    match iteration C E st, idr1Cycle C E.A n (E.P 0) E.tolb E.maxiter st1 with
    | .next s, .next s1 => Sim n s s1
    | .brk s, .brk s1 => s.x = s1.x ∧ s.r = s1.r ∧ s.numiter = s1.numiter
    | _, _ => False := by
  obtain ⟨hx, hr, hU, hG, hM, hm0, hom, hnr, hni, hfl⟩ := hsim
  have hE0 := hE
  obtain ⟨e1, e2, e3, e4, e5⟩ := hE
  -- the head of the pass and the dense solve
  have hf : (cycleStart E st).f 0 = magma_zdotc n (E.P 0) st1.r := by
    have h0 : (((0 : Nat) : Int) < E.s) := by rw [hs]; decide
    simp only [cycleStart, magmablas_zgemv_C, if_pos h0, magma_zdotc, e2, hr]
    ring
  have hso := sim_smallSolve C E hs h1 (cycleStart E st)
    (by rw [cycleStart_M, hM]; exact hm0)
  have hc : (smallSolve C E 0 (cycleStart E st)).2.c 0 =
      magma_zdotc n (E.P 0) st1.r / st1.m := by
    rw [hso.2, hf, cycleStart_M, hM]
  have hnd := sim_newDirection E n hE0 hs (smallSolve C E 0 (cycleStart E st)).2
  -- the new columns
  have hU1 : ∀ i, i < n →
      (newDirection E 0 (smallSolve C E 0 (cycleStart E st)).2).U 0 i =
        st1.om * (st1.r i - magma_zdotc n (E.P 0) st1.r / st1.m * st1.g i) +
          magma_zdotc n (E.P 0) st1.r / st1.m * st1.u i := by
    intro i hi
    rw [hnd.1 i hi, hc]
    simp only [smallSolve_om, smallSolve_r, smallSolve_G, smallSolve_U, cycleStart_om,
      cycleStart_r, cycleStart_G, cycleStart_U, hom, hr, hU i hi, hG i hi]
  have hG1 : ∀ i, i < n →
      (newDirection E 0 (smallSolve C E 0 (cycleStart E st)).2).G 0 i =
        matVec E.A (fun i =>
          st1.om * (st1.r i - magma_zdotc n (E.P 0) st1.r / st1.m * st1.g i) +
            magma_zdotc n (E.P 0) st1.r / st1.m * st1.u i) i := by
    intro i hi
    rw [hnd.2.1 i hi]
    apply matVec_congr E.A n e2
    intro l hl
    rw [hc]
    simp only [smallSolve_om, smallSolve_r, smallSolve_G, smallSolve_U, cycleStart_om,
      cycleStart_r, cycleStart_G, cycleStart_U, hom, hr, hU l hl, hG l hl]
  have hM1 : (newDirection E 0 (smallSolve C E 0 (cycleStart E st)).2).M 0 0 =
      magma_zdotc n (E.P 0) (matVec E.A (fun i =>
          st1.om * (st1.r i - magma_zdotc n (E.P 0) st1.r / st1.m * st1.g i) +
            magma_zdotc n (E.P 0) st1.r / st1.m * st1.u i)) := by
    rw [hnd.2.2]
    exact magma_zdotc_congr n _ _ _ _ (fun _ _ => rfl) hG1
  have hf1 : (newDirection E 0 (smallSolve C E 0 (cycleStart E st)).2).f 0 =
      magma_zdotc n (E.P 0) st1.r := by
    rw [newDirection_f, smallSolve_f, hf]
  -- the update of x and r
  obtain ⟨ux, ur, un⟩ := sim_updateXR C E n hE0
    (newDirection E 0 (smallSolve C E 0 (cycleStart E st)).2)
  rw [hf1, hM1, magma_zaxpy_congr n _ _ _ _ hU1, newDirection_x, smallSolve_x, cycleStart_x,
    hx] at ux
  rw [hf1, hM1, magma_zaxpy_congr n _ _ _ _ hG1, newDirection_r, smallSolve_r, cycleStart_r,
    hr] at ur un
  -- the dimension-reduction step
  have hfl1 : ¬ st.innerflag = 1 := by rw [hfl]; decide
  rw [iteration_s1 C E hs]
  obtain ⟨s2, hs2⟩ : ∃ s2 : IdrState K R, s2 =
      { updateXR C E 0 (newDirection E 0 (smallSolve C E 0 (cycleStart E st)).2) with
        f := updateF E 0 (newDirection E 0 (smallSolve C E 0 (cycleStart E st)).2),
        numiter := st.numiter + 1 + 1 } := ⟨_, rfl⟩
  rw [← hs2]
  have s2x := (show s2.x = (updateXR C E 0 (newDirection E 0 (smallSolve C E 0 (cycleStart E st)).2)).x by rw [hs2]).trans ux
  have s2r := (show s2.r = (updateXR C E 0 (newDirection E 0 (smallSolve C E 0 (cycleStart E st)).2)).r by rw [hs2]).trans ur
  have s2n := (show s2.nrmr = (updateXR C E 0 (newDirection E 0 (smallSolve C E 0 (cycleStart E st)).2)).nrmr by rw [hs2]).trans un
  have s2U := fun i hi => (show s2.U 0 i = (newDirection E 0 (smallSolve C E 0 (cycleStart E st)).2).U 0 i by rw [hs2]; rfl).trans (hU1 i hi)
  have s2G := fun i hi => (show s2.G 0 i = (newDirection E 0 (smallSolve C E 0 (cycleStart E st)).2).G 0 i by rw [hs2]; rfl).trans (hG1 i hi)
  have s2M := (show s2.M 0 0 = (newDirection E 0 (smallSolve C E 0 (cycleStart E st)).2).M 0 0 by rw [hs2]; rfl).trans hM1
  have s2i : s2.numiter = st1.numiter + 1 + 1 := by rw [hs2, ← hni]
  have s2f : s2.innerflag = 0 := by rw [hs2]; simpa using hfl
  obtain ⟨d1, d2, d3, d4⟩ := sim_dimRed C E n hE0 s2
  rw [s2r, s2n] at d1
  rw [d1, s2r, s2x] at d2
  rw [d1, s2r] at d3 d4
  unfold idr1Cycle dimRedStep
  simp only [omegaUpdate_numiter, newOmega_numiter]
  simp only [if_neg (not_not.mpr hso.1), if_neg hfl1, hM1, un, hni, d1, d4, s2i]
  split_ifs with c1 c2 c3 c4
  · exact ⟨by simp [hx], by simp [hr], by simp [hni]⟩
  · exact ⟨ux, ur, by simp [hni]⟩
  · exact ⟨s2x, s2r, by simp only [newOmega_numiter]⟩
  · exact ⟨d2, d3, s2i⟩
  · exact ⟨d2, d3, fun i hi => s2U i hi, fun i hi => s2G i hi, s2M, c1, d1, d4, s2i, s2f⟩

/-- At `s = 1` the do-while loop and the scalar recurrence, started in agreeing states
with the same fuel, end the same way. -/
theorem sim_loop (C : Collab K R) (E : IdrEnv K R) (n : Nat) (hE : SquareSystem E n)
    (hs : E.s = 1) (h1 : Solve1 C) :
    ∀ fuel (st : IdrState K R) (st1 : Idr1State K R), Sim n st st1 →
      SameOutcome (idrLoop C E fuel st)
        (idr1Loop C E.A n (E.P 0) E.tolb E.maxiter fuel st1) := by
  intro fuel
  induction fuel with
  | zero => intro st st1 _; simp [idrLoop, idr1Loop, SameOutcome]
  | succ fuel ih =>
    intro st st1 hsim
    have h := sim_iteration C E n hE hs h1 st st1 hsim
    unfold idrLoop idr1Loop
    cases hit : iteration C E st with
    | next s =>
      cases hc : idr1Cycle C E.A n (E.P 0) E.tolb E.maxiter st1 with
      | next s1 =>
        rw [hit, hc] at h
        have hnum : s.numiter = s1.numiter := h.2.2.2.2.2.2.2.2.1
        simp only [hnum]
        by_cases hcond : s1.numiter + 1 ≤ E.maxiter
        · simp only [if_pos hcond]
          exact ih s s1 h
        · simp only [if_neg hcond]
          exact ⟨rfl, h.1, h.2.1, hnum⟩
      | brk s1 => rw [hit, hc] at h; exact h.elim
      | cleanup s1 => rw [hit, hc] at h; exact h.elim
    | brk s =>
      cases hc : idr1Cycle C E.A n (E.P 0) E.tolb E.maxiter st1 with
      | next s1 => rw [hit, hc] at h; exact h.elim
      | brk s1 => rw [hit, hc] at h; exact ⟨rfl, h.1, h.2.1, h.2.2⟩
      | cleanup s1 => rw [hit, hc] at h; exact h.elim
    | cleanup s =>
      rw [hit] at h
      cases hc : idr1Cycle C E.A n (E.P 0) E.tolb E.maxiter st1 with
      | next s1 => rw [hc] at h; exact h.elim
      | brk s1 => rw [hc] at h; exact h.elim
      | cleanup s1 => rw [hc] at h; exact h.elim

/-- The states in which the loop and the scalar recurrence are entered agree. -/
theorem sim_init (C : Collab K R) (A : magma_z_matrix K) (b x : magma_z_vector K)
    (par : magma_z_solver_par R) (n : Nat) (hs : (idrEnv C A b x par).s = 1) :
    Sim n (idrInit C A b x par) (idr1Init C A b x) := by
  have hs1 : shadowSize par.restart A = 1 := hs
  have hM : (idrInit C A b x par).M 0 0 = 1 := by
    have h : (0 = 0 ∧ ((0 : Nat) : Int) < shadowSize par.restart A) := ⟨rfl, by rw [hs1]; decide⟩
    show (if 0 = 0 ∧ ((0 : Nat) : Int) < shadowSize par.restart A then (1 : K) else 0) = 1
    rw [if_pos h]
  exact ⟨rfl, rfl, fun _ _ => rfl, fun _ _ => rfl, hM, one_ne_zero, rfl, rfl, rfl, rfl⟩

/-- C26: on an `n`-by-`n` system with shadow space size `s = 1` and a dense solve that
divides on 1-by-1 systems: the only inner step is `k = 0` and its bi-orthogonalization loop
runs no pass; one pass of the do-while body and one cycle of the scalar IDR(1) recurrence
(c = f/M, U = omega·(r − c·G) + c·U, G = A·U, M = Pᴴ·G, beta = f/M, x += beta·U,
r −= beta·G, then one dimension-reduction step), started in agreeing states, both fall
through in agreeing states or both stop with the same `x`, `r` and counter; and the loop of
the solver and the scalar recurrence, run from the initial state with the same fuel, end the
same way with the same `x`, `r` and iteration counter. -/
theorem C26_s1_is_scalar_idr1 (C : Collab K R) (fuel : Nat) (A : magma_z_matrix K)
    (b x : magma_z_vector K) (par : magma_z_solver_par R) (n : Nat)
    (hE : SquareSystem (idrEnv C A b x par) n) (hs : (idrEnv C A b x par).s = 1)
    (h1 : Solve1 C) :
    (∀ (k : Nat) (st : IdrState K R), (k : Int) < (idrEnv C A b x par).s →
      k = 0 ∧ biortho (idrEnv C A b x par) k k st = st) ∧
    (∀ st st1, Sim n st st1 →
      match iteration C (idrEnv C A b x par) st,
        idr1Cycle C A n ((idrEnv C A b x par).P 0) (idrEnv C A b x par).tolb
          (idrEnv C A b x par).maxiter st1 with
      | .next s, .next s1 => Sim n s s1
      | .brk s, .brk s1 => s.x = s1.x ∧ s.r = s1.r ∧ s.numiter = s1.numiter
      | _, _ => False) ∧
    SameOutcome (idrLoop C (idrEnv C A b x par) fuel (idrInit C A b x par))
      (idr1Loop C A n ((idrEnv C A b x par).P 0) (idrEnv C A b x par).tolb
        (idrEnv C A b x par).maxiter fuel (idr1Init C A b x)) := by
  refine ⟨?_, ?_, ?_⟩
  · intro k st hk
    have hk0 : k = 0 := by rw [hs] at hk; omega
    subst hk0
    exact ⟨rfl, rfl⟩
  · exact fun st st1 hsim => sim_iteration C _ n hE hs h1 st st1 hsim
  · exact sim_loop C _ n hE hs h1 fuel _ _ (sim_init C A b x par n hs)

/-! ## Algebra of the conjugate inner product -/

theorem dotc_add_right (n : Nat) (x y z : Vec K) :
    magma_zdotc n x (fun i => y i + z i) = magma_zdotc n x y + magma_zdotc n x z := by
  unfold magma_zdotc
  rw [← sumTo_add]
  apply sumTo_congr
  intro i _
  ring

theorem dotc_smul_right (n : Nat) (c : K) (x y : Vec K) :
    magma_zdotc n x (fun i => c * y i) = c * magma_zdotc n x y := by
  unfold magma_zdotc
  rw [← sumTo_mul_left]
  apply sumTo_congr
  intro i _
  ring

theorem dotc_add_left (n : Nat) (x y z : Vec K) :
    magma_zdotc n (fun i => x i + y i) z = magma_zdotc n x z + magma_zdotc n y z := by
  unfold magma_zdotc
  rw [← sumTo_add]
  apply sumTo_congr
  intro i _
  rw [star_add]
  ring

theorem dotc_smul_left (n : Nat) (c : K) (x y : Vec K) :
    magma_zdotc n (fun i => c * x i) y = star c * magma_zdotc n x y := by
  unfold magma_zdotc
  rw [← sumTo_mul_left]
  apply sumTo_congr
  intro i _
  rw [star_mul']
  ring

theorem star_sumTo (n : Nat) (f : Nat → K) :
    star (sumTo n f) = sumTo n (fun i => star (f i)) := by
  induction n with
  | zero => simp [sumTo]
  | succ n ih => simp only [sumTo, star_add, ih]

/-- The conjugate of ⟨x,y⟩ is ⟨y,x⟩. -/
theorem dotc_star (n : Nat) (x y : Vec K) :
    star (magma_zdotc n x y) = magma_zdotc n y x := by
  unfold magma_zdotc
  rw [star_sumTo]
  apply sumTo_congr
  intro i _
  rw [star_mul', star_star]
  ring

/-- Expansion of ⟨a + c·t, a + c·t⟩ when `t` is orthogonal to `a`. -/
theorem dotc_shift (n : Nat) (c : K) (a t : Vec K) (h : magma_zdotc n t a = 0) :
    magma_zdotc n (fun i => a i + c * t i) (fun i => a i + c * t i) =
      magma_zdotc n a a + star c * c * magma_zdotc n t t := by
  have h2 : magma_zdotc n a t = 0 := by rw [← dotc_star, h, star_zero]
  rw [dotc_add_right, dotc_add_left, dotc_add_left, dotc_smul_right, dotc_smul_left,
    dotc_smul_right, dotc_smul_left, h, h2]
  ring

/-- The exact dense solve divides on 1-by-1 systems with nonzero coefficient. -/
theorem exactCollab_solve1 (P1 : ColMat ℚ) : Solve1 (exactCollab P1) := by
  intro nrhs M b hM
  show (lowerSolve 1 nrhs M b).1 = 0 ∧ (lowerSolve 1 nrhs M b).2 0 = b 0 / M 0 0
  have h1 : (1 : Int).toNat = 1 := rfl
  simp [lowerSolve, h1, firstZeroPivot, forwardSubst, sumTo, hM]

/-- C26, witness: A = [[2,1],[1,2]], b = (3,4), s = 1.  The scalar recurrence stops in its
second cycle, at the third step, with x = (2/3, 5/3), and the loop of the solver ends the
same way. -/
theorem C26_s1_is_scalar_idr1_witness :
    (idr1Loop runCollab (mat22 2 1 1 2) 2 ((runEnv 1).P 0) (runEnv 1).tolb (runEnv 1).maxiter 8
        (idr1Init runCollab (mat22 2 1 1 2) (vec2 3 4) (vec2 0 0))).map
      (fun out => (out.code, out.state.numiter, out.state.x 0, out.state.x 1)) =
        some (1, 3, 2 / 3, 5 / 3) ∧
    SameOutcome (idrLoop runCollab (runEnv 1) 8 (runInit 1))
      (idr1Loop runCollab (mat22 2 1 1 2) 2 ((runEnv 1).P 0) (runEnv 1).tolb (runEnv 1).maxiter 8
        (idr1Init runCollab (mat22 2 1 1 2) (vec2 3 4) (vec2 0 0))) :=
  ⟨by decide!,
   (C26_s1_is_scalar_idr1 runCollab 8 (mat22 2 1 1 2) (vec2 3 4) (vec2 0 0) (parOf 100 1) 2
    ⟨rfl, rfl, rfl, rfl, rfl⟩ (by decide!) (exactCollab_solve1 unitDraw)).2.2⟩

end Properties

end Idr

/-! # Properties of magma_zgetrf2 -/

namespace Getrf

/-- C20: `magma_zgetrf2` checks its arguments in order and returns before any routine
receives `a` or `ipiv`: `-1` if `m < 0`, otherwise `-2` if `n < 0`, otherwise `-4` if
`lda < max(1,m)`; with valid arguments and `m = 0` or `n = 0` it returns `0`.  In all four
cases the memory of the call (the arrays `a`, `ipiv` and the device buffer) is returned as
it was received, whatever the external routines do. -/
theorem C20_argument_checks {μ : Type} (O : GetrfOps μ) (m n lda : Int) (mem : μ) :
    (m < 0 → magma_zgetrf2 O m n lda mem = (mem, -1)) ∧
    (0 ≤ m → n < 0 → magma_zgetrf2 O m n lda mem = (mem, -2)) ∧
    (0 ≤ m → 0 ≤ n → lda < max 1 m → magma_zgetrf2 O m n lda mem = (mem, -4)) ∧
    (0 ≤ m → 0 ≤ n → max 1 m ≤ lda → (m = 0 ∨ n = 0) →
      magma_zgetrf2 O m n lda mem = (mem, 0)) := by
  refine ⟨fun h1 => ?_, fun h1 h2 => ?_, fun h1 h2 h3 => ?_, fun h1 h2 h3 h4 => ?_⟩
  · simp [magma_zgetrf2, h1]
  · simp [magma_zgetrf2, not_lt.mpr h1, h2]
  · simp [magma_zgetrf2, not_lt.mpr h1, not_lt.mpr h2, h3]
  · have h3' : ¬ lda < max 1 m := not_lt.mpr h3
    simp [magma_zgetrf2, not_lt.mpr h1, not_lt.mpr h2, h3', h4]

/-- C20, witness: the four early returns on the recording operations, where an empty
record shows that no routine received `a` or `ipiv`; a 5-by-5 call with valid arguments
does reach them. -/
theorem C20_argument_checks_witness :
    magma_zgetrf2 traceOps (-1) (-5) 0 [] = ([], -1) ∧
    magma_zgetrf2 traceOps 3 (-5) 0 [] = ([], -2) ∧
    magma_zgetrf2 traceOps 3 3 2 [] = ([], -4) ∧
    magma_zgetrf2 traceOps 0 3 1 [] = ([], 0) ∧
    magma_zgetrf2 traceOps 3 0 3 [] = ([], 0) ∧
    (magma_zgetrf2 traceOps 5 5 5 []).1 ≠ [] :=
  ⟨(C20_argument_checks traceOps (-1) (-5) 0 []).1 (by decide),
   (C20_argument_checks traceOps 3 (-5) 0 []).2.1 (by decide) (by decide),
   (C20_argument_checks traceOps 3 3 2 []).2.2.1 (by decide) (by decide) (by decide),
   (C20_argument_checks traceOps 0 3 1 []).2.2.2 (by decide) (by decide) (by decide)
     (Or.inl rfl),
   (C20_argument_checks traceOps 3 0 3 []).2.2.2 (by decide) (by decide) (by decide)
     (Or.inr rfl),
   by decide⟩

end Getrf

/-! # Properties of magma_zlahef_gpu -/

namespace Lahef

open Idr (ColMat sumTo)

set_option linter.unusedSectionVars false
set_option linter.unusedVariables false

section Properties

variable {K R : Type} [Field K] [StarRing K] [LinearOrderedField R]

/-- The pivot choice of lines 493-566 leaves `kstep` as it was or sets it to 2. -/
theorem choosePivot_kstep (C : LahefCollab K R) (n k : Int) (alpha abs_akk colmax : R)
    (st : LahefState K) :
    (choosePivot C n k alpha abs_akk colmax st).kstep = st.kstep ∨
      (choosePivot C n k alpha abs_akk colmax st).kstep = 2 := by
  unfold choosePivot
  simp only []
  split_ifs <;> simp

/-- The interchange does not assign `kstep`. -/
theorem interchange_kstep (n : Int) (st : LahefState K) :
    (interchange n st).kstep = st.kstep := by
  unfold interchange
  split_ifs <;> rfl

/-- Storing the pivot block does not assign `kstep`. -/
theorem storeBlock_kstep (C : LahefCollab K R) (n k : Int) (st : LahefState K) :
    (storeBlock C n k st).kstep = st.kstep := by
  unfold storeBlock
  simp only []
  split_ifs <;> rfl

/-- Recording the pivot does not assign `kstep`. -/
theorem storePivot_kstep (k : Int) (st : LahefState K) :
    (storePivot k st).kstep = st.kstep := by
  unfold storePivot
  split_ifs <;> rfl

/-- Processing a column entered with `kstep = 1` leaves `kstep = 1`, or sets it to 2 in
the branch where the diagonal entry failed the test against `alpha * colmax`. -/
theorem processColumn_kstep (C : LahefCollab K R) (n k : Int) (alpha abs_akk colmax : R)
    (st : LahefState K) (h1 : st.kstep = 1) :
    (processColumn C n k alpha abs_akk colmax st).kstep = 1 ∨
      ((processColumn C n k alpha abs_akk colmax st).kstep = 2 ∧
        ¬ abs_akk ≥ alpha * colmax) := by
  unfold processColumn
  rw [storePivot_kstep]
  by_cases h0 : max abs_akk colmax = 0
  · rw [if_pos h0]; left; exact h1
  · rw [if_neg h0]
    unfold pivotColumn
    simp only []
    rw [storeBlock_kstep, interchange_kstep]
    by_cases hp : abs_akk ≥ alpha * colmax
    · rw [if_pos hp]; left; exact h1
    · rw [if_neg hp]
      rcases choosePivot_kstep C n k alpha abs_akk colmax st with h | h
      · left; rw [← h1]; exact h
      · right; exact ⟨h, hp⟩

/-- One pass of the main loop advances by one column, or by two; it advances by two only
when column `k` is not the last one. -/
theorem lahefStep_kstep (C : LahefCollab K R) (n k : Int) (st : LahefState K) :
    (lahefStep C n k st).kstep = 1 ∨ ((lahefStep C n k st).kstep = 2 ∧ k < n - 1) := by
  unfold lahefStep
  simp only []
  generalize hst : ({ st with
    dW := setImagZero C (magma_zgemv (n - k) k (-1) st.dA k
      (setImagZero C (magma_zcopy (n - k) st.dA k k false st.dW k k false) k k) k 1
      (setImagZero C (magma_zcopy (n - k) st.dA k k false st.dW k k false) k k) k k) k k,
    kstep := 1,
    imax := if k < n - 1 then k + magma_izamax C (n - k - 1)
      (setImagZero C (magma_zgemv (n - k) k (-1) st.dA k
        (setImagZero C (magma_zcopy (n - k) st.dA k k false st.dW k k false) k k) k 1
        (setImagZero C (magma_zcopy (n - k) st.dA k k false st.dW k k false) k k) k k) k k)
      (k + 1) k else st.imax } : LahefState K) = s1
  have hs1 : s1.kstep = 1 := by rw [← hst]
  rcases processColumn_kstep C n k _ _ _ s1 hs1 with h | ⟨h, hp⟩
  · left; exact h
  · right
    refine ⟨h, ?_⟩
    by_contra hk
    apply hp
    rw [if_neg hk, mul_zero]
    exact abs_nonneg _

/-- The main loop returns once the fuel exceeds the number of columns still to visit, and
it is left at `k = min(nb-1,n)` or one column later, never beyond `n`. -/
theorem mainLoop_exit (C : LahefCollab K R) (n nb : Int) :
    ∀ (fuel : Nat) (k : Int) (st : LahefState K), k ≤ n → k ≤ min (nb - 1) n + 1 →
      (min (nb - 1) n - k).toNat < fuel →
      ∃ k1 st1, mainLoop C n nb fuel k st = some (k1, st1) ∧
        min (nb - 1) n ≤ k1 ∧ k1 ≤ min (nb - 1) n + 1 ∧ k1 ≤ n := by
  intro fuel
  induction fuel with
  | zero => intro k st _ _ h; omega
  | succ fuel ih =>
    intro k st hkn hkm hf
    unfold mainLoop
    by_cases hc : k < min (nb - 1) n
    · rw [if_pos hc]
      simp only []
      have hmn : min (nb - 1) n ≤ n := min_le_right _ _
      rcases lahefStep_kstep C n k st with h | ⟨h, hk⟩
      · rw [h]
        exact ih (k + 1) _ (by omega) (by omega) (by omega)
      · rw [h]
        exact ih (k + 2) _ (by omega) (by omega) (by omega)
    · rw [if_neg hc]
      exact ⟨k, st, rfl, not_lt.mp hc, hkm, hkn⟩

/-- The blocked update of `A22` returns once the fuel exceeds the number of columns left,
provided the block size is positive. -/
theorem updateLoop_terminates (C : LahefCollab K R) (n nb k : Int) (W : ColMat K)
    (hnb : 1 ≤ nb) :
    ∀ (fuel : Nat) (j : Int) (A : ColMat K), (n - j).toNat < fuel →
      ∃ A1, updateLoop C n nb k W fuel j A = some A1 := by
  intro fuel
  induction fuel with
  | zero => intro j A h; omega
  | succ fuel ih =>
    intro j A hf
    unfold updateLoop
    by_cases hc : j < n
    · rw [if_pos hc]
      simp only []
      exact ih _ _ (by omega)
    · rw [if_neg hc]
      exact ⟨A, rfl⟩

/-- The loop that undoes the interchanges returns once the fuel exceeds its start index. -/
theorem undoLoop_terminates (ipiv : Nat → Int) :
    ∀ (fuel : Nat) (j : Int) (A : ColMat K), j.toNat < fuel →
      ∃ A1, undoLoop ipiv fuel j A = some A1 := by
  intro fuel
  induction fuel with
  | zero => intro j A h; omega
  | succ fuel ih =>
    intro j A hf
    unfold undoLoop
    by_cases hc : j > 0
    · rw [if_pos hc]
      simp only []
      apply ih
      split_ifs <;> omega
    · rw [if_neg hc]
      exact ⟨A, rfl⟩

/-- With `uplo = Lower`, `n ≥ 0`, `nb ≥ 1` and fuel above `n`, the routine returns, and
the number of factored columns is: `nb-1` or `nb` when `n > nb`; `n` when `n < nb`;
`n-1` or `n` when `n = nb`. -/
theorem zlahef_kb (C : LahefCollab K R) (fuel : Nat) (n nb kb : Int) (hA : ColMat K)
    (st : LahefState K) (hn : 0 ≤ n) (hnb : 1 ≤ nb) (hf : n.toNat < fuel) :
    ∃ res, magma_zlahef_gpu C fuel false n nb kb hA st = some res ∧
      0 ≤ res.kb ∧
      (nb < n → res.kb = nb - 1 ∨ res.kb = nb) ∧
      (n < nb → res.kb = n) ∧
      (n = nb → res.kb = n - 1 ∨ res.kb = n) := by
  have hmn : min (nb - 1) n ≤ n := min_le_right _ _
  have h0 : 0 ≤ min (nb - 1) n := le_min (by omega) hn
  obtain ⟨k1, st1, hm, hlo, hhi, hkn⟩ := mainLoop_exit C n nb fuel 0 { st with info := 0 } hn
    (by omega) (by omega)
  obtain ⟨A1, hu⟩ := updateLoop_terminates C n nb k1 st1.dW hnb fuel k1 st1.dA (by omega)
  obtain ⟨A2, hd⟩ := undoLoop_terminates st1.ipiv fuel k1 A1 (by omega)
  refine ⟨_, by simp [magma_zlahef_gpu, hm, hu, hd]; rfl, ?_, ?_, ?_, ?_⟩
  · show 0 ≤ k1
    omega
  · intro h
    show k1 = nb - 1 ∨ k1 = nb
    rw [min_eq_left (by omega)] at hlo hhi
    omega
  · intro h
    show k1 = n
    rw [min_eq_right (by omega)] at hlo
    omega
  · intro h
    show k1 = n - 1 ∨ k1 = n
    rw [min_eq_left (by omega)] at hlo hhi
    omega

end Properties

/-- C18, failing input: `uplo = Lower`, `n = nb = 2` and `A` the 2-by-2 identity.  The
routine returns `KB = 1`, that is `N - 1`, with `info = 0`, although `N ≤ NB`: the main loop
runs while `k < min(nb-1,n)` and so stops one column short when `n = nb` and the last
pivot is 1-by-1.  For the same matrix with `nb = 3` it returns `KB = 2 = N`, and
for the 3-by-3 identity with `nb = 2` it returns `KB = 1 = NB - 1`. -/
theorem C18_kb_short_when_n_eq_nb :
    report (magma_zlahef_gpu exactLahef 4 false 2 2 0 (fun _ _ => 0) (entry eye)) =
      some (0, 1, [1, 0, 0], [1, 1, 1]) ∧
    report (magma_zlahef_gpu exactLahef 4 false 2 3 0 (fun _ _ => 0) (entry eye)) =
      some (0, 2, [1, 2, 0], [1, 1, 1]) ∧
    report (magma_zlahef_gpu exactLahef 4 false 3 2 0 (fun _ _ => 0) (entry eye)) =
      some (0, 1, [1, 0, 0], [1, 1, 1]) := by
  refine ⟨?_, ?_, ?_⟩ <;> decide!

/-- C19, failing input: `uplo = Lower`, `n = 3`, `nb = 4`.  For the identity with its first
row and column set to zero the first column is found entirely zero, `D(1,1) = 0`, and the
routine returns `info = 0`; with the second row and column set to zero it returns
`info = 1` for the zero column 2, and with the third `info = 2`: the zero-column branch
stores the loop index `k`, which counts from 0, while `ipiv` is stored as `kp+1`. -/
theorem C19_info_counts_from_zero :
    report (magma_zlahef_gpu exactLahef 4 false 3 4 0 (fun _ _ => 0) (entry (eyeWithZero 0))) =
      some (0, 3, [1, 2, 3], [0, 1, 1]) ∧
    report (magma_zlahef_gpu exactLahef 4 false 3 4 0 (fun _ _ => 0) (entry (eyeWithZero 1))) =
      some (1, 3, [1, 2, 3], [1, 0, 1]) ∧
    report (magma_zlahef_gpu exactLahef 4 false 3 4 0 (fun _ _ => 0) (entry (eyeWithZero 2))) =
      some (2, 3, [1, 2, 3], [1, 1, 0]) := by
  refine ⟨?_, ?_, ?_⟩ <;> decide!

end Lahef

/-! # The relaxation step in exact real or complex arithmetic -/

namespace Idr

set_option linter.unusedSectionVars false
set_option linter.unusedVariables false

section Exact

variable {K : Type} [RCLike K] [DecidableEq K]

/-- The inner product of a vector with itself is a real number that is not negative. -/
theorem dotc_self_real (n : Nat) (v : Vec K) :
    ((RCLike.re (magma_zdotc n v v) : ℝ) : K) = magma_zdotc n v v ∧
      0 ≤ RCLike.re (magma_zdotc n v v) := by
  have h : ∀ m : Nat, RCLike.im (sumTo m (fun i => star (v i) * v i)) = 0 ∧
      0 ≤ RCLike.re (sumTo m (fun i => star (v i) * v i)) := by
    intro m
    induction m with
    | zero => simp [sumTo]
    | succ m ih =>
      have hz : star (v m) * v m = ((‖v m‖ ^ 2 : ℝ) : K) := by
        rw [RCLike.star_def, RCLike.conj_mul]
        push_cast
        rfl
      simp only [sumTo, map_add, hz, RCLike.ofReal_im, RCLike.ofReal_re, ih.1, add_zero]
      exact ⟨trivial, add_nonneg ih.2 (by positivity)⟩
  have hn := h n
  unfold magma_zdotc
  simp only [Int.toNat_ofNat]
  exact ⟨(RCLike.conj_eq_iff_re.mp (RCLike.conj_eq_iff_im.mpr hn.1)), hn.2⟩

/-- A vector with a nonzero entry among its first `n` has a positive inner product with
itself. -/
theorem dotc_self_pos (n : Nat) (v : Vec K) (h : ∃ i, i < n ∧ v i ≠ 0) :
    0 < RCLike.re (magma_zdotc n v v) := by
  have hterm : ∀ m : Nat, RCLike.re (star (v m) * v m) = ‖v m‖ ^ 2 := by
    intro m
    rw [RCLike.star_def, RCLike.conj_mul, ← RCLike.ofReal_pow, RCLike.ofReal_re]
  have hge : ∀ m : Nat, 0 ≤ RCLike.re (sumTo m (fun i => star (v i) * v i)) := by
    intro m
    induction m with
    | zero => simp [sumTo]
    | succ m ih =>
      simp only [sumTo, map_add, hterm]
      exact add_nonneg ih (by positivity)
  have hpos : ∀ m : Nat, (∃ i, i < m ∧ v i ≠ 0) →
      0 < RCLike.re (sumTo m (fun i => star (v i) * v i)) := by
    intro m
    induction m with
    | zero => rintro ⟨i, hi, _⟩; omega
    | succ m ih =>
      rintro ⟨i, hi, hv⟩
      simp only [sumTo, map_add, hterm]
      rcases Nat.lt_succ_iff_lt_or_eq.mp hi with him | him
      · exact add_pos_of_pos_of_nonneg (ih ⟨i, him, hv⟩) (by positivity)
      · subst him
        have : 0 < ‖v i‖ := norm_pos_iff.mpr hv
        exact add_pos_of_nonneg_of_pos (hge i) (by positivity)
  have := hpos n h
  unfold magma_zdotc
  simpa using this

/-- The squared norm of r − w·t exceeds that of r − (⟨t,r⟩/⟨t,t⟩)·t by |⟨t,r⟩/⟨t,t⟩ − w|²·⟨t,t⟩. -/
theorem residual_shift (n : Nat) (t r : Vec K) (w : K)
    (hT : magma_zdotc n t t ≠ 0) :
    RCLike.re (magma_zdotc n (magma_zaxpy n (-w) t r) (magma_zaxpy n (-w) t r)) =
      RCLike.re (magma_zdotc n
          (magma_zaxpy n (-(magma_zdotc n t r / magma_zdotc n t t)) t r)
          (magma_zaxpy n (-(magma_zdotc n t r / magma_zdotc n t t)) t r)) +
        ‖magma_zdotc n t r / magma_zdotc n t t - w‖ ^ 2 * RCLike.re (magma_zdotc n t t) := by
  obtain ⟨om, hom⟩ : ∃ om, om = magma_zdotc n t r / magma_zdotc n t t := ⟨_, rfl⟩
  rw [← hom]
  obtain ⟨a, ha⟩ : ∃ a : Vec K, a = fun i => r i + (-om) * t i := ⟨_, rfl⟩
  have hax : ∀ u : K, ∀ i, i < n → magma_zaxpy n (-u) t r i = a i + (om - u) * t i := by
    intro u i hi
    have hi2 : (i : Int) < n := by exact_mod_cast hi
    simp only [magma_zaxpy, if_pos hi2, ha]
    ring
  have hax0 : ∀ i, i < n → magma_zaxpy n (-om) t r i = a i := by
    intro i hi
    rw [hax om i hi]
    ring
  have horth : magma_zdotc n t a = 0 := by
    rw [ha, dotc_add_right, dotc_smul_right, hom]
    field_simp
  rw [magma_zdotc_congr n _ _ _ _ (hax w) (hax w),
    magma_zdotc_congr n _ _ _ _ hax0 hax0, dotc_shift n (om - w) a t horth]
  have hT2 := (dotc_self_real n t).1
  have hc : star (om - w) * (om - w) = ((‖om - w‖ ^ 2 : ℝ) : K) := by
    rw [RCLike.star_def, RCLike.conj_mul]
    push_cast
    rfl
  rw [hc, ← hT2, map_add, ← RCLike.ofReal_mul, RCLike.ofReal_re, RCLike.ofReal_re]

/-- C29: in exact arithmetic, for a residual r whose image t = A·r is not zero and for which
rho = |Re⟨t,r⟩ / (‖t‖·‖r‖)| is at least 0.7, the dimension-reduction step takes
omega = ⟨t,r⟩ / ‖t‖², replaces r by r − omega·t and records its norm, which is at most the
norm of r and at most the norm of r − w·t for every scalar w. -/
theorem C29_omega_minimises_residual (C : Collab K ℝ) (E : IdrEnv K ℝ) (n : Nat)
    (st : IdrState K ℝ) (hC : ExactArith C) (hE : SquareSystem E n)
    (hn : st.nrmr = C.dznrm2 n st.r)
    (ht : ∃ i, i < n ∧ matVec E.A st.r i ≠ 0)
    (hrho : 7 / 10 ≤ |C.real (magma_zdotc n (matVec E.A st.r) st.r) /
      (C.dznrm2 n (matVec E.A st.r) * C.dznrm2 n st.r)|) :
    (newOmega C E st).om =
      magma_zdotc n (matVec E.A st.r) st.r / C.make (C.dznrm2 n (matVec E.A st.r) ^ 2) ∧
    (omegaUpdate C E (newOmega C E st)).r =
      magma_zaxpy n (-(newOmega C E st).om) (matVec E.A st.r) st.r ∧
    (omegaUpdate C E (newOmega C E st)).nrmr =
      C.dznrm2 n (omegaUpdate C E (newOmega C E st)).r ∧
    (omegaUpdate C E (newOmega C E st)).nrmr ≤ st.nrmr ∧
    ∀ w : K, (omegaUpdate C E (newOmega C E st)).nrmr ≤
      C.dznrm2 n (magma_zaxpy n (-w) (matVec E.A st.r) st.r) := by
  obtain ⟨hre, hmk, hsq, hnrm⟩ := hC
  obtain ⟨som, _, sr, snr⟩ := sim_dimRed C E n hE st
  have hTpos := dotc_self_pos n (matVec E.A st.r) ht
  have hTreal := (dotc_self_real n (matVec E.A st.r)).1
  have hT : magma_zdotc n (matVec E.A st.r) (matVec E.A st.r) ≠ 0 := by
    intro h0
    rw [h0] at hTpos
    simp at hTpos
  have hnt : C.sqrt (C.real (magma_zdotc n (matVec E.A st.r) (matVec E.A st.r))) =
      C.dznrm2 n (matVec E.A st.r) := by rw [hsq, hre, hnrm]
  have hmake : C.make (C.dznrm2 n (matVec E.A st.r) ^ 2) =
      magma_zdotc n (matVec E.A st.r) (matVec E.A st.r) := by
    rw [hmk, hnrm, Real.sq_sqrt hTpos.le, hTreal]
  have hom : (newOmega C E st).om =
      magma_zdotc n (matVec E.A st.r) st.r /
        magma_zdotc n (matVec E.A st.r) (matVec E.A st.r) := by
    rw [som]
    unfold idr1Omega
    simp only []
    rw [hnt, hn, if_neg (not_lt.mpr hrho), ← sq, hmake]
  have hmin : ∀ w : K, (omegaUpdate C E (newOmega C E st)).nrmr ≤
      C.dznrm2 n (magma_zaxpy n (-w) (matVec E.A st.r) st.r) := by
    intro w
    rw [snr, hnrm, hnrm, hom]
    apply Real.sqrt_le_sqrt
    rw [residual_shift n (matVec E.A st.r) st.r w hT]
    exact le_add_of_nonneg_right (mul_nonneg (by positivity) hTpos.le)
  refine ⟨by rw [hom, hmake], sr, by rw [snr, sr], ?_, hmin⟩
  have h0 := hmin 0
  have hr0 : magma_zdotc n (magma_zaxpy n (-0) (matVec E.A st.r) st.r)
      (magma_zaxpy n (-0) (matVec E.A st.r) st.r) = magma_zdotc n st.r st.r := by
    apply magma_zdotc_congr <;>
    · intro i hi
      have hi2 : (i : Int) < n := by exact_mod_cast hi
      simp [magma_zaxpy, if_pos hi2]
  rw [hnrm n (magma_zaxpy n (-0) (matVec E.A st.r) st.r), hr0, ← hnrm, ← hn] at h0
  exact h0

/-- C29 at the 1-by-1 real system with A = (1) and r = (1): t = (1), rho = 1 and the step
is taken without rescaling. -/
theorem C29_omega_minimises_residual_witness :
    (omegaUpdate (collabOf (RCLike.re : ℝ → ℝ) (fun a => a) Real.sqrt) (scalarEnv 1)
        (newOmega (collabOf (RCLike.re : ℝ → ℝ) (fun a => a) Real.sqrt) (scalarEnv 1)
          scalarState)).nrmr ≤ (scalarState : IdrState ℝ ℝ).nrmr :=
  (C29_omega_minimises_residual (collabOf (RCLike.re : ℝ → ℝ) (fun a => a) Real.sqrt)
    (scalarEnv 1) 1 scalarState
    ⟨fun _ => rfl, fun _ => rfl, fun _ => rfl, fun _ _ => rfl⟩
    ⟨rfl, rfl, rfl, rfl, rfl⟩
    (by simp [collabOf, scalarState, magma_zdotc, sumTo])
    ⟨0, by decide, by simp [matVec, scalarEnv, scalarState, sumTo]⟩
    (by simp [collabOf, scalarState, scalarEnv, matVec, magma_zdotc, sumTo]; norm_num)).2.2.2.1

end Exact

end Idr
